import Mathlib

/-!
# `PtsWaiter` (`structs.cpp`) and `TaskQueue` (`localimageloader.cpp`) of Telegram Desktop

A shallow embedding of the update-sequence reconciliation `PtsWaiter` and of the
background task queue `TaskQueue` with its worker, and theorems about them.  The
definitions of both come first, the theorems after them.

## `PtsWaiter`

* `int32` values are integers; every `int32` assignment that can leave the range is
  wrapped with `toInt32`, and `uint32(x)` is `toUInt32 x`.
* A `QMap<uint64, V>` is the list of its bindings in ascending key order.
* The waiter talks to the rest of the program through `App::main()`: it asks for a timer
  (`ptsWaiterStartTimerFor`) and hands buffered payloads back (`feedUpdate`, `feedUpdates`).
  Every such call is recorded, in program order, as an `Effect`; a method returns the new
  state together with the calls it made.  `App::main()` may be null, which the code tests
  before every call: `App.main` says whether it is there.
-/

namespace Telegram

/-! ## Machine integers -/

/-- Value of an integer stored into an `int32` (two's complement wrap-around). -/
def toInt32 (x : Int) : Int := (x + 2147483648) % 4294967296 - 2147483648

/-- Value of `uint32(x)` for an `int32` value `x`. -/
def toUInt32 (x : Int) : Nat := (x % 4294967296).toNat

/-! ## `QMap<uint64, V>` -/

/-- Bindings of a `QMap<uint64, V>`, in ascending key order. -/
abbrev QMap (V : Type) := List (Nat × V)

/-- Method `QMap::insert(key, value)`: a binding with this key is replaced, otherwise the new
binding is placed at its position in key order. -/
def QMap.insert {V : Type} (k : Nat) (v : V) : QMap V → QMap V
  | [] => [(k, v)]
  | (k', v') :: rest =>
    if k < k' then (k, v) :: (k', v') :: rest
    else if k = k' then (k, v) :: rest
    else (k', v') :: QMap.insert k v rest

/-- Binding of a key, when there is one. -/
def QMap.find {V : Type} (k : Nat) : QMap V → Option V
  | [] => none
  | (k', v') :: rest => if k' = k then some v' else QMap.find k rest

/-- Method `QMap::value(key)`: the bound value, or a default-constructed one. -/
def QMap.value {V : Type} [Inhabited V] (k : Nat) (m : QMap V) : V :=
  (QMap.find k m).getD default

/-! ## Collaborators -/

/-- Identity of the `ChannelData *channel` argument (the waiter only passes it on). -/
abbrev ChannelData := Nat

/-- What the waiter needs from the rest of the program. -/
structure App where
  /-- Whether `App::main()` is non-null. -/
  main : Bool
  /-- Modelled from the spec: the constant `WaitForSkippedTimeout` is declared outside
  `structs.cpp`; the spec calls it "a longer fixed timeout", a number of milliseconds. -/
  WaitForSkippedTimeout : Nat
deriving DecidableEq, Repr

/-- Enumeration `PtsSkippedQueue`: the kind of a buffered payload. -/
inductive PtsSkippedQueue where
  | SkippedUpdate
  | SkippedUpdates
deriving DecidableEq, Repr

/-- A call made on `App::main()`; `U` stands for `MTPUpdate`, `Us` for `MTPUpdates`. -/
inductive Effect (U Us : Type) where
  | ptsWaiterStartTimerFor (channel : ChannelData) (ms : Int)
  | feedUpdate (update : U)
  | feedUpdates (updates : Us)
deriving DecidableEq, Repr

/-! ## State -/

/-- Data members of `class PtsWaiter`. -/
structure PtsWaiter (U Us : Type) where
  _queue : QMap PtsSkippedQueue
  _updateQueue : QMap U
  _updatesQueue : QMap Us
  _good : Int
  _last : Int
  _count : Int
  _applySkippedLevel : Int
  _requesting : Bool
  _waitingForSkipped : Bool
  _waitingForShortPoll : Bool
deriving DecidableEq, Repr

/-- Result of a method: returned value, state afterwards, calls made on `App::main()`. -/
structure Outcome (U Us : Type) (α : Type) where
  ret : α
  st : PtsWaiter U Us
  fx : List (Effect U Us)
deriving DecidableEq, Repr

namespace PtsWaiter

variable {U Us : Type}

/-- Modelled from the spec: the constructor `PtsWaiter::PtsWaiter()` is declared outside
`structs.cpp`.  The spec starts its scenarios from `good = 0` with nothing buffered and
no wait in progress. -/
def fresh : PtsWaiter U Us :=
  { _queue := [], _updateQueue := [], _updatesQueue := [],
    _good := 0, _last := 0, _count := 0, _applySkippedLevel := 0,
    _requesting := false, _waitingForSkipped := false, _waitingForShortPoll := false }

/-- Method `PtsWaiter::clearSkippedUpdates`. -/
def clearSkippedUpdates (w : PtsWaiter U Us) : PtsWaiter U Us :=
  { w with _queue := [], _updateQueue := [], _updatesQueue := [], _applySkippedLevel := 0 }

/-- Modelled from the spec: `PtsWaiter::inited()` is declared outside `structs.cpp`.
The spec calls a waiter not yet initialised when no `good` is established (`good = 0`
in its scenarios); a confirmed sequence value is positive. -/
def inited (w : PtsWaiter U Us) : Bool := decide (0 < w._good)

/-- Modelled from the spec: `PtsWaiter::init(pts)` is declared outside `structs.cpp`.
The spec has it establish `good` and `last` at `pts`, and its scenario
(`updated(5, 5)` then `updated(10, 5)` giving `count_total = 10`) puts `count_total`
at `pts` as well; the waiter starts over, so what was buffered before is dropped. -/
def init (pts : Int) (w : PtsWaiter U Us) : PtsWaiter U Us :=
  clearSkippedUpdates { w with _good := pts, _last := pts, _count := pts }

/-- The guarded call `if (App::main()) App::main()->ptsWaiterStartTimerFor(channel, ms)`. -/
def startTimerFor (app : App) (channel : ChannelData) (ms : Int) : List (Effect U Us) :=
  if app.main then [Effect.ptsWaiterStartTimerFor channel ms] else []

/-- Packed key `uint64(uint32(_last)) << 32 | uint64(uint32(_count))`. -/
def packKey (last count : Int) : Nat := (toUInt32 last <<< 32) ||| toUInt32 count

/-- Method `PtsWaiter::ptsKey`: records the kind under the packed key and returns the key. -/
def ptsKey (w : PtsWaiter U Us) (queue : PtsSkippedQueue) : Nat × PtsWaiter U Us :=
  (packKey w._last w._count,
   { w with _queue := QMap.insert (packKey w._last w._count) queue w._queue })

/-- Method `PtsWaiter::checkForWaiting`. -/
def checkForWaiting (app : App) (w : PtsWaiter U Us) (channel : ChannelData) :
    List (Effect U Us) :=
  if !w._waitingForSkipped && !w._waitingForShortPoll && app.main then
    [Effect.ptsWaiterStartTimerFor channel (-1)]
  else []

/-- Method `PtsWaiter::setWaitingForSkipped`. -/
def setWaitingForSkipped (app : App) (w : PtsWaiter U Us) (channel : ChannelData)
    (ms : Int) : Outcome U Us Unit :=
  if 0 ≤ ms then
    { ret := (), st := { w with _waitingForSkipped := true },
      fx := startTimerFor app channel ms }
  else
    { ret := (), st := { w with _waitingForSkipped := false },
      fx := checkForWaiting app { w with _waitingForSkipped := false } channel }

/-- Method `PtsWaiter::setWaitingForShortPoll`. -/
def setWaitingForShortPoll (app : App) (w : PtsWaiter U Us) (channel : ChannelData)
    (ms : Int) : Outcome U Us Unit :=
  if 0 ≤ ms then
    { ret := (), st := { w with _waitingForShortPoll := true },
      fx := startTimerFor app channel ms }
  else
    { ret := (), st := { w with _waitingForShortPoll := false },
      fx := checkForWaiting app { w with _waitingForShortPoll := false } channel }

/-- Method `PtsWaiter::check`: `false` means the update has to be saved and applied later. -/
def check (app : App) (w : PtsWaiter U Us) (channel : ChannelData) (pts count : Int) :
    Outcome U Us Bool :=
  if !inited w then
    { ret := true, st := init pts w, fx := [] }
  else
    let w1 := { w with _last := max w._last pts }
    let w2 := { w1 with _count := toInt32 (w1._count + count) }
    if w2._last = w2._count then
      { ret := true, st := { w2 with _good := w2._last }, fx := [] }
    else if w2._last < w2._count then
      let r := setWaitingForSkipped app w2 channel 1
      { ret := decide (count = 0), st := r.st, fx := r.fx }
    else
      let r := setWaitingForSkipped app w2 channel app.WaitForSkippedTimeout
      { ret := decide (count = 0), st := r.st, fx := r.fx }

/-- Overload `PtsWaiter::updated(channel, pts, count)`. -/
def updated (app : App) (w : PtsWaiter U Us) (channel : ChannelData) (pts count : Int) :
    Outcome U Us Bool :=
  if w._requesting || w._applySkippedLevel != 0 then
    { ret := true, st := w, fx := [] }
  else if decide (pts ≤ w._good) && decide (0 < count) then
    { ret := false, st := w, fx := [] }
  else check app w channel pts count

/-- Overload `PtsWaiter::updated(channel, pts, count, const MTPUpdates &updates)`. -/
def updatedUpdates (app : App) (w : PtsWaiter U Us) (channel : ChannelData)
    (pts count : Int) (updates : Us) : Outcome U Us Bool :=
  if w._requesting || w._applySkippedLevel != 0 then
    { ret := true, st := w, fx := [] }
  else if decide (pts ≤ w._good) && decide (0 < count) then
    { ret := false, st := w, fx := [] }
  else
    let c := check app w channel pts count
    if c.ret then c
    else
      let k := ptsKey c.st PtsSkippedQueue.SkippedUpdates
      { ret := false,
        st := { k.2 with _updatesQueue := QMap.insert k.1 updates k.2._updatesQueue },
        fx := c.fx }

/-- Overload `PtsWaiter::updated(channel, pts, count, const MTPUpdate &update)`. -/
def updatedUpdate (app : App) (w : PtsWaiter U Us) (channel : ChannelData)
    (pts count : Int) (update : U) : Outcome U Us Bool :=
  if w._requesting || w._applySkippedLevel != 0 then
    { ret := true, st := w, fx := [] }
  else if decide (pts ≤ w._good) && decide (0 < count) then
    { ret := false, st := w, fx := [] }
  else
    let c := check app w channel pts count
    if c.ret then c
    else
      let k := ptsKey c.st PtsSkippedQueue.SkippedUpdate
      { ret := false,
        st := { k.2 with _updateQueue := QMap.insert k.1 update k.2._updateQueue },
        fx := c.fx }

/-- Body of the loop of `applySkippedUpdates` for one binding of `_queue`. -/
def feedSkipped [Inhabited U] [Inhabited Us] (w : PtsWaiter U Us)
    (i : Nat × PtsSkippedQueue) : Effect U Us :=
  match i.2 with
  | PtsSkippedQueue.SkippedUpdate => Effect.feedUpdate (QMap.value i.1 w._updateQueue)
  | PtsSkippedQueue.SkippedUpdates => Effect.feedUpdates (QMap.value i.1 w._updatesQueue)

/-- State in which the loop of `applySkippedUpdates` runs: the wait flag has been
cleared and `_applySkippedLevel` incremented. -/
def replayState (app : App) (w : PtsWaiter U Us) (channel : ChannelData) :
    PtsWaiter U Us :=
  { (setWaitingForSkipped app w channel (-1)).st with
    _applySkippedLevel :=
      toInt32 ((setWaitingForSkipped app w channel (-1)).st._applySkippedLevel + 1) }

/-- Method `PtsWaiter::applySkippedUpdates`.  The loop walks `_queue` from `cbegin()` to
`cend()`; the handlers `feedUpdate` and `feedUpdates` come back into the waiter through
`updated`, which is the identity on the state while `_applySkippedLevel` is non-zero
(see the pass-through theorem below), so the state is the same for every iteration. -/
def applySkippedUpdates [Inhabited U] [Inhabited Us] (app : App) (w : PtsWaiter U Us)
    (channel : ChannelData) : Outcome U Us Unit :=
  if !w._waitingForSkipped then
    { ret := (), st := w, fx := [] }
  else
    let r := setWaitingForSkipped app w channel (-1)
    if !app.main || r.st._queue.isEmpty then r
    else
      let w1 := replayState app w channel
      let w2 := { w1 with _applySkippedLevel := toInt32 (w1._applySkippedLevel - 1) }
      { ret := (), st := clearSkippedUpdates w2,
        fx := r.fx ++ w1._queue.map (feedSkipped w1) }

/-! ## Runs -/

/-- One call of `updated`: which overload, with its arguments. -/
inductive Call (U Us : Type) where
  | plain (pts count : Int)
  | batch (pts count : Int) (updates : Us)
  | single (pts count : Int) (update : U)
deriving DecidableEq, Repr

/-- The `pts` argument of a call. -/
def Call.pts : Call U Us → Int
  | Call.plain p _ => p
  | Call.batch p _ _ => p
  | Call.single p _ _ => p

/-- The `count` argument of a call. -/
def Call.count : Call U Us → Int
  | Call.plain _ c => c
  | Call.batch _ c _ => c
  | Call.single _ c _ => c

/-- Runs the overload of `updated` that a call names. -/
def call (app : App) (channel : ChannelData) (w : PtsWaiter U Us) :
    Call U Us → Outcome U Us Bool
  | Call.plain p c => updated app w channel p c
  | Call.batch p c us => updatedUpdates app w channel p c us
  | Call.single p c u => updatedUpdate app w channel p c u

/-- State after a list of `updated` calls, made one after the other. -/
def runCalls (app : App) (channel : ChannelData) :
    PtsWaiter U Us → List (Call U Us) → PtsWaiter U Us
  | w, [] => w
  | w, c :: cs => runCalls app channel (call app channel w c).st cs

/-- Whether `updated(channel, pts, count, payload)` gets to its `insert` statement: the
waiter is neither requesting nor replaying, the update is not a duplicate and
`check` returns `false`. -/
def reachesInsert (app : App) (w : PtsWaiter U Us) (channel : ChannelData)
    (pts count : Int) : Bool :=
  !(w._requesting || w._applySkippedLevel != 0) &&
  !(decide (pts ≤ w._good) && decide (0 < count)) &&
  !(check app w channel pts count).ret

/-- The delivery a call is owed later, if the call buffers its payload: `feedUpdate` for
a single update, `feedUpdates` for a batch. -/
def owed (app : App) (channel : ChannelData) (w : PtsWaiter U Us) :
    Call U Us → List (Effect U Us)
  | Call.plain _ _ => []
  | Call.batch p c us =>
    if reachesInsert app w channel p c then [Effect.feedUpdates us] else []
  | Call.single p c u =>
    if reachesInsert app w channel p c then [Effect.feedUpdate u] else []

/-- Arrival log of a list of calls: the deliveries owed to the payloads that were
buffered, in the order of the calls. -/
def arrivals (app : App) (channel : ChannelData) :
    PtsWaiter U Us → List (Call U Us) → List (Effect U Us)
  | _, [] => []
  | w, c :: cs => owed app channel w c ++ arrivals app channel (call app channel w c).st cs

/-- Whether a call on `App::main()` hands a payload back. -/
def Effect.isFeed : Effect U Us → Bool
  | Effect.ptsWaiterStartTimerFor _ _ => false
  | Effect.feedUpdate _ => true
  | Effect.feedUpdates _ => true

/-- The payloads handed back among the calls made, in order. -/
def deliveries (fx : List (Effect U Us)) : List (Effect U Us) :=
  fx.filter Effect.isFeed

/-- Whether a list of calls stays in the range the protocol uses: every `count` is
non-negative, every `pts` fits an `int32`, and `_count + count` does not overflow. -/
def inRange (app : App) (channel : ChannelData) :
    PtsWaiter U Us → List (Call U Us) → Bool
  | _, [] => true
  | w, c :: cs =>
    decide (0 ≤ c.count) && decide (c.pts < 2147483648) &&
    decide (w._count + c.count < 2147483648) &&
    inRange app channel (call app channel w c).st cs

/-- A public operation of the waiter. -/
inductive Op (U Us : Type) where
  | init (pts : Int)
  | updated (channel : ChannelData) (c : Call U Us)
  | setWaitingForSkipped (channel : ChannelData) (ms : Int)
  | setWaitingForShortPoll (channel : ChannelData) (ms : Int)
  | applySkippedUpdates (channel : ChannelData)
  | clearSkippedUpdates
deriving DecidableEq, Repr

/-- State after one public operation. -/
def step [Inhabited U] [Inhabited Us] (app : App) (w : PtsWaiter U Us) :
    Op U Us → PtsWaiter U Us
  | Op.init pts => init pts w
  | Op.updated channel c => (call app channel w c).st
  | Op.setWaitingForSkipped channel ms => (setWaitingForSkipped app w channel ms).st
  | Op.setWaitingForShortPoll channel ms => (setWaitingForShortPoll app w channel ms).st
  | Op.applySkippedUpdates channel => (applySkippedUpdates app w channel).st
  | Op.clearSkippedUpdates => clearSkippedUpdates w

/-- State after a list of public operations, made one after the other. -/
def run [Inhabited U] [Inhabited Us] (app : App) :
    PtsWaiter U Us → List (Op U Us) → PtsWaiter U Us
  | w, [] => w
  | w, op :: ops => run app (step app w op) ops

/-- Invariant of a run of `updated` calls that started with the maps empty, for the
arrival log `log` of the run: walking `_queue` re-delivers exactly `log`, the keys of
`_queue` ascend strictly, and for an initialised waiter `_last` and `_count` are in
range with no key above the key of `(_last, _count)`, while a waiter that is not
initialised has nothing buffered. -/
def Buffered [Inhabited U] [Inhabited Us] (w : PtsWaiter U Us)
    (log : List (Effect U Us)) : Prop :=
  w._queue.map (feedSkipped w) = log ∧
  List.Pairwise (fun a b => a < b) (w._queue.map Prod.fst) ∧
  (inited w = true →
    0 < w._last ∧ w._last < 2147483648 ∧ 0 ≤ w._count ∧ w._count < 2147483648 ∧
    ∀ p ∈ w._queue, p.1 ≤ packKey w._last w._count) ∧
  (inited w = false → w._queue = [])

/-! ## Outcomes of a call -/

/-- Outcome "accepted": the call returns `true`. -/
def Accepted (o : Outcome U Us Bool) : Prop := o.ret = true

/-- Outcome "duplicate dropped": the call returns `false` and the state after the call
is the state `w` before it. -/
def Dropped (w : PtsWaiter U Us) (o : Outcome U Us Bool) : Prop :=
  o.ret = false ∧ o.st = w

/-- Outcome "buffered and waiting" of the single-update overload: the call returns
`false`, the state has changed, `_waitingForSkipped` is set, and under the key of the
new `(_last, _count)` `_queue` holds `SkippedUpdate` and `_updateQueue` the payload. -/
def StoredUpdate (w : PtsWaiter U Us) (update : U) (o : Outcome U Us Bool) : Prop :=
  o.ret = false ∧ o.st ≠ w ∧ o.st._waitingForSkipped = true ∧
  QMap.find (packKey o.st._last o.st._count) o.st._queue =
    some PtsSkippedQueue.SkippedUpdate ∧
  QMap.find (packKey o.st._last o.st._count) o.st._updateQueue = some update

/-- Outcome "buffered and waiting" of the batch overload: the call returns `false`, the
state has changed, `_waitingForSkipped` is set, and under the key of the new
`(_last, _count)` `_queue` holds `SkippedUpdates` and `_updatesQueue` the payload. -/
def StoredUpdates (w : PtsWaiter U Us) (updates : Us) (o : Outcome U Us Bool) : Prop :=
  o.ret = false ∧ o.st ≠ w ∧ o.st._waitingForSkipped = true ∧
  QMap.find (packKey o.st._last o.st._count) o.st._queue =
    some PtsSkippedQueue.SkippedUpdates ∧
  QMap.find (packKey o.st._last o.st._count) o.st._updatesQueue = some updates

/-! ## Concrete states of the spec's scenarios -/

/-- Collaborator with `App::main()` present and a one-second gap timeout. -/
def appWithMain : App := { main := true, WaitForSkippedTimeout := 1000 }

/-- Collaborator with `App::main()` null. -/
def appWithoutMain : App := { main := false, WaitForSkippedTimeout := 1000 }

/-- Scenario 4 after its first call: `updated(ch, 5, 5)` on a fresh waiter. -/
def afterFirst : PtsWaiter Nat Nat := (updated appWithMain fresh 7 5 5).st

/-- Scenario 4 at its end: `good = last = count_total = 10`. -/
def synced10 : PtsWaiter Nat Nat := (updated appWithMain afterFirst 7 10 5).st

/-- Scenario 5 at its end: `good = 10`, `last = 20`, `count_total = 15` and the payload
`111` of `pts = 20` buffered. -/
def gap20 : PtsWaiter Nat Nat := (updatedUpdate appWithMain synced10 7 20 5 111).st

/-- The gap scenario once a later update has brought `count_total` to `last = 20`:
`good = last = count_total = 20`, the payload `111` still buffered. -/
def filled20 : PtsWaiter Nat Nat := { gap20 with _good := 20, _count := 20 }

end PtsWaiter

/-! # Background task queue (`TaskQueue`, `TaskQueueWorker`) of `localimageloader.cpp`

The owner thread and the one worker thread touch `_tasksToProcess` and `_tasksToFinish`
only under their mutexes, so a run is an interleaving of the locked sections.  Each
locked section, together with the signal emissions and flag tests around it, is one
`Event`; `perform` carries it out on the shared state.  Calls of `process()` and `finish()`
are recorded in the histories `processed` and `finished`, in the order in which they
are made. -/

/-- Value of `Task::id()`, a `uint64`. -/
abbrev TaskId := Nat

/-- A task behind a `TaskPtr`: `ptr` tells the task objects apart (two `TaskPtr` are
equal when they point to the same object) and `id` is what `id()` returns. -/
structure Task where
  ptr : Nat
  id : TaskId
deriving DecidableEq, Repr

/-- Where the worker is in `TaskQueueWorker::onTaskAdded`. -/
inductive WorkerPc where
  /-- Outside `onTaskAdded`, in the event loop of the thread. -/
  | idle
  /-- At the top of the loop body, before the first locked section. -/
  | atLock
  /-- Inside `task->process()`, with the local `task`. -/
  | inProcess (task : Task)
  /-- Inside `QCoreApplication::processEvents()`, before the loop test. -/
  | inEvents
deriving DecidableEq, Repr

/-- Data members of `TaskQueue` and of its `TaskQueueWorker`, the signals in flight
between the two threads, and the histories. -/
structure TaskQueue where
  _tasksToProcess : List Task
  _tasksToFinish : List Task
  /-- Whether `_thread` (and with it `_worker`) is non-null. -/
  _thread : Bool
  /-- Field `_stopTimer`: `none` when it is null, else whether the timer is active. -/
  _stopTimer : Option Bool
  /-- Member `_inTaskAdded` of the worker. -/
  _inTaskAdded : Bool
  /-- Local `someTasksLeft` of `onTaskAdded`. -/
  someTasksLeft : Bool
  pc : WorkerPc
  /-- Whether `requestInterruption()` was called on `_thread`. -/
  interruptionRequested : Bool
  /-- Emitted `taskAdded()` signals not yet delivered to the worker. -/
  taskAdded : Nat
  /-- Emitted `taskProcessed()` signals. -/
  taskProcessed : Nat
  /-- Whether the owner is blocked in `_thread->wait()` inside `stop()`. -/
  waiting : Bool
  /-- Tasks handed to `addTask` and `addTasks`, in order. -/
  submitted : List Task
  /-- Tasks on which `process()` was called, in order. -/
  processed : List Task
  /-- Tasks on which `finish()` was called, in order. -/
  finished : List Task
deriving DecidableEq, Repr

namespace TaskQueue

/-- Constructor `TaskQueue::TaskQueue(parent, stopTimeoutMs)`: the timer is created only
for a positive timeout and is not started. -/
def ctor (stopTimeoutMs : Int) : TaskQueue :=
  { _tasksToProcess := [], _tasksToFinish := [], _thread := false,
    _stopTimer := if 0 < stopTimeoutMs then some false else none,
    _inTaskAdded := false, someTasksLeft := false, pc := WorkerPc.idle,
    interruptionRequested := false, taskAdded := 0, taskProcessed := 0,
    waiting := false, submitted := [], processed := [], finished := [] }

/-- Method `TaskQueue::wakeThread`: creates the thread and a worker (not yet inside
`onTaskAdded`) if there is none, stops the timer if there is one, emits `taskAdded()`. -/
def wakeThread (q : TaskQueue) : TaskQueue :=
  let q1 : TaskQueue :=
    if !q._thread then
      { q with _thread := true, _inTaskAdded := false, pc := WorkerPc.idle,
               interruptionRequested := false }
    else q
  { q1 with _stopTimer := q1._stopTimer.map (fun _ => false),
            taskAdded := q1.taskAdded + 1 }

/-- Method `TaskQueue::addTask`: `push_back` under the mutex, `wakeThread`, and the
returned `task->id()`. -/
def addTask (q : TaskQueue) (task : Task) : TaskQueue × TaskId :=
  (wakeThread { q with _tasksToProcess := q._tasksToProcess ++ [task],
                       submitted := q.submitted ++ [task] },
   task.id)

/-- Method `TaskQueue::addTasks`: `append` under the mutex, then `wakeThread`. -/
def addTasks (q : TaskQueue) (tasks : List Task) : TaskQueue :=
  wakeThread { q with _tasksToProcess := q._tasksToProcess ++ tasks,
                      submitted := q.submitted ++ tasks }

/-- The loop `for (i = 0; i != l; ++i) if (list.at(i)->id() == id) { list.removeAt(i);
return; }` of `cancelTask`: `none` when the loop ends without a match. -/
def removeFirst (id : TaskId) : List Task → Option (List Task)
  | [] => none
  | t :: rest =>
    if t.id = id then some rest
    else (removeFirst id rest).map (fun r => t :: r)

/-- Method `TaskQueue::cancelTask`: the loop over `_tasksToProcess`, and only when it
finds nothing the loop over `_tasksToFinish`. -/
def cancelTask (q : TaskQueue) (id : TaskId) : TaskQueue :=
  match removeFirst id q._tasksToProcess with
  | some l => { q with _tasksToProcess := l }
  | none =>
    match removeFirst id q._tasksToFinish with
    | some l => { q with _tasksToFinish := l }
    | none => q

/-- One turn of the loop of `TaskQueue::onTaskProcessed`: with `_tasksToFinish` empty
the loop is left and the timer, if there is one, is started when `_tasksToProcess` is
empty; otherwise the front task is popped and `finish()` is called on it. -/
def onTaskProcessedTurn (q : TaskQueue) : TaskQueue :=
  match q._tasksToFinish with
  | [] =>
    if q._tasksToProcess.isEmpty then
      { q with _stopTimer := q._stopTimer.map (fun _ => true) }
    else q
  | task :: rest =>
    { q with _tasksToFinish := rest, finished := q.finished ++ [task] }

/-- Method `TaskQueue::stop` up to `_thread->wait()`: with a thread, interruption is
requested and the owner waits for the worker to leave `onTaskAdded`; without one the
two lists are cleared at once. -/
def stop (q : TaskQueue) : TaskQueue :=
  if q._thread then
    { q with interruptionRequested := true, waiting := true }
  else
    { q with _tasksToProcess := [], _tasksToFinish := [] }

/-- Method `TaskQueue::stop` from the return of `_thread->wait()`: worker and thread are
deleted (signals queued for the worker go with it) and the two lists are cleared. -/
def stopJoined (q : TaskQueue) : TaskQueue :=
  { q with _thread := false, waiting := false, taskAdded := 0,
           _tasksToProcess := [], _tasksToFinish := [] }

/-- Entry of the slot `TaskQueueWorker::onTaskAdded`: a call made while `_inTaskAdded`
is set returns at once. -/
def onTaskAddedEnter (q : TaskQueue) : TaskQueue :=
  if q._inTaskAdded then q
  else { q with _inTaskAdded := true, someTasksLeft := false, pc := WorkerPc.atLock }

/-- First locked section of the loop body of `onTaskAdded`: the front of
`_tasksToProcess` is read, not popped, and `process()` is called on it; with the list
empty the body goes on to `processEvents()`. -/
def workerTake (q : TaskQueue) : TaskQueue :=
  match q._tasksToProcess with
  | [] => { q with pc := WorkerPc.inEvents }
  | task :: _ => { q with pc := WorkerPc.inProcess task, processed := q.processed ++ [task] }

/-- Second locked section of the loop body of `onTaskAdded`, after `process()` has
returned for `task`: only if `task` is still the front of `_tasksToProcess` is it
popped and pushed to `_tasksToFinish`; `taskProcessed()` is emitted if `_tasksToFinish`
was empty just before. -/
def workerCommit (q : TaskQueue) (task : Task) : TaskQueue :=
  match q._tasksToProcess with
  | [] => { q with pc := WorkerPc.inEvents }
  | front :: rest =>
    if front = task then
      { q with _tasksToProcess := rest,
               someTasksLeft := !rest.isEmpty,
               _tasksToFinish := q._tasksToFinish ++ [task],
               taskProcessed :=
                 if q._tasksToFinish.isEmpty then q.taskProcessed + 1 else q.taskProcessed,
               pc := WorkerPc.inEvents }
    else { q with pc := WorkerPc.inEvents }

/-- The test `while (someTasksLeft && !thread()->isInterruptionRequested())` and, when
it fails, the return from `onTaskAdded`. -/
def workerLoopTest (q : TaskQueue) : TaskQueue :=
  if q.someTasksLeft && !q.interruptionRequested then { q with pc := WorkerPc.atLock }
  else { q with _inTaskAdded := false, pc := WorkerPc.idle }

/-- An atomic action of one of the two threads. -/
inductive Event where
  /-- Owner: `addTask(task)`. -/
  | addTask (task : Task)
  /-- Owner: `addTasks(tasks)`. -/
  | addTasks (tasks : List Task)
  /-- Owner: `cancelTask(id)`. -/
  | cancelTask (id : TaskId)
  /-- Owner: one turn of the loop of `onTaskProcessed`. -/
  | onTaskProcessedTurn
  /-- Owner: `stop()` is called and runs up to `_thread->wait()`. -/
  | stop
  /-- Owner: `_thread->wait()` returns and `stop()` runs to its end. -/
  | stopJoined
  /-- Owner: the single-shot `_stopTimer` fires and its slot `stop()` is called. -/
  | stopTimerTimeout
  /-- Worker: a queued `taskAdded()` is delivered and `onTaskAdded` is entered. -/
  | taskAddedDelivered
  /-- Worker: first locked section and the call of `process()`. -/
  | workerTake
  /-- Worker: `process()` returns, second locked section. -/
  | workerCommit
  /-- Worker: `processEvents()` returns, loop test. -/
  | workerLoopTest
deriving DecidableEq, Repr

/-- State after one event.  An event whose thread is not at that point leaves the state
as it is: the owner does nothing while it is blocked in `wait()`, `wait()` returns only
when the worker is outside `onTaskAdded`, a signal is delivered only while the worker
is in an event loop (that of the thread, not yet asked to quit, or `processEvents()`),
and the three worker steps need the worker at theirs. -/
def perform (q : TaskQueue) : Event → TaskQueue
  | Event.addTask task => if q.waiting then q else (addTask q task).1
  | Event.addTasks tasks => if q.waiting then q else addTasks q tasks
  | Event.cancelTask id => if q.waiting then q else cancelTask q id
  | Event.onTaskProcessedTurn => if q.waiting then q else onTaskProcessedTurn q
  | Event.stop => if q.waiting then q else stop q
  | Event.stopJoined =>
    if q.waiting && decide (q.pc = WorkerPc.idle) then stopJoined q else q
  | Event.stopTimerTimeout =>
    if !q.waiting && decide (q._stopTimer = some true) then
      stop { q with _stopTimer := some false }
    else q
  | Event.taskAddedDelivered =>
    if q._thread && decide (0 < q.taskAdded) &&
        ((decide (q.pc = WorkerPc.idle) && !q.waiting) ||
          decide (q.pc = WorkerPc.inEvents)) then
      onTaskAddedEnter { q with taskAdded := q.taskAdded - 1 }
    else q
  | Event.workerTake =>
    if decide (q.pc = WorkerPc.atLock) then workerTake q else q
  | Event.workerCommit =>
    match q.pc with
    | WorkerPc.inProcess task => workerCommit q task
    | _ => q
  | Event.workerLoopTest =>
    if decide (q.pc = WorkerPc.inEvents) then workerLoopTest q else q

/-- State after a list of events, one after the other. -/
def performAll : TaskQueue → List Event → TaskQueue
  | q, [] => q
  | q, e :: es => performAll (perform q e) es

/-- Tasks that the `addTask` and `addTasks` events of a list hand over, in order. -/
def handedOver : List Event → List Task
  | [] => []
  | Event.addTask task :: es => task :: handedOver es
  | Event.addTasks tasks :: es => tasks ++ handedOver es
  | _ :: es => handedOver es

/-- Whether an event is a call of `cancelTask` or of `stop` (by the owner or by the
timer). -/
def Event.cancelsOrStops : Event → Bool
  | Event.cancelTask _ => true
  | Event.stop => true
  | Event.stopJoined => true
  | Event.stopTimerTimeout => true
  | _ => false

/-- Invariant of every run in which no task is handed over twice: the submitted tasks
are distinct; pending and processed tasks were submitted; no task occurs twice in
`_tasksToProcess`, `_tasksToFinish` and `finished` taken together, nor in `processed`;
a pending task has been processed only if the worker is inside `process()` for it;
completed and finished tasks have been processed; the task in `process()` is not yet
completed and, if still pending, is the front; without a thread the worker is idle. -/
structure Inv (q : TaskQueue) : Prop where
  sub_nodup : q.submitted.Nodup
  pend_sub : ∀ t ∈ q._tasksToProcess, t ∈ q.submitted
  proc_sub : ∀ t ∈ q.processed, t ∈ q.submitted
  lists_nodup : (q._tasksToProcess ++ q._tasksToFinish ++ q.finished).Nodup
  proc_nodup : q.processed.Nodup
  pend_proc : ∀ t ∈ q._tasksToProcess, t ∈ q.processed → q.pc = WorkerPc.inProcess t
  done_proc : ∀ t, t ∈ q._tasksToFinish ∨ t ∈ q.finished → t ∈ q.processed
  fly_proc : ∀ t, q.pc = WorkerPc.inProcess t →
    t ∈ q.processed ∧ t ∉ q._tasksToFinish ∧ t ∉ q.finished
  fly_front : ∀ t, q.pc = WorkerPc.inProcess t → t ∈ q._tasksToProcess →
    q._tasksToProcess.head? = some t
  no_thread : q._thread = false → q.pc = WorkerPc.idle

/-- Invariant of every run without `cancelTask` and `stop`: the finished, the completed
and the pending tasks, in this order, are the submitted tasks in the order of submission;
the task in `process()` is the front of `_tasksToProcess`; the owner is not blocked. -/
structure InOrder (q : TaskQueue) : Prop where
  order : q.finished ++ q._tasksToFinish ++ q._tasksToProcess = q.submitted
  front : ∀ t, q.pc = WorkerPc.inProcess t → q._tasksToProcess.head? = some t
  awake : q.waiting = false

/-! ## Concrete tasks and runs -/

/-- A task with id 101. -/
def taskA : Task := { ptr := 1, id := 101 }

/-- A task with id 102. -/
def taskB : Task := { ptr := 2, id := 102 }

/-- Another task object whose `id()` is 101 as well. -/
def taskC : Task := { ptr := 3, id := 101 }

/-- A run that submits `taskA` and `taskB` and lets the worker and the finish loop run
until both lists are empty. -/
def fifoRun : List Event :=
  [Event.addTask taskA, Event.addTask taskB, Event.taskAddedDelivered,
   Event.workerTake, Event.workerCommit, Event.workerLoopTest,
   Event.workerTake, Event.workerCommit, Event.workerLoopTest,
   Event.onTaskProcessedTurn, Event.onTaskProcessedTurn, Event.onTaskProcessedTurn]

/-- A run up to the point where the worker is inside `process()` for `taskA`, with
`taskB` waiting behind it. -/
def inFlightRun : List Event :=
  [Event.addTask taskA, Event.addTask taskB, Event.taskAddedDelivered, Event.workerTake]

/-- The run `inFlightRun` followed by `cancelTask(101)` while `taskA` is being
processed, the worker's second locked section and loop test, the processing of `taskB`
and the finish loop. -/
def cancelInFlightRun : List Event :=
  inFlightRun ++
  [Event.cancelTask 101, Event.workerCommit, Event.workerLoopTest,
   Event.taskAddedDelivered, Event.workerTake, Event.workerCommit, Event.workerLoopTest,
   Event.onTaskProcessedTurn, Event.onTaskProcessedTurn]

/-- A run in which `taskB` is cancelled while it is still waiting behind `taskA`. -/
def cancelPendingRun : List Event :=
  inFlightRun ++
  [Event.cancelTask 102, Event.workerCommit, Event.workerLoopTest,
   Event.onTaskProcessedTurn, Event.onTaskProcessedTurn]

/-- A queue holding two different tasks with the same id. -/
def sameIdQueue : TaskQueue :=
  { ctor 0 with _tasksToProcess := [taskA, taskB, taskC] }

/-- The steps that the worker has left in `onTaskAdded` from where it is: the rest of
the loop body up to the loop test. -/
def joinSteps : WorkerPc → List Event
  | WorkerPc.idle => []
  | WorkerPc.atLock => [Event.workerTake, Event.workerCommit, Event.workerLoopTest]
  | WorkerPc.inProcess _ => [Event.workerCommit, Event.workerLoopTest]
  | WorkerPc.inEvents => [Event.workerLoopTest]

/-- A run on a queue with a timer: `taskA` is submitted and cancelled before the worker
looks at the list, then the worker enters `onTaskAdded`, finds nothing and returns. -/
def cancelBeforeTakeRun : List Event :=
  [Event.addTask taskA, Event.cancelTask 101, Event.taskAddedDelivered,
   Event.workerTake, Event.workerLoopTest]

/-- A run on a queue with a timer: `addTasks` is called with an empty list, the worker
enters `onTaskAdded`, finds nothing and returns. -/
def emptyAddRun : List Event :=
  [Event.addTasks [], Event.taskAddedDelivered, Event.workerTake, Event.workerLoopTest]

/-- A run in which `taskA` is processed and finished and the finish loop is left with
both lists empty. -/
def idleRun : List Event :=
  [Event.addTask taskA, Event.taskAddedDelivered, Event.workerTake, Event.workerCommit,
   Event.workerLoopTest, Event.onTaskProcessedTurn, Event.onTaskProcessedTurn]

/-- A run in which `taskB` is submitted after the worker has moved `taskA` to
`_tasksToFinish` and before it reaches `processEvents()`: the `taskAdded()` of `taskB`
is delivered inside `processEvents()`, where the nested `onTaskAdded` returns at once,
and then the loop test is made. -/
def lateAddRun : List Event :=
  [Event.addTask taskA, Event.taskAddedDelivered, Event.workerTake, Event.workerCommit,
   Event.addTask taskB, Event.taskAddedDelivered, Event.workerLoopTest]

/-- The run `inFlightRun` followed by `cancelTask(101)` while `taskA` is being
processed, the worker's second locked section, the delivery of the second `taskAdded()`
inside `processEvents()` and the loop test. -/
def cancelStrandsRun : List Event :=
  inFlightRun ++
  [Event.cancelTask 101, Event.workerCommit, Event.taskAddedDelivered,
   Event.workerLoopTest]

/-- A run in which `taskA` is moved to `_tasksToFinish` with `taskB` behind it, and
`taskB` is cancelled while it is being processed; the loop test is then made with
`_tasksToProcess` empty. -/
def cancelLastRun : List Event :=
  inFlightRun ++
  [Event.workerCommit, Event.workerLoopTest, Event.workerTake, Event.cancelTask 102,
   Event.workerCommit, Event.workerLoopTest]

/-- The events of `n` further turns of the loop of `onTaskAdded` with nothing to take:
first locked section, then `processEvents()` and the loop test. -/
def emptyTurns : Nat → List Event
  | 0 => []
  | n + 1 => Event.workerTake :: Event.workerLoopTest :: emptyTurns n

end TaskQueue

/-! # `FileLoadTask` of `localimageloader.cpp`

`process()` is followed along the statements that read or write `filesize` and
`_result->filesize`, with every test that guards them; what it computes besides
(names, attributes, thumbnails) does not come back into these.  The answers of the Qt
and application functions it calls are part of the task's data. -/

/-- Enumeration `SendMediaType`. -/
inductive SendMediaType where
  | Photo
  | File
  | Audio
deriving DecidableEq, Repr

/-- What `process()` reads of a `QImage`: `isNull()`, `width()` and `height()`. -/
structure QImage where
  isNull : Bool
  width : Int
  height : Int
deriving DecidableEq, Repr

/-- Field `filesize` of `FileLoadResult`, an `int32`. -/
structure FileLoadResult where
  filesize : Int
deriving DecidableEq, Repr

/-- What `finish()` does. -/
inductive FinishAction where
  /-- The box with `lng_send_image_empty` is shown. -/
  | showImageEmpty
  /-- The box with `lng_send_folder` is shown. -/
  | showFolder
  /-- The box with `lng_send_image_too_large` is shown. -/
  | showImageTooLarge
  /-- The call `App::main()->onSendFileConfirm(_result)`. -/
  | onSendFileConfirm
  /-- Nothing, `App::main()` being null. -/
  | nothing
deriving DecidableEq, Repr

/-- Members of a `FileLoadTask` that `process()` reads, and what the functions it calls
answer in the run: sizes are those of a file or of a `QByteArray`, so not negative. -/
structure FileLoadTask where
  _type : SendMediaType
  /-- Value of `_filepath.isEmpty()`. -/
  filepathIsEmpty : Bool
  /-- Value of `QFileInfo(_filepath).isDir()`. -/
  infoIsDir : Bool
  /-- Value of `info.size()`, a `qint64`. -/
  infoSize : Nat
  /-- What `App::readImage(_filepath, 0, opaque, &animated)` returns. -/
  readImage : QImage
  /-- What `App::readImage` leaves in `animated`. -/
  readAnimated : Bool
  /-- Value of `_content.size()` at the start. -/
  contentSize : Nat
  /-- Whether `mimeTypeForData(_content).name()` is `stickerMime`. -/
  contentIsSticker : Bool
  _image : QImage
  /-- What `Images::prepareOpaque` returns for `_image`. -/
  preparedImage : QImage
  /-- Value of `_content.size()` after `fullimage.save(&buffer, "PNG")`. -/
  pngSize : Nat
  /-- Value of the test on `filemime` and `filename` for the audio types. -/
  audioLike : Bool
  /-- Whether `audioReadSongAttributes` returns a `documentAttributeAudio`. -/
  songAttribute : Bool
  /-- Value of `filemime == "video/mp4" || filename.endsWith(".mp4")`. -/
  videoLike : Bool
  /-- Whether `Media::Clip::readAttributes` returns a `documentAttributeVideo`. -/
  videoAttribute : Bool
  /-- The `cover` that `Media::Clip::readAttributes` fills in. -/
  cover : QImage
  /-- Value of `filedata.size()` after `full.save(&buffer, "JPG", 87)`. -/
  jpgSize : Nat
deriving DecidableEq, Repr

namespace FileLoadTask

/-- The test `!fullimage.isNull() && fullimage.width() > 0`. -/
def hasPixels (image : QImage) : Bool := !image.isNull && decide (0 < image.width)

/-- The test `w < 20 * h && h < 20 * w` (image sizes are far from the `int` range). -/
def normalAspect (w h : Int) : Bool := decide (w < 20 * h) && decide (h < 20 * w)

/-- The value `(int32)qMin(filesize, qint64(INT_MAX))` stored in `_result->filesize`. -/
def storedFilesize (filesize : Int) : Int := toInt32 (min filesize 2147483647)

/-- The test `!filesize || filesize > App::kFileSizeLimit` after which `process()`
returns early. -/
def returnsEarly (filesize kFileSizeLimit : Int) : Bool :=
  decide (filesize = 0) || decide (filesize > kFileSizeLimit)

/-- The rest of `process()` from the statement `_result->filesize = (int32)qMin(...)`
on, for the values that `_type`, `filesize`, `fullimage` and `animated` have there.
The constant `App::kFileSizeLimit` is declared outside the two source files and is a
parameter here. -/
def processTail (t : FileLoadTask) (kFileSizeLimit : Int) (type : SendMediaType)
    (filesize : Int) (fullimage : QImage) (animated : Bool) : FileLoadResult :=
  let result : FileLoadResult := { filesize := storedFilesize filesize }
  if returnsEarly filesize kFileSizeLimit then result
  else
    let voice := decide (t._type = SendMediaType.Audio)
    let song := !voice && t.audioLike && t.songAttribute
    let gif := !voice && (t.videoLike || animated) && t.videoAttribute &&
      normalAspect t.cover.width t.cover.height
    if hasPixels fullimage && !song && !gif && !voice then
      if normalAspect fullimage.width fullimage.height then
        if animated then result
        else if type ≠ SendMediaType.File then
          if filesize < 0 then { filesize := toInt32 t.jpgSize } else result
        else result
      else result
    else result

/-- Method `FileLoadTask::process`, as far as `_result->filesize` goes. -/
def process (t : FileLoadTask) (kFileSizeLimit : Int) : FileLoadResult :=
  if !t.filepathIsEmpty then
    if t.infoIsDir then { filesize := -1 }
    else processTail t kFileSizeLimit t._type t.infoSize t.readImage t.readAnimated
  else if t.contentSize ≠ 0 then
    if t._type = SendMediaType.Audio then
      processTail t kFileSizeLimit t._type t.contentSize t._image false
    else if t.contentIsSticker then
      processTail t kFileSizeLimit t._type t.contentSize t._image false
    else processTail t kFileSizeLimit t._type t.contentSize t.preparedImage false
  else if hasPixels t._image then
    if t._type = SendMediaType.Photo then
      if !normalAspect t._image.width t._image.height then
        processTail t kFileSizeLimit SendMediaType.File t.pngSize t.preparedImage false
      else processTail t kFileSizeLimit SendMediaType.Photo (-1) t.preparedImage false
    else if t._type = SendMediaType.File then
      processTail t kFileSizeLimit SendMediaType.File t.pngSize t.preparedImage false
    else processTail t kFileSizeLimit t._type 0 t.preparedImage false
  else processTail t kFileSizeLimit t._type 0 t._image false

/-- Whether the run takes the statement `filesize = -1; // Fill later.`: no path, no
content, an image with pixels, type `Photo` and no extreme aspect ratio. -/
def fillsLater (t : FileLoadTask) : Bool :=
  t.filepathIsEmpty && decide (t.contentSize = 0) && hasPixels t._image &&
  decide (t._type = SendMediaType.Photo) &&
  normalAspect t._image.width t._image.height

/-- Method `FileLoadTask::finish`; `result` is `none` when `_result` is null. -/
def finish (app : App) (result : Option FileLoadResult) (kFileSizeLimit : Int) :
    FinishAction :=
  match result with
  | none => FinishAction.showImageEmpty
  | some r =>
    if r.filesize = 0 then FinishAction.showImageEmpty
    else if r.filesize = -1 then FinishAction.showFolder
    else if r.filesize > kFileSizeLimit then FinishAction.showImageTooLarge
    else if app.main then FinishAction.onSendFileConfirm
    else FinishAction.nothing

/-- A task made from the path of a directory. -/
def folderTask : FileLoadTask :=
  { _type := SendMediaType.File, filepathIsEmpty := false, infoIsDir := true,
    infoSize := 4096, readImage := { isNull := true, width := 0, height := 0 },
    readAnimated := false, contentSize := 0, contentIsSticker := false,
    _image := { isNull := true, width := 0, height := 0 },
    preparedImage := { isNull := true, width := 0, height := 0 }, pngSize := 0,
    audioLike := false, songAttribute := false, videoLike := false,
    videoAttribute := false, cover := { isNull := true, width := 0, height := 0 },
    jpgSize := 0 }

/-- A task made from a pasted image of 640 by 480 pixels, sent as a photo, whose JPEG
data take 51200 bytes. -/
def pastedPhotoTask : FileLoadTask :=
  { _type := SendMediaType.Photo, filepathIsEmpty := true, infoIsDir := false,
    infoSize := 0, readImage := { isNull := true, width := 0, height := 0 },
    readAnimated := false, contentSize := 0, contentIsSticker := false,
    _image := { isNull := false, width := 640, height := 480 },
    preparedImage := { isNull := false, width := 640, height := 480 }, pngSize := 0,
    audioLike := false, songAttribute := false, videoLike := false,
    videoAttribute := false, cover := { isNull := true, width := 0, height := 0 },
    jpgSize := 51200 }

/-- A task made from the path of a file of `size` bytes that is not an image. -/
def plainFileTask (size : Nat) : FileLoadTask :=
  { folderTask with infoIsDir := false, infoSize := size }

end FileLoadTask

/-! # `EmptyUserpic::Impl::fillString` of `structs.cpp` -/

/-- A `QChar`: one UTF-16 code unit. -/
abbrev QChar := Nat

/-- The functions on characters that `fillString` calls, all declared outside the two
source files. -/
structure CharOps where
  /-- For the text from `ch` to `end`: the `emojiLength` that `emojiFromText(ch, end,
  &emojiLength)` sets when it returns an emoji, `none` when it returns null. -/
  emojiFromText : List QChar → Option Nat
  /-- Method `QChar::isHighSurrogate`. -/
  isHighSurrogate : QChar → Bool
  /-- Method `QChar::isLowSurrogate`. -/
  isLowSurrogate : QChar → Bool
  /-- Method `QChar::isLetterOrNumber`. -/
  isLetterOrNumber : QChar → Bool
  /-- Function `chIsDiac`. -/
  chIsDiac : QChar → Bool
  /-- Method `QString::toUpper`. -/
  toUpper : List QChar → List QChar

namespace EmptyUserpic

/-- Locals of `fillString` that live across the turns of its `while` loop. -/
structure FillState where
  letters : List (List QChar)
  levels : List Int
  level : Int
  letterFound : Bool
deriving DecidableEq, Repr

/-- The locals before the loop. -/
def FillState.start : FillState :=
  { letters := [], levels := [], level := 0, letterFound := false }

/-- One turn of the `while (ch != end)` loop of `fillString`, with `*ch = c` and `rest`
the text after it: the locals after the turn and the text from the new `ch` on. -/
def fillTurn (ops : CharOps) (s : FillState) (c : QChar) (rest : List QChar) :
    FillState × List QChar :=
  match ops.emojiFromText (c :: rest) with
  | some emojiLength => (s, (c :: rest).drop emojiLength)
  | none =>
    if ops.isHighSurrogate c then
      match rest with
      | [] => (s, [])
      | d :: rest2 => if ops.isLowSurrogate d then (s, rest2) else (s, d :: rest2)
    else if !s.letterFound && ops.isLetterOrNumber c then
      match rest with
      | [] =>
        ({ s with letterFound := true, letters := s.letters ++ [[c]],
                  levels := s.levels ++ [s.level] }, [])
      | d :: rest2 =>
        if ops.chIsDiac d then
          ({ s with letterFound := true, letters := s.letters ++ [[c, d]],
                    levels := s.levels ++ [s.level] }, rest2)
        else
          ({ s with letterFound := true, letters := s.letters ++ [[c]],
                    levels := s.levels ++ [s.level] }, d :: rest2)
    else if c = 32 then ({ s with level := 0, letterFound := false }, rest)
    else if s.letterFound && decide (c = 45) then
      ({ s with level := 1, letterFound := true }, rest)
    else (s, rest)

/-- The `while (ch != end)` loop of `fillString` for at most `fuel` turns: `none` when
the text is not used up by then (a turn that finds an emoji of length 0 does not move
`ch`). -/
def fillLoop (ops : CharOps) : Nat → FillState → List QChar → Option FillState
  | _, s, [] => some s
  | 0, _, _ :: _ => none
  | fuel + 1, s, c :: rest =>
    fillLoop ops fuel (fillTurn ops s c rest).1 (fillTurn ops s c rest).2

/-- The loop `for (auto i = letters.size(); i != 1;) { if (levels[--i] < bestLevel) {
bestIndex = i; bestLevel = levels[i]; } }` from the value `i` of its variable on, with
`best = (bestIndex, bestLevel)`.  It is entered with `i >= 1` only. -/
def pickBest (levels : List Int) : Nat → Nat × Int → Nat × Int
  | 0, best => best
  | 1, best => best
  | i + 2, best =>
    if levels.getD (i + 1) 0 < best.2 then pickBest levels (i + 1) (i + 1, levels.getD (i + 1) 0)
    else pickBest levels (i + 1) best

/-- The string that `fillString` builds from the letters found, before `toUpper`. -/
def initials (s : FillState) : List QChar :=
  match s.letters with
  | [] => []
  | front :: _ =>
    if 0 < (pickBest s.levels s.letters.length (0, 2)).1 then
      front ++ s.letters.getD (pickBest s.levels s.letters.length (0, 2)).1 []
    else front

/-- Method `EmptyUserpic::Impl::fillString`: the value left in `_string`, `none` when the
loop does not come to an end within one turn for each character of the name. -/
def fillString (ops : CharOps) (name : List QChar) : Option (List QChar) :=
  (fillLoop ops name.length FillState.start name).map (fun s => ops.toUpper (initials s))

/-- The code units of a string of ASCII characters. -/
def qstr (s : String) : List QChar := s.toList.map Char.toNat

/-- The character functions on ASCII text: no emoji, no surrogate and no diacritic in it,
letters and digits are `0-9`, `A-Z` and `a-z`, and `toUpper` maps `a-z` to `A-Z`. -/
def asciiOps : CharOps :=
  { emojiFromText := fun _ => none,
    isHighSurrogate := fun _ => false,
    isLowSurrogate := fun _ => false,
    isLetterOrNumber := fun c =>
      (decide (48 ≤ c) && decide (c ≤ 57)) || (decide (65 ≤ c) && decide (c ≤ 90)) ||
      (decide (97 ≤ c) && decide (c ≤ 122)),
    chIsDiac := fun _ => false,
    toUpper := fun s => s.map (fun c => if 97 ≤ c ∧ c ≤ 122 then c - 32 else c) }

end EmptyUserpic

/-! # Voice waveforms of `structs.cpp`

A `QByteArray` is the list of its bytes; the memory that `constData()` and `data()`
point to is this list followed by the byte that comes after the array (a `QByteArray`
keeps a `'\0'` there).  The cast `*(uint16*)(p + byte)` covers the bytes `byte` and
`byte + 1`, the low byte first (a little-endian machine). -/

/-- The `int32` value `(size * 5 + 7) / 8`, as the size of a `QByteArray` (which is
empty for a size that is not positive). -/
def encodedSize (size : Nat) : Nat :=
  (Int.tdiv (toInt32 (toInt32 ((size : Int) * 5) + 7)) 8).toNat

/-- The `int32` value `(size * 8) / 5`, as the size of a `QVector`. -/
def decodedSize (size : Nat) : Nat :=
  (Int.tdiv (toInt32 ((size : Int) * 8)) 5).toNat

/-- The `int32` value `byte = (i * 5) / 8`, as an offset. -/
def byteOf (i : Nat) : Nat := (Int.tdiv (toInt32 ((i : Int) * 5)) 8).toNat

/-- The `int32` value `shift = (i * 5) % 8`. -/
def shiftOf (i : Nat) : Nat := (Int.tmod (toInt32 ((i : Int) * 5)) 8).toNat

/-- Value of `*(uint16*)(p + byte)` for the memory `mem` at `p`. -/
def readUInt16 (mem : List Nat) (byte : Nat) : Nat :=
  mem.getD byte 0 + 256 * mem.getD (byte + 1) 0

/-- Memory after `*(uint16*)(p + byte) |= v`. -/
def orUInt16 (mem : List Nat) (byte v : Nat) : List Nat :=
  (mem.set byte ((readUInt16 mem byte ||| v) % 256)).set (byte + 1)
    ((readUInt16 mem byte ||| v) / 256 % 256)

/-- Function `documentWaveformDecode`; `after` is the byte after the array.  A sample
is a `char`. -/
def documentWaveformDecode (encoded5bit : List Nat) (after : Nat) : List Int :=
  (List.range (decodedSize encoded5bit.length)).map (fun i =>
    (((readUInt16 (encoded5bit ++ [after]) (byteOf i) >>> shiftOf i) &&& 0x1F : Nat) : Int))

/-- The value `uint16(waveform.at(i) & 0x1F) << shift`. -/
def shiftedSample (waveform : List Int) (i : Nat) : Nat :=
  (waveform.getD i 0 % 32).toNat <<< shiftOf i

/-- Memory of `result` after the first `i` turns of the loop of
`documentWaveformEncode5bit`, from the memory `mem` before the loop. -/
def encodeTurns (waveform : List Int) : Nat → List Nat → List Nat
  | 0, mem => mem
  | i + 1, mem => orUInt16 (encodeTurns waveform i mem) (byteOf i) (shiftedSample waveform i)

/-- Memory of `result` at the end of `documentWaveformEncode5bit`: the bytes of the
array, all 0 at first, and the byte after them. -/
def encodedMemory (waveform : List Int) : List Nat :=
  encodeTurns waveform waveform.length
    (List.replicate (encodedSize waveform.length + 1) 0)

/-- Function `documentWaveformEncode5bit`. -/
def documentWaveformEncode5bit (waveform : List Int) : List Nat :=
  (encodedMemory waveform).take (encodedSize waveform.length)

/-- The values `waveform.at(i) & 0x1F` of a waveform. -/
def fiveBits (waveform : List Int) : List Nat :=
  waveform.map (fun x => (x % 32).toNat)

namespace PtsWaiter

variable {U Us : Type}

/-! ## Lemmas on machine integers and keys -/

theorem toInt32_of_range (x : Int) (h1 : -2147483648 ≤ x) (h2 : x < 2147483648) :
    toInt32 x = x := by
  unfold toInt32
  omega

theorem toUInt32_lt (x : Int) : toUInt32 x < 4294967296 := by
  unfold toUInt32
  omega

theorem toUInt32_of_nonneg (x : Int) (h1 : 0 ≤ x) (h2 : x < 4294967296) :
    (toUInt32 x : Int) = x := by
  unfold toUInt32
  omega

theorem packKey_eq (l c : Int) :
    packKey l c = toUInt32 l * 4294967296 + toUInt32 c := by
  unfold packKey
  have h := Nat.mul_add_lt_is_or (i := 32) (b := toUInt32 c)
    (by simpa using toUInt32_lt c) (toUInt32 l)
  rw [Nat.shiftLeft_eq]
  have e : (2 : Nat) ^ 32 = 4294967296 := by norm_num
  rw [e] at h ⊢
  rw [Nat.mul_comm] at h
  exact h.symm

theorem packKey_le (l c l' c' : Int) (hl : 0 ≤ l) (hc : 0 ≤ c) (hll : l ≤ l')
    (hcc : c ≤ c') (hl' : l' < 2147483648) (hc' : c' < 2147483648) :
    packKey l c ≤ packKey l' c' := by
  rw [packKey_eq, packKey_eq]
  have a1 := toUInt32_of_nonneg l hl (by omega)
  have a2 := toUInt32_of_nonneg c hc (by omega)
  have a3 := toUInt32_of_nonneg l' (by omega) (by omega)
  have a4 := toUInt32_of_nonneg c' (by omega) (by omega)
  omega

theorem packKey_lt (l c l' c' : Int) (hl : 0 ≤ l) (hc : 0 ≤ c) (hll : l ≤ l')
    (hcc : c < c') (hl' : l' < 2147483648) (hc' : c' < 2147483648) :
    packKey l c < packKey l' c' := by
  rw [packKey_eq, packKey_eq]
  have a1 := toUInt32_of_nonneg l hl (by omega)
  have a2 := toUInt32_of_nonneg c hc (by omega)
  have a3 := toUInt32_of_nonneg l' (by omega) (by omega)
  have a4 := toUInt32_of_nonneg c' (by omega) (by omega)
  omega

theorem toInt32_add_ne (c n : Int) (hn : n ≠ 0) (hlo : -2147483648 ≤ n)
    (hhi : n < 2147483648) : toInt32 (c + n) ≠ c := by
  unfold toInt32
  omega

/-! ## Lemmas on `QMap` -/

theorem QMap.find_insert_self {V : Type} (k : Nat) (v : V) (m : QMap V) :
    QMap.find k (QMap.insert k v m) = some v := by
  induction m with
  | nil => simp [QMap.insert, QMap.find]
  | cons p rest ih =>
    obtain ⟨k', v'⟩ := p
    by_cases h1 : k < k'
    · simp [QMap.insert, QMap.find, h1]
    · by_cases h2 : k = k'
      · simp [QMap.insert, QMap.find, h2]
      · have h3 : ¬ k' = k := fun h => h2 h.symm
        simp [QMap.insert, QMap.find, h1, h2, h3, ih]

theorem QMap.find_insert_of_ne {V : Type} (k j : Nat) (v : V) (m : QMap V) (h : k ≠ j) :
    QMap.find j (QMap.insert k v m) = QMap.find j m := by
  induction m with
  | nil => simp [QMap.insert, QMap.find, h]
  | cons p rest ih =>
    obtain ⟨k', v'⟩ := p
    by_cases h1 : k < k'
    · simp [QMap.insert, QMap.find, h1, h]
    · by_cases h2 : k = k'
      · subst h2
        simp [QMap.insert, QMap.find, h]
      · by_cases h3 : k' = j
        · subst h3
          simp [QMap.insert, QMap.find, h1, h2]
        · simp [QMap.insert, QMap.find, h1, h2, h3, ih]

theorem QMap.insert_of_lt {V : Type} (k : Nat) (v : V) (m : QMap V)
    (h : ∀ p ∈ m, p.1 < k) : QMap.insert k v m = m ++ [(k, v)] := by
  induction m with
  | nil => rfl
  | cons p rest ih =>
    obtain ⟨k', v'⟩ := p
    have hk : k' < k := h (k', v') (List.mem_cons_self _ _)
    have h1 : ¬ k < k' := by omega
    have h2 : ¬ k = k' := by omega
    have hr : ∀ p ∈ rest, p.1 < k := fun p hp => h p (List.mem_cons_of_mem _ hp)
    simp [QMap.insert, h1, h2, ih hr]

theorem QMap.value_insert_self {V : Type} [Inhabited V] (k : Nat) (v : V) (m : QMap V) :
    QMap.value k (QMap.insert k v m) = v := by
  simp [QMap.value, QMap.find_insert_self]

theorem QMap.value_insert_of_ne {V : Type} [Inhabited V] (k j : Nat) (v : V)
    (m : QMap V) (h : k ≠ j) : QMap.value j (QMap.insert k v m) = QMap.value j m := by
  simp [QMap.value, QMap.find_insert_of_ne k j v m h]

/-! ## Lemmas on `check` -/

theorem check_of_not_inited (app : App) (w : PtsWaiter U Us) (channel : ChannelData)
    (pts count : Int) (h : inited w = false) :
    check app w channel pts count = { ret := true, st := init pts w, fx := [] } := by
  simp [check, h]

theorem check_of_eq (app : App) (w : PtsWaiter U Us) (channel : ChannelData)
    (pts count : Int) (hin : inited w = true)
    (heq : max w._last pts = toInt32 (w._count + count)) :
    check app w channel pts count =
      { ret := true,
        st := { w with _last := max w._last pts, _count := toInt32 (w._count + count),
                       _good := max w._last pts },
        fx := [] } := by
  simp [check, hin, heq]

theorem check_of_ne (app : App) (w : PtsWaiter U Us) (channel : ChannelData)
    (pts count : Int) (hin : inited w = true)
    (hne : max w._last pts ≠ toInt32 (w._count + count)) :
    check app w channel pts count =
      { ret := decide (count = 0),
        st := { w with _last := max w._last pts, _count := toInt32 (w._count + count),
                       _waitingForSkipped := true },
        fx := startTimerFor app channel
          (if max w._last pts < toInt32 (w._count + count) then 1
           else (app.WaitForSkippedTimeout : Int)) } := by
  by_cases hlt : max w._last pts < toInt32 (w._count + count)
  · simp [check, hin, hne, hlt, setWaitingForSkipped]
  · simp [check, hin, hne, hlt, setWaitingForSkipped]

theorem updated_eq_check (app : App) (w : PtsWaiter U Us) (channel : ChannelData)
    (pts count : Int) (hreq : w._requesting = false) (hlvl : w._applySkippedLevel = 0)
    (hdup : ¬ (pts ≤ w._good ∧ 0 < count)) :
    updated app w channel pts count = check app w channel pts count := by
  have hd : (decide (pts ≤ w._good) && decide (0 < count)) = false := by
    simpa using hdup
  simp [updated, hreq, hlvl, hd]

theorem check_maps (app : App) (w : PtsWaiter U Us) (channel : ChannelData)
    (pts count : Int) :
    ((check app w channel pts count).st._queue = w._queue ∧
     (check app w channel pts count).st._updateQueue = w._updateQueue ∧
     (check app w channel pts count).st._updatesQueue = w._updatesQueue) ∨
    ((check app w channel pts count).st._queue = [] ∧
     (check app w channel pts count).st._updateQueue = [] ∧
     (check app w channel pts count).st._updatesQueue = []) := by
  cases hin : inited w
  · right
    rw [check_of_not_inited app w channel pts count hin]
    simp [init, clearSkippedUpdates]
  · left
    by_cases heq : max w._last pts = toInt32 (w._count + count)
    · rw [check_of_eq app w channel pts count hin heq]
      simp
    · rw [check_of_ne app w channel pts count hin heq]
      simp

/-! ## Lemmas on `applySkippedUpdates` -/

theorem setWaitingForSkipped_stop (app : App) (w : PtsWaiter U Us)
    (channel : ChannelData) :
    setWaitingForSkipped app w channel (-1) =
      { ret := (), st := { w with _waitingForSkipped := false },
        fx := checkForWaiting app { w with _waitingForSkipped := false } channel } := by
  simp [setWaitingForSkipped]


theorem deliveries_checkForWaiting (app : App) (w : PtsWaiter U Us)
    (channel : ChannelData) : deliveries (checkForWaiting app w channel) = [] := by
  unfold checkForWaiting deliveries
  split <;> simp [Effect.isFeed]

theorem deliveries_feedSkipped [Inhabited U] [Inhabited Us] (w : PtsWaiter U Us)
    (q : QMap PtsSkippedQueue) :
    deliveries (q.map (feedSkipped w)) = q.map (feedSkipped w) := by
  unfold deliveries
  rw [List.filter_eq_self]
  intro e he
  obtain ⟨i, _, rfl⟩ := List.mem_map.mp he
  unfold feedSkipped
  split <;> rfl

theorem applySkippedUpdates_of_replay [Inhabited U] [Inhabited Us] (app : App)
    (w : PtsWaiter U Us) (channel : ChannelData) (hw : w._waitingForSkipped = true)
    (hm : app.main = true) (hq : w._queue ≠ []) :
    applySkippedUpdates app w channel =
      { ret := (),
        st := { w with _queue := [], _updateQueue := [], _updatesQueue := [],
                       _applySkippedLevel := 0, _waitingForSkipped := false },
        fx := checkForWaiting app { w with _waitingForSkipped := false } channel ++
          w._queue.map (feedSkipped (replayState app w channel)) } := by
  simp [applySkippedUpdates, hw, hm, hq, setWaitingForSkipped, replayState,
    clearSkippedUpdates]

theorem applySkippedUpdates_of_not_waiting [Inhabited U] [Inhabited Us] (app : App)
    (w : PtsWaiter U Us) (channel : ChannelData) (hw : w._waitingForSkipped = false) :
    applySkippedUpdates app w channel = { ret := (), st := w, fx := [] } := by
  simp [applySkippedUpdates, hw]

theorem applySkippedUpdates_of_nothing [Inhabited U] [Inhabited Us] (app : App)
    (w : PtsWaiter U Us) (channel : ChannelData) (hw : w._waitingForSkipped = true)
    (hn : app.main = false ∨ w._queue = []) :
    applySkippedUpdates app w channel = setWaitingForSkipped app w channel (-1) := by
  rcases hn with hn | hn
  · simp [applySkippedUpdates, hw, hn]
  · simp [applySkippedUpdates, hw, hn, setWaitingForSkipped]

theorem feedSkipped_congr [Inhabited U] [Inhabited Us] (w v : PtsWaiter U Us)
    (h1 : w._updateQueue = v._updateQueue) (h2 : w._updatesQueue = v._updatesQueue)
    (i : Nat × PtsSkippedQueue) : feedSkipped w i = feedSkipped v i := by
  unfold feedSkipped
  rw [h1, h2]

/-! ## Lemmas on `good <= last` -/

theorem check_good_le_last (app : App) (w : PtsWaiter U Us) (channel : ChannelData)
    (pts count : Int) (h : w._good ≤ w._last) :
    (check app w channel pts count).st._good ≤ (check app w channel pts count).st._last := by
  cases hin : inited w
  · rw [check_of_not_inited app w channel pts count hin]
    simp [init, clearSkippedUpdates]
  · by_cases heq : max w._last pts = toInt32 (w._count + count)
    · rw [check_of_eq app w channel pts count hin heq]
    · rw [check_of_ne app w channel pts count hin heq]
      exact le_trans h (le_max_left _ _)

theorem call_good_le_last (app : App) (channel : ChannelData) (w : PtsWaiter U Us)
    (c : Call U Us) (h : w._good ≤ w._last) :
    (call app channel w c).st._good ≤ (call app channel w c).st._last := by
  cases c with
  | plain p n =>
    simp only [call, updated]
    split
    · exact h
    · split
      · exact h
      · exact check_good_le_last app w channel p n h
  | batch p n us =>
    simp only [call, updatedUpdates]
    split
    · exact h
    · split
      · exact h
      · split
        · exact check_good_le_last app w channel p n h
        · exact check_good_le_last app w channel p n h
  | single p n u =>
    simp only [call, updatedUpdate]
    split
    · exact h
    · split
      · exact h
      · split
        · exact check_good_le_last app w channel p n h
        · exact check_good_le_last app w channel p n h

theorem applySkippedUpdates_good_last [Inhabited U] [Inhabited Us] (app : App)
    (w : PtsWaiter U Us) (channel : ChannelData) :
    (applySkippedUpdates app w channel).st._good = w._good ∧
    (applySkippedUpdates app w channel).st._last = w._last := by
  cases hw : w._waitingForSkipped
  · rw [applySkippedUpdates_of_not_waiting app w channel hw]
    exact ⟨rfl, rfl⟩
  · by_cases hn : app.main = false ∨ w._queue = []
    · rw [applySkippedUpdates_of_nothing app w channel hw hn, setWaitingForSkipped_stop]
      exact ⟨rfl, rfl⟩
    · have hm : app.main = true := by
        cases hmm : app.main
        · exact absurd (Or.inl hmm) hn
        · rfl
      have hq : w._queue ≠ [] := fun hq => hn (Or.inr hq)
      rw [applySkippedUpdates_of_replay app w channel hw hm hq]
      exact ⟨rfl, rfl⟩

theorem step_good_le_last [Inhabited U] [Inhabited Us] (app : App) (w : PtsWaiter U Us)
    (op : Op U Us) (h : w._good ≤ w._last) :
    (step app w op)._good ≤ (step app w op)._last := by
  cases op with
  | init pts => simp [step, init, clearSkippedUpdates]
  | updated channel c => exact call_good_le_last app channel w c h
  | setWaitingForSkipped channel ms =>
    simp only [step, setWaitingForSkipped]
    split <;> exact h
  | setWaitingForShortPoll channel ms =>
    simp only [step, setWaitingForShortPoll]
    split <;> exact h
  | applySkippedUpdates channel =>
    have hs := applySkippedUpdates_good_last app w channel
    simp only [step]
    rw [hs.1, hs.2]
    exact h
  | clearSkippedUpdates => exact h

theorem run_good_le_last [Inhabited U] [Inhabited Us] (app : App) (ops : List (Op U Us)) :
    ∀ w : PtsWaiter U Us, w._good ≤ w._last → (run app w ops)._good ≤ (run app w ops)._last := by
  induction ops with
  | nil => intro w h; exact h
  | cons op ops ih =>
    intro w h
    exact ih (step app w op) (step_good_le_last app w op h)

/-! ## Lemmas on the arrival order of buffered payloads -/

theorem inited_eq_true_iff (w : PtsWaiter U Us) : inited w = true ↔ 0 < w._good := by
  simp [inited]

theorem check_buffered [Inhabited U] [Inhabited Us] (app : App)
    (w : PtsWaiter U Us) (channel : ChannelData) (pts count : Int)
    (log : List (Effect U Us)) (hinv : Buffered w log) (hc0 : 0 ≤ count)
    (hp : pts < 2147483648) (hsum : w._count + count < 2147483648) :
    Buffered (check app w channel pts count).st log := by
  obtain ⟨hlog, hsorted, hin1, hin0⟩ := hinv
  cases hin : inited w
  · have hq := hin0 hin
    rw [hq] at hlog
    rw [check_of_not_inited app w channel pts count hin]
    refine ⟨?_, ?_, ?_, ?_⟩
    · simpa [init, clearSkippedUpdates] using hlog
    · simp [init, clearSkippedUpdates]
    · intro h
      have hpos : 0 < pts := by simpa [inited, init, clearSkippedUpdates] using h
      simp only [init, clearSkippedUpdates]
      refine ⟨hpos, hp, le_of_lt hpos, hp, ?_⟩
      intro p hp'
      cases hp'
    · intro _
      simp [init, clearSkippedUpdates]
  · obtain ⟨hl0, hl1, hcnt0, hcnt1, hkeys⟩ := hin1 hin
    have hgood : 0 < w._good := (inited_eq_true_iff w).mp hin
    have hwrap : toInt32 (w._count + count) = w._count + count :=
      toInt32_of_range _ (by omega) hsum
    have hmax0 : 0 < max w._last pts := lt_of_lt_of_le hl0 (le_max_left _ _)
    have hmax1 : max w._last pts < 2147483648 := max_lt hl1 hp
    have hbound : ∀ p ∈ w._queue,
        p.1 ≤ packKey (max w._last pts) (toInt32 (w._count + count)) := by
      intro p hp'
      refine le_trans (hkeys p hp') ?_
      rw [hwrap]
      exact packKey_le _ _ _ _ (le_of_lt hl0) hcnt0 (le_max_left _ _) (by omega) hmax1
        hsum
    by_cases heq : max w._last pts = toInt32 (w._count + count)
    · rw [check_of_eq app w channel pts count hin heq]
      refine ⟨?_, hsorted, ?_, ?_⟩
      · rw [← hlog]
        exact List.map_congr_left (fun i _ => feedSkipped_congr _ _ rfl rfl i)
      · intro _
        refine ⟨hmax0, hmax1, ?_, ?_, hbound⟩
        · show 0 ≤ toInt32 (w._count + count)
          rw [hwrap]; omega
        · show toInt32 (w._count + count) < 2147483648
          rw [hwrap]; exact hsum
      · intro h
        have : ¬ (0 < max w._last pts) := by simpa [inited] using h
        exact absurd hmax0 this
    · rw [check_of_ne app w channel pts count hin heq]
      refine ⟨?_, hsorted, ?_, ?_⟩
      · rw [← hlog]
        exact List.map_congr_left (fun i _ => feedSkipped_congr _ _ rfl rfl i)
      · intro _
        refine ⟨hmax0, hmax1, ?_, ?_, hbound⟩
        · show 0 ≤ toInt32 (w._count + count)
          rw [hwrap]; omega
        · show toInt32 (w._count + count) < 2147483648
          rw [hwrap]; exact hsum
      · intro h
        have : ¬ (0 < w._good) := by simpa [inited] using h
        exact absurd hgood this

theorem check_ret_false_facts [Inhabited U] [Inhabited Us] (app : App)
    (w : PtsWaiter U Us) (channel : ChannelData) (pts count : Int)
    (log : List (Effect U Us)) (hinv : Buffered w log) (hc0 : 0 ≤ count)
    (hp : pts < 2147483648) (hsum : w._count + count < 2147483648)
    (hret : (check app w channel pts count).ret = false) :
    (check app w channel pts count).st._queue = w._queue ∧
    (check app w channel pts count).st._updateQueue = w._updateQueue ∧
    (check app w channel pts count).st._updatesQueue = w._updatesQueue ∧
    (check app w channel pts count).st._good = w._good ∧
    0 < w._good ∧
    0 < (check app w channel pts count).st._last ∧
    (check app w channel pts count).st._last < 2147483648 ∧
    0 ≤ (check app w channel pts count).st._count ∧
    (check app w channel pts count).st._count < 2147483648 ∧
    ∀ p ∈ w._queue, p.1 < packKey (check app w channel pts count).st._last
      (check app w channel pts count).st._count := by
  obtain ⟨hlog, hsorted, hin1, hin0⟩ := hinv
  cases hin : inited w
  · rw [check_of_not_inited app w channel pts count hin] at hret
    cases hret
  · obtain ⟨hl0, hl1, hcnt0, hcnt1, hkeys⟩ := hin1 hin
    have hgood : 0 < w._good := (inited_eq_true_iff w).mp hin
    have hwrap : toInt32 (w._count + count) = w._count + count :=
      toInt32_of_range _ (by omega) hsum
    have hmax0 : 0 < max w._last pts := lt_of_lt_of_le hl0 (le_max_left _ _)
    have hmax1 : max w._last pts < 2147483648 := max_lt hl1 hp
    by_cases heq : max w._last pts = toInt32 (w._count + count)
    · rw [check_of_eq app w channel pts count hin heq] at hret
      cases hret
    · rw [check_of_ne app w channel pts count hin heq] at hret ⊢
      have hcne : count ≠ 0 := by simpa using hret
      have hcpos : 0 < count := lt_of_le_of_ne hc0 (Ne.symm hcne)
      refine ⟨rfl, rfl, rfl, rfl, hgood, hmax0, hmax1, ?_, ?_, ?_⟩
      · show 0 ≤ toInt32 (w._count + count)
        rw [hwrap]; omega
      · show toInt32 (w._count + count) < 2147483648
        rw [hwrap]; exact hsum
      · intro p hp'
        show p.1 < packKey (max w._last pts) (toInt32 (w._count + count))
        refine lt_of_le_of_lt (hkeys p hp') ?_
        rw [hwrap]
        exact packKey_lt _ _ _ _ (le_of_lt hl0) hcnt0 (le_max_left _ _) (by omega) hmax1
          hsum

theorem buffered_insert_single [Inhabited U] [Inhabited Us] (v : PtsWaiter U Us)
    (log : List (Effect U Us)) (u : U) (hinv : Buffered v log) (hin : inited v = true)
    (hlt : ∀ p ∈ v._queue, p.1 < packKey v._last v._count) :
    Buffered
      { v with
        _queue := QMap.insert (packKey v._last v._count) PtsSkippedQueue.SkippedUpdate
          v._queue,
        _updateQueue := QMap.insert (packKey v._last v._count) u v._updateQueue }
      (log ++ [Effect.feedUpdate u]) := by
  obtain ⟨hlog, hsorted, hin1, _⟩ := hinv
  obtain ⟨hl0, hl1, hcnt0, hcnt1, _⟩ := hin1 hin
  have hq := QMap.insert_of_lt (packKey v._last v._count) PtsSkippedQueue.SkippedUpdate
    v._queue hlt
  refine ⟨?_, ?_, ?_, ?_⟩
  · show List.map _ (QMap.insert _ _ v._queue) = _
    rw [hq, List.map_append, ← hlog]
    congr 1
    · apply List.map_congr_left
      intro p hp
      have hne : packKey v._last v._count ≠ p.1 := by
        have := hlt p hp
        omega
      unfold feedSkipped
      cases p.2
      · simp only
        rw [QMap.value_insert_of_ne _ _ _ _ hne]
      · rfl
    · simp [feedSkipped, QMap.value_insert_self]
  · show List.Pairwise _ (List.map Prod.fst (QMap.insert _ _ v._queue))
    rw [hq, List.map_append, List.pairwise_append]
    refine ⟨hsorted, by simp, ?_⟩
    intro a ha b hb
    obtain ⟨p, hp, rfl⟩ := List.mem_map.mp ha
    simp only [List.map_cons, List.map_nil, List.mem_singleton] at hb
    rw [hb]
    exact hlt p hp
  · intro _
    refine ⟨hl0, hl1, hcnt0, hcnt1, ?_⟩
    intro p hp
    have hp2 : p ∈ v._queue ++
        [(packKey v._last v._count, PtsSkippedQueue.SkippedUpdate)] := by
      rw [← hq]; exact hp
    rcases List.mem_append.mp hp2 with h | h
    · exact le_of_lt (hlt p h)
    · simp only [List.mem_singleton] at h
      rw [h]
  · intro h
    have h2 : inited v = false := h
    rw [hin] at h2
    cases h2

theorem buffered_insert_batch [Inhabited U] [Inhabited Us] (v : PtsWaiter U Us)
    (log : List (Effect U Us)) (us : Us) (hinv : Buffered v log) (hin : inited v = true)
    (hlt : ∀ p ∈ v._queue, p.1 < packKey v._last v._count) :
    Buffered
      { v with
        _queue := QMap.insert (packKey v._last v._count) PtsSkippedQueue.SkippedUpdates
          v._queue,
        _updatesQueue := QMap.insert (packKey v._last v._count) us v._updatesQueue }
      (log ++ [Effect.feedUpdates us]) := by
  obtain ⟨hlog, hsorted, hin1, _⟩ := hinv
  obtain ⟨hl0, hl1, hcnt0, hcnt1, _⟩ := hin1 hin
  have hq := QMap.insert_of_lt (packKey v._last v._count) PtsSkippedQueue.SkippedUpdates
    v._queue hlt
  refine ⟨?_, ?_, ?_, ?_⟩
  · show List.map _ (QMap.insert _ _ v._queue) = _
    rw [hq, List.map_append, ← hlog]
    congr 1
    · apply List.map_congr_left
      intro p hp
      have hne : packKey v._last v._count ≠ p.1 := by
        have := hlt p hp
        omega
      unfold feedSkipped
      cases p.2
      · rfl
      · simp only
        rw [QMap.value_insert_of_ne _ _ _ _ hne]
    · simp [feedSkipped, QMap.value_insert_self]
  · show List.Pairwise _ (List.map Prod.fst (QMap.insert _ _ v._queue))
    rw [hq, List.map_append, List.pairwise_append]
    refine ⟨hsorted, by simp, ?_⟩
    intro a ha b hb
    obtain ⟨p, hp, rfl⟩ := List.mem_map.mp ha
    simp only [List.map_cons, List.map_nil, List.mem_singleton] at hb
    rw [hb]
    exact hlt p hp
  · intro _
    refine ⟨hl0, hl1, hcnt0, hcnt1, ?_⟩
    intro p hp
    have hp2 : p ∈ v._queue ++
        [(packKey v._last v._count, PtsSkippedQueue.SkippedUpdates)] := by
      rw [← hq]; exact hp
    rcases List.mem_append.mp hp2 with h | h
    · exact le_of_lt (hlt p h)
    · simp only [List.mem_singleton] at h
      rw [h]
  · intro h
    have h2 : inited v = false := h
    rw [hin] at h2
    cases h2

theorem call_buffered [Inhabited U] [Inhabited Us] (app : App) (channel : ChannelData)
    (w : PtsWaiter U Us) (c : Call U Us) (log : List (Effect U Us))
    (hinv : Buffered w log) (hc0 : 0 ≤ c.count) (hp : c.pts < 2147483648)
    (hsum : w._count + c.count < 2147483648) :
    Buffered (call app channel w c).st (log ++ owed app channel w c) := by
  cases c with
  | plain p n =>
    have hb := check_buffered app w channel p n log hinv hc0 hp hsum
    simp only [owed, List.append_nil, call, updated]
    split
    · exact hinv
    · split
      · exact hinv
      · exact hb
  | batch p n us =>
    have hb := check_buffered app w channel p n log hinv hc0 hp hsum
    cases h1 : (w._requesting || w._applySkippedLevel != 0)
    · cases h2 : (decide (p ≤ w._good) && decide (0 < n))
      · cases h3 : (check app w channel p n).ret
        · obtain ⟨f1, f2, f3, f4, f5, f6, f7, f8, f9, f10⟩ :=
            check_ret_false_facts app w channel p n log hinv hc0 hp hsum h3
          have hin : inited (check app w channel p n).st = true := by
            rw [inited_eq_true_iff, f4]; exact f5
          have hlt : ∀ q ∈ (check app w channel p n).st._queue,
              q.1 < packKey (check app w channel p n).st._last
                (check app w channel p n).st._count := by
            rw [f1]; exact f10
          have hi := buffered_insert_batch (check app w channel p n).st log us hb hin hlt
          simpa [call, updatedUpdates, owed, reachesInsert, h1, h2, h3, ptsKey] using hi
        · simpa [call, updatedUpdates, owed, reachesInsert, h1, h2, h3] using hb
      · simpa [call, updatedUpdates, owed, reachesInsert, h1, h2] using hinv
    · simpa [call, updatedUpdates, owed, reachesInsert, h1] using hinv
  | single p n u =>
    have hb := check_buffered app w channel p n log hinv hc0 hp hsum
    cases h1 : (w._requesting || w._applySkippedLevel != 0)
    · cases h2 : (decide (p ≤ w._good) && decide (0 < n))
      · cases h3 : (check app w channel p n).ret
        · obtain ⟨f1, f2, f3, f4, f5, f6, f7, f8, f9, f10⟩ :=
            check_ret_false_facts app w channel p n log hinv hc0 hp hsum h3
          have hin : inited (check app w channel p n).st = true := by
            rw [inited_eq_true_iff, f4]; exact f5
          have hlt : ∀ q ∈ (check app w channel p n).st._queue,
              q.1 < packKey (check app w channel p n).st._last
                (check app w channel p n).st._count := by
            rw [f1]; exact f10
          have hi := buffered_insert_single (check app w channel p n).st log u hb hin hlt
          simpa [call, updatedUpdate, owed, reachesInsert, h1, h2, h3, ptsKey] using hi
        · simpa [call, updatedUpdate, owed, reachesInsert, h1, h2, h3] using hb
      · simpa [call, updatedUpdate, owed, reachesInsert, h1, h2] using hinv
    · simpa [call, updatedUpdate, owed, reachesInsert, h1] using hinv

theorem runCalls_buffered [Inhabited U] [Inhabited Us] (app : App) (channel : ChannelData)
    (cs : List (Call U Us)) :
    ∀ (w : PtsWaiter U Us) (log : List (Effect U Us)), Buffered w log →
      inRange app channel w cs = true →
      Buffered (runCalls app channel w cs) (log ++ arrivals app channel w cs) := by
  induction cs with
  | nil =>
    intro w log hinv _
    simpa [runCalls, arrivals] using hinv
  | cons c cs ih =>
    intro w log hinv hr
    simp only [inRange, Bool.and_eq_true, decide_eq_true_eq] at hr
    obtain ⟨⟨⟨hc0, hp⟩, hsum⟩, hrest⟩ := hr
    have hstep := call_buffered app channel w c log hinv hc0 hp hsum
    have := ih (call app channel w c).st (log ++ owed app channel w c) hstep hrest
    simpa [runCalls, arrivals, List.append_assoc] using this

/-! ## Lemmas on the paths of the payload-carrying overloads -/

theorem updatedUpdate_paths (app : App) (w : PtsWaiter U Us) (channel : ChannelData)
    (pts count : Int) (update : U) :
    updatedUpdate app w channel pts count update = { ret := true, st := w, fx := [] } ∨
    ((pts ≤ w._good ∧ 0 < count) ∧
      updatedUpdate app w channel pts count update = { ret := false, st := w, fx := [] }) ∨
    ((check app w channel pts count).ret = true ∧
      updatedUpdate app w channel pts count update = check app w channel pts count) ∨
    (inited w = true ∧ count ≠ 0 ∧
      updatedUpdate app w channel pts count update =
        { ret := false,
          st := { w with
            _last := max w._last pts, _count := toInt32 (w._count + count),
            _waitingForSkipped := true,
            _queue := QMap.insert (packKey (max w._last pts) (toInt32 (w._count + count)))
              PtsSkippedQueue.SkippedUpdate w._queue,
            _updateQueue := QMap.insert
              (packKey (max w._last pts) (toInt32 (w._count + count))) update
              w._updateQueue },
          fx := (check app w channel pts count).fx }) := by
  cases h1 : (w._requesting || w._applySkippedLevel != 0)
  · cases h2 : (decide (pts ≤ w._good) && decide (0 < count))
    · cases h3 : (check app w channel pts count).ret
      · right; right; right
        cases hin : inited w
        · rw [check_of_not_inited app w channel pts count hin] at h3
          cases h3
        · by_cases heq : max w._last pts = toInt32 (w._count + count)
          · rw [check_of_eq app w channel pts count hin heq] at h3
            cases h3
          · have hchk := check_of_ne app w channel pts count hin heq
            rw [hchk] at h3
            have hc0 : count ≠ 0 := by simpa using h3
            refine ⟨rfl, hc0, ?_⟩
            simp [updatedUpdate, h1, h2, hchk, hc0, ptsKey]
      · right; right; left
        exact ⟨rfl, by simp [updatedUpdate, h1, h2, h3]⟩
    · right; left
      refine ⟨by simpa using h2, ?_⟩
      simp [updatedUpdate, h1, h2]
  · left
    simp [updatedUpdate, h1]

theorem updatedUpdates_paths (app : App) (w : PtsWaiter U Us) (channel : ChannelData)
    (pts count : Int) (updates : Us) :
    updatedUpdates app w channel pts count updates = { ret := true, st := w, fx := [] } ∨
    ((pts ≤ w._good ∧ 0 < count) ∧
      updatedUpdates app w channel pts count updates =
        { ret := false, st := w, fx := [] }) ∨
    ((check app w channel pts count).ret = true ∧
      updatedUpdates app w channel pts count updates = check app w channel pts count) ∨
    (inited w = true ∧ count ≠ 0 ∧
      updatedUpdates app w channel pts count updates =
        { ret := false,
          st := { w with
            _last := max w._last pts, _count := toInt32 (w._count + count),
            _waitingForSkipped := true,
            _queue := QMap.insert (packKey (max w._last pts) (toInt32 (w._count + count)))
              PtsSkippedQueue.SkippedUpdates w._queue,
            _updatesQueue := QMap.insert
              (packKey (max w._last pts) (toInt32 (w._count + count))) updates
              w._updatesQueue },
          fx := (check app w channel pts count).fx }) := by
  cases h1 : (w._requesting || w._applySkippedLevel != 0)
  · cases h2 : (decide (pts ≤ w._good) && decide (0 < count))
    · cases h3 : (check app w channel pts count).ret
      · right; right; right
        cases hin : inited w
        · rw [check_of_not_inited app w channel pts count hin] at h3
          cases h3
        · by_cases heq : max w._last pts = toInt32 (w._count + count)
          · rw [check_of_eq app w channel pts count hin heq] at h3
            cases h3
          · have hchk := check_of_ne app w channel pts count hin heq
            rw [hchk] at h3
            have hc0 : count ≠ 0 := by simpa using h3
            refine ⟨rfl, hc0, ?_⟩
            simp [updatedUpdates, h1, h2, hchk, hc0, ptsKey]
      · right; right; left
        exact ⟨rfl, by simp [updatedUpdates, h1, h2, h3]⟩
    · right; left
      refine ⟨by simpa using h2, ?_⟩
      simp [updatedUpdates, h1, h2]
  · left
    simp [updatedUpdates, h1]

/-! ## The gap check -/

/-- C1 (as amended): for an initialised waiter that is neither requesting nor replaying
and an update that is not a duplicate, `updated` is `check`; when `max(last, pts)` and
the wrapped `count_total + count` differ, `check` stores both, sets `_waitingForSkipped`,
leaves `_good` and everything else alone, returns `true` exactly when `count == 0`, and
makes one timer request if `App::main()` is there (1 ms when `last < count_total`,
`WaitForSkippedTimeout` when `last > count_total`) and none if it is null. -/
theorem check_gap_waits (app : App) (w : PtsWaiter U Us) (channel : ChannelData)
    (pts count : Int) (hin : inited w = true)
    (hreq : w._requesting = false) (hlvl : w._applySkippedLevel = 0)
    (hdup : ¬ (pts ≤ w._good ∧ 0 < count))
    (hne : max w._last pts ≠ toInt32 (w._count + count)) :
    updated app w channel pts count = check app w channel pts count ∧
    (check app w channel pts count).st =
      { w with _last := max w._last pts, _count := toInt32 (w._count + count),
               _waitingForSkipped := true } ∧
    (check app w channel pts count).st._good = w._good ∧
    (check app w channel pts count).fx =
      (if app.main then
        [Effect.ptsWaiterStartTimerFor channel
          (if max w._last pts < toInt32 (w._count + count) then 1
           else (app.WaitForSkippedTimeout : Int))]
       else []) ∧
    ((check app w channel pts count).ret = true ↔ count = 0) := by
  refine ⟨updated_eq_check app w channel pts count hreq hlvl hdup, ?_⟩
  rw [check_of_ne app w channel pts count hin hne]
  simp [startTimerFor]

/-- Witness of C1: the spec's gap scenario, from `good = last = count_total = 10` with
`updated(ch, pts=20, count=5)`. -/
theorem check_gap_waits_witness :
    (updated appWithMain synced10 7 20 5).ret = false ∧
    (updated appWithMain synced10 7 20 5).st._last = 20 ∧
    (updated appWithMain synced10 7 20 5).st._count = 15 ∧
    (updated appWithMain synced10 7 20 5).st._good = 10 ∧
    (updated appWithMain synced10 7 20 5).st._waitingForSkipped = true ∧
    (updated appWithMain synced10 7 20 5).fx =
      [Effect.ptsWaiterStartTimerFor 7 1000] := by
  have h := check_gap_waits appWithMain synced10 7 20 5 (by decide) (by decide)
    (by decide) (by decide) (by decide)
  obtain ⟨h1, h2, h3, h4, h5⟩ := h
  rw [h1]
  refine ⟨?_, ?_, ?_, h3, ?_, ?_⟩
  · cases hr : (check appWithMain synced10 7 20 5).ret
    · rfl
    · exact absurd (h5.mp hr) (by decide)
  · rw [h2]; decide
  · rw [h2]; decide
  · rw [h2]
  · rw [h4]; decide

/-- Counterexample to C1 as stated: with `App::main()` null the same gap
(`last = 20`, `count_total = 15`) sets `_waitingForSkipped` but requests no timer. -/
theorem check_gap_without_main_requests_nothing :
    inited synced10 = true ∧ synced10._requesting = false ∧
    synced10._applySkippedLevel = 0 ∧ ¬ ((20 : Int) ≤ synced10._good ∧ (0 : Int) < 5) ∧
    max synced10._last 20 ≠ toInt32 (synced10._count + 5) ∧
    (check appWithoutMain synced10 7 20 5).st._waitingForSkipped = true ∧
    (check appWithoutMain synced10 7 20 5).fx = [] := by
  decide

/-- C2: for an initialised waiter, when `max(last, pts)` equals the wrapped
`count_total + count`, `check` stores both, sets `_good` to the new `last`, returns
`true`, requests no timer and leaves the two wait flags and the three maps as they
were. -/
theorem check_no_gap_confirms (app : App) (w : PtsWaiter U Us) (channel : ChannelData)
    (pts count : Int) (hin : inited w = true)
    (heq : max w._last pts = toInt32 (w._count + count)) :
    (check app w channel pts count).ret = true ∧
    (check app w channel pts count).fx = [] ∧
    (check app w channel pts count).st =
      { w with _last := max w._last pts, _count := toInt32 (w._count + count),
               _good := max w._last pts } ∧
    (check app w channel pts count).st._good = (check app w channel pts count).st._last ∧
    (check app w channel pts count).st._waitingForSkipped = w._waitingForSkipped ∧
    (check app w channel pts count).st._waitingForShortPoll = w._waitingForShortPoll ∧
    (check app w channel pts count).st._queue = w._queue ∧
    (check app w channel pts count).st._updateQueue = w._updateQueue ∧
    (check app w channel pts count).st._updatesQueue = w._updatesQueue := by
  rw [check_of_eq app w channel pts count hin heq]
  simp

/-- Witness of C2: the spec's no-gap scenario, `updated(ch, 5, 5)` and then
`updated(ch, 10, 5)` on a fresh waiter. -/
theorem check_no_gap_confirms_witness :
    (updated appWithMain (fresh : PtsWaiter Nat Nat) 7 5 5).ret = true ∧
    (updated appWithMain afterFirst 7 10 5).ret = true ∧
    inited afterFirst = true ∧
    max afterFirst._last 10 = toInt32 (afterFirst._count + 5) ∧
    (check appWithMain afterFirst 7 10 5).ret = true ∧
    (check appWithMain afterFirst 7 10 5).fx = [] ∧
    (check appWithMain afterFirst 7 10 5).st =
      { afterFirst with _last := 10, _count := 10, _good := 10 } :=
  ⟨by decide, by decide, by decide, by decide,
   (check_no_gap_confirms appWithMain afterFirst 7 10 5 (by decide) (by decide)).1,
   (check_no_gap_confirms appWithMain afterFirst 7 10 5 (by decide) (by decide)).2.1,
   by decide⟩

/-! ## The three `updated` overloads -/

/-- C3: when the waiter is neither requesting nor replaying, `pts <= good` and
`count > 0`, each of the three `updated` overloads returns `false`, leaves the whole
state (so `_good`, `_last`, `_count`, both wait flags and the three maps) as it was and
makes no call on `App::main()`: nothing is buffered and no timer is requested. -/
theorem updated_duplicate_dropped (app : App) (w : PtsWaiter U Us)
    (channel : ChannelData) (pts count : Int) (updates : Us) (update : U)
    (hreq : w._requesting = false) (hlvl : w._applySkippedLevel = 0)
    (hpts : pts ≤ w._good) (hcount : 0 < count) :
    updated app w channel pts count = { ret := false, st := w, fx := [] } ∧
    updatedUpdates app w channel pts count updates = { ret := false, st := w, fx := [] } ∧
    updatedUpdate app w channel pts count update = { ret := false, st := w, fx := [] } := by
  simp [updated, updatedUpdates, updatedUpdate, hreq, hlvl, hpts, hcount]

/-- Witness of C3: the spec's duplicate scenario, `good = 10` and `pts = 8`, `count = 3`. -/
theorem updated_duplicate_dropped_witness :
    updated appWithMain synced10 7 8 3 = { ret := false, st := synced10, fx := [] } ∧
    updatedUpdates appWithMain synced10 7 8 3 222 =
      { ret := false, st := synced10, fx := [] } ∧
    updatedUpdate appWithMain synced10 7 8 3 111 =
      { ret := false, st := synced10, fx := [] } :=
  updated_duplicate_dropped appWithMain synced10 7 8 3 222 111 (by decide) (by decide)
    (by decide) (by decide)

/-- C4: when `_requesting` is set or `_applySkippedLevel` is positive, each of the three
`updated` overloads returns `true` for every `pts` and `count`, leaves the whole state
as it was and makes no call on `App::main()`.  The loop of `applySkippedUpdates` runs in
such a state (level 1 when the replay starts at level 0), so an update that is
re-delivered there and comes back through `updated` is neither checked nor buffered. -/
theorem updated_passthrough (app : App) (w : PtsWaiter U Us) (channel : ChannelData)
    (pts count : Int) (updates : Us) (update : U)
    (h : w._requesting = true ∨ 0 < w._applySkippedLevel) :
    (updated app w channel pts count = { ret := true, st := w, fx := [] } ∧
     updatedUpdates app w channel pts count updates = { ret := true, st := w, fx := [] } ∧
     updatedUpdate app w channel pts count update = { ret := true, st := w, fx := [] }) ∧
    (∀ v : PtsWaiter U Us, v._applySkippedLevel = 0 →
      (replayState app v channel)._applySkippedLevel = 1 ∧
      updated app (replayState app v channel) channel pts count =
        { ret := true, st := replayState app v channel, fx := [] } ∧
      updatedUpdates app (replayState app v channel) channel pts count updates =
        { ret := true, st := replayState app v channel, fx := [] } ∧
      updatedUpdate app (replayState app v channel) channel pts count update =
        { ret := true, st := replayState app v channel, fx := [] }) := by
  constructor
  · rcases h with h | h
    · simp [updated, updatedUpdates, updatedUpdate, h]
    · have hne : w._applySkippedLevel ≠ 0 := by omega
      simp [updated, updatedUpdates, updatedUpdate, hne]
  · intro v hv
    have hl : (replayState app v channel)._applySkippedLevel = 1 := by
      simp [replayState, setWaitingForSkipped, hv, toInt32]
    simp [updated, updatedUpdates, updatedUpdate, hl]

/-- Witness of C4: the state in which the buffered payload of the gap scenario is
replayed passes a fresh gap (`pts = 40`, `count = 5`) through untouched. -/
theorem updated_passthrough_witness :
    ((replayState appWithMain gap20 7)._requesting = true ∨
      0 < (replayState appWithMain gap20 7)._applySkippedLevel) ∧
    updatedUpdate appWithMain (replayState appWithMain gap20 7) 7 40 5 333 =
      { ret := true, st := replayState appWithMain gap20 7, fx := [] } :=
  ⟨Or.inr (by decide),
    (updated_passthrough appWithMain (replayState appWithMain gap20 7) 7 40 5 222 333
      (Or.inr (by decide))).1.2.2⟩

/-- C5: in a call of a payload-carrying `updated` overload that reaches the gap check
(not requesting, not replaying, not a duplicate): if `check` returns `false`, the call
returns `false`, makes the calls `check` made, and its state is the state after `check`
with the payload and its kind inserted under
`uint64(uint32(last)) << 32 | uint32(count_total)`, `last` and `count_total` taken after
the check, so that `_queue` maps this key to `SkippedUpdate` (`SkippedUpdates` for a
batch) and `_updateQueue` (`_updatesQueue`) maps it to the payload; if `check` returns
`true`, the call is `check` and every binding of the three maps was there before. -/
theorem updated_buffers_on_gap (app : App) (w : PtsWaiter U Us) (channel : ChannelData)
    (pts count : Int) (updates : Us) (update : U)
    (hreq : w._requesting = false) (hlvl : w._applySkippedLevel = 0)
    (hdup : ¬ (pts ≤ w._good ∧ 0 < count)) :
    ((check app w channel pts count).ret = false →
      ((updatedUpdate app w channel pts count update).ret = false ∧
       (updatedUpdate app w channel pts count update).fx =
         (check app w channel pts count).fx ∧
       (updatedUpdate app w channel pts count update).st =
         { (check app w channel pts count).st with
           _queue := QMap.insert
             (packKey (check app w channel pts count).st._last
               (check app w channel pts count).st._count)
             PtsSkippedQueue.SkippedUpdate (check app w channel pts count).st._queue,
           _updateQueue := QMap.insert
             (packKey (check app w channel pts count).st._last
               (check app w channel pts count).st._count)
             update (check app w channel pts count).st._updateQueue } ∧
       QMap.find
           (packKey (check app w channel pts count).st._last
             (check app w channel pts count).st._count)
           (updatedUpdate app w channel pts count update).st._queue =
         some PtsSkippedQueue.SkippedUpdate ∧
       QMap.find
           (packKey (check app w channel pts count).st._last
             (check app w channel pts count).st._count)
           (updatedUpdate app w channel pts count update).st._updateQueue =
         some update) ∧
      ((updatedUpdates app w channel pts count updates).ret = false ∧
       (updatedUpdates app w channel pts count updates).fx =
         (check app w channel pts count).fx ∧
       (updatedUpdates app w channel pts count updates).st =
         { (check app w channel pts count).st with
           _queue := QMap.insert
             (packKey (check app w channel pts count).st._last
               (check app w channel pts count).st._count)
             PtsSkippedQueue.SkippedUpdates (check app w channel pts count).st._queue,
           _updatesQueue := QMap.insert
             (packKey (check app w channel pts count).st._last
               (check app w channel pts count).st._count)
             updates (check app w channel pts count).st._updatesQueue } ∧
       QMap.find
           (packKey (check app w channel pts count).st._last
             (check app w channel pts count).st._count)
           (updatedUpdates app w channel pts count updates).st._queue =
         some PtsSkippedQueue.SkippedUpdates ∧
       QMap.find
           (packKey (check app w channel pts count).st._last
             (check app w channel pts count).st._count)
           (updatedUpdates app w channel pts count updates).st._updatesQueue =
         some updates)) ∧
    ((check app w channel pts count).ret = true →
      updatedUpdate app w channel pts count update = check app w channel pts count ∧
      updatedUpdates app w channel pts count updates = check app w channel pts count ∧
      (∀ k q, QMap.find k (check app w channel pts count).st._queue = some q →
        QMap.find k w._queue = some q) ∧
      (∀ k u, QMap.find k (check app w channel pts count).st._updateQueue = some u →
        QMap.find k w._updateQueue = some u) ∧
      (∀ k us, QMap.find k (check app w channel pts count).st._updatesQueue = some us →
        QMap.find k w._updatesQueue = some us)) := by
  have hd : (decide (pts ≤ w._good) && decide (0 < count)) = false := by
    simpa using hdup
  constructor
  · intro hc
    refine ⟨⟨?_, ?_, ?_, ?_, ?_⟩, ⟨?_, ?_, ?_, ?_, ?_⟩⟩ <;>
      simp [updatedUpdate, updatedUpdates, hreq, hlvl, hd, hc, ptsKey,
        QMap.find_insert_self]
  · intro hc
    refine ⟨?_, ?_, ?_⟩
    · simp [updatedUpdate, hreq, hlvl, hd, hc]
    · simp [updatedUpdates, hreq, hlvl, hd, hc]
    · rcases check_maps app w channel pts count with ⟨h1, h2, h3⟩ | ⟨h1, h2, h3⟩
      · rw [h1, h2, h3]
        exact ⟨fun _ _ h => h, fun _ _ h => h, fun _ _ h => h⟩
      · rw [h1, h2, h3]
        simp [QMap.find]

/-- Witness of C5: the spec's gap scenario with the single update `111`; the key is
`20 * 2^32 + 15`. -/
theorem updated_buffers_on_gap_witness :
    (check appWithMain synced10 7 20 5).ret = false ∧
    packKey (check appWithMain synced10 7 20 5).st._last
      (check appWithMain synced10 7 20 5).st._count = 85899345935 ∧
    (updatedUpdate appWithMain synced10 7 20 5 111).ret = false ∧
    QMap.find
        (packKey (check appWithMain synced10 7 20 5).st._last
          (check appWithMain synced10 7 20 5).st._count)
        (updatedUpdate appWithMain synced10 7 20 5 111).st._updateQueue = some 111 :=
  ⟨by decide, by decide,
   ((updated_buffers_on_gap appWithMain synced10 7 20 5 222 111 (by decide) (by decide)
      (by decide)).1 (by decide)).1.1,
   ((updated_buffers_on_gap appWithMain synced10 7 20 5 222 111 (by decide) (by decide)
      (by decide)).1 (by decide)).1.2.2.2.2⟩

/-! ## Replay -/

/-- C6 (as amended): take a waiter whose `_queue` is empty (the buffer was just cleared)
and, if it is initialised, has `0 < last` and `0 <= count_total` in `int32` range, and
any list of `updated` calls in which every `count` is non-negative, every `pts` fits an
`int32` and `count_total + count` does not overflow.  If afterwards the waiter is waiting
for skipped updates and `App::main()` is there, `applySkippedUpdates` re-delivers every
buffered payload exactly once, in the order in which the payloads were buffered, single
updates through `feedUpdate` and batches through `feedUpdates`; the keys of `_queue`
ascend strictly, so that walking it in key order is walking it in arrival order. -/
theorem applySkippedUpdates_replays_in_arrival_order [Inhabited U] [Inhabited Us]
    (app : App) (channel : ChannelData) (w : PtsWaiter U Us) (cs : List (Call U Us))
    (hmain : app.main = true) (hq : w._queue = [])
    (hstart : inited w = true →
      0 < w._last ∧ w._last < 2147483648 ∧ 0 ≤ w._count ∧ w._count < 2147483648)
    (hrange : inRange app channel w cs = true)
    (hwait : (runCalls app channel w cs)._waitingForSkipped = true) :
    deliveries (applySkippedUpdates app (runCalls app channel w cs) channel).fx =
      arrivals app channel w cs ∧
    (runCalls app channel w cs)._queue.map (feedSkipped (runCalls app channel w cs)) =
      arrivals app channel w cs ∧
    List.Pairwise (fun a b => a < b) ((runCalls app channel w cs)._queue.map Prod.fst) := by
  have h0 : Buffered w [] := by
    refine ⟨by simp [hq], by simp [hq], ?_, fun _ => hq⟩
    intro hin
    obtain ⟨a, b, c, d⟩ := hstart hin
    refine ⟨a, b, c, d, ?_⟩
    intro p hp
    rw [hq] at hp
    cases hp
  have hb := runCalls_buffered app channel cs w [] h0 hrange
  rw [List.nil_append] at hb
  obtain ⟨hlog, hsorted, _, _⟩ := hb
  refine ⟨?_, hlog, hsorted⟩
  by_cases hempty : (runCalls app channel w cs)._queue = []
  · rw [applySkippedUpdates_of_nothing app _ channel hwait (Or.inr hempty),
      setWaitingForSkipped_stop]
    rw [hempty] at hlog
    rw [← hlog]
    exact deliveries_checkForWaiting app _ channel
  · rw [applySkippedUpdates_of_replay app _ channel hwait hmain hempty]
    show deliveries (_ ++ _) = _
    have h1 := deliveries_checkForWaiting app
      { runCalls app channel w cs with _waitingForSkipped := false } channel
    have h2 := deliveries_feedSkipped
      (replayState app (runCalls app channel w cs) channel)
      (runCalls app channel w cs)._queue
    unfold deliveries at h1 h2 ⊢
    rw [List.filter_append, h1, h2, List.nil_append, ← hlog]
    apply List.map_congr_left
    intro i _
    apply feedSkipped_congr
    · simp [replayState, setWaitingForSkipped_stop]
    · simp [replayState, setWaitingForSkipped_stop]

/-- Witness of C6: from `good = last = count_total = 10`, the single update `111`
(`pts = 20`, `count = 5`) and then the batch `222` (`pts = 30`, `count = 5`) are
buffered and replayed in that order. -/
theorem applySkippedUpdates_replays_in_arrival_order_witness :
    appWithMain.main = true ∧ synced10._queue = [] ∧
    inRange appWithMain 7 synced10 [Call.single 20 5 111, Call.batch 30 5 222] = true ∧
    (runCalls appWithMain 7 synced10
      [Call.single 20 5 111, Call.batch 30 5 222])._waitingForSkipped = true ∧
    arrivals appWithMain 7 synced10 [Call.single 20 5 111, Call.batch 30 5 222] =
      [Effect.feedUpdate 111, Effect.feedUpdates 222] ∧
    deliveries (applySkippedUpdates appWithMain
      (runCalls appWithMain 7 synced10 [Call.single 20 5 111, Call.batch 30 5 222]) 7).fx =
      arrivals appWithMain 7 synced10 [Call.single 20 5 111, Call.batch 30 5 222] :=
  ⟨rfl, by decide, by decide, by decide, by decide,
   (applySkippedUpdates_replays_in_arrival_order appWithMain 7 synced10
      [Call.single 20 5 111, Call.batch 30 5 222] rfl (by decide)
      (fun _ => by decide) (by decide) (by decide)).1⟩

/-- Counterexample to C6 as stated.  With a negative `count` the key order is not the
arrival order: from `good = last = count_total = 10` the update `111` (`pts = 20`,
`count = 5`) is buffered before the update `333` (`pts = 20`, `count = -1`), and
`applySkippedUpdates` re-delivers `333` first.  And with `App::main()` null
`applySkippedUpdates` re-delivers nothing and the payload stays buffered. -/
theorem replay_order_differs_from_arrival_order :
    ((runCalls appWithMain 7 synced10
        [Call.single 20 5 111, Call.single 20 (-1) 333])._waitingForSkipped = true ∧
     arrivals appWithMain 7 synced10 [Call.single 20 5 111, Call.single 20 (-1) 333] =
       [Effect.feedUpdate 111, Effect.feedUpdate 333] ∧
     deliveries (applySkippedUpdates appWithMain
       (runCalls appWithMain 7 synced10
         [Call.single 20 5 111, Call.single 20 (-1) 333]) 7).fx =
       [Effect.feedUpdate 333, Effect.feedUpdate 111]) ∧
    (gap20._waitingForSkipped = true ∧
     gap20._updateQueue = [(85899345935, 111)] ∧
     deliveries (applySkippedUpdates appWithoutMain gap20 7).fx = [] ∧
     (applySkippedUpdates appWithoutMain gap20 7).st._updateQueue =
       [(85899345935, 111)]) := by
  decide

/-- C7 (as amended): in the gap scenario (`good = 10`, `last = 20`, `count_total = 15`,
payload `111` buffered), an update with `10 < pts <= 20` and `count = 5` brings
`count_total` to `last = 20`; each `updated` overload returns `true` at once with
`good = 20`, re-delivers nothing and leaves the buffered payload in the maps with
`_waitingForSkipped` still set.  The payload is replayed only by a following
`applySkippedUpdates`, which with `App::main()` there hands it to `feedUpdate` and
empties the maps. -/
theorem gap_filled_confirms_then_replays (app : App) (channel : ChannelData) (pts : Int)
    (updates update : Nat) (hlo : 10 < pts) (hhi : pts ≤ 20) (hmain : app.main = true) :
    (updated app gap20 channel pts 5 = { ret := true, st := filled20, fx := [] } ∧
     updatedUpdates app gap20 channel pts 5 updates =
       { ret := true, st := filled20, fx := [] } ∧
     updatedUpdate app gap20 channel pts 5 update =
       { ret := true, st := filled20, fx := [] }) ∧
    (filled20._good = 20 ∧ filled20._last = 20 ∧ filled20._count = 20 ∧
     filled20._waitingForSkipped = true ∧
     QMap.find 85899345935 filled20._queue = some PtsSkippedQueue.SkippedUpdate ∧
     QMap.find 85899345935 filled20._updateQueue = some 111) ∧
    deliveries (applySkippedUpdates app filled20 channel).fx = [Effect.feedUpdate 111] ∧
    (applySkippedUpdates app filled20 channel).st =
      { filled20 with _queue := [], _updateQueue := [], _updatesQueue := [],
                      _waitingForSkipped := false } := by
  have hin : inited gap20 = true := by decide
  have hreq : gap20._requesting = false := by decide
  have hlvl : gap20._applySkippedLevel = 0 := by decide
  have hgood : gap20._good = 10 := by decide
  have hlast : gap20._last = 20 := by decide
  have hcount : gap20._count = 15 := by decide
  have hdup : ¬ (pts ≤ gap20._good ∧ (0 : Int) < 5) := by
    rw [hgood]; omega
  have hmax : max gap20._last pts = 20 := by
    rw [hlast]; exact max_eq_left hhi
  have h15 : toInt32 (gap20._count + 5) = 20 := by
    rw [hcount]; decide
  have heq : max gap20._last pts = toInt32 (gap20._count + 5) := by
    rw [hmax, h15]
  have hc : check app gap20 channel pts 5 =
      { ret := true, st := filled20, fx := [] } := by
    rw [check_of_eq app gap20 channel pts 5 hin heq, hmax, h15]
    rfl
  have hd : (decide (pts ≤ gap20._good) && decide ((0 : Int) < 5)) = false := by
    simpa using hdup
  have hrep := applySkippedUpdates_of_replay app filled20 channel (by decide) hmain
    (by decide)
  refine ⟨⟨?_, ?_, ?_⟩, by decide, ?_, ?_⟩
  · rw [updated_eq_check app gap20 channel pts 5 hreq hlvl hdup, hc]
  · unfold updatedUpdates
    rw [hreq, hlvl, hd, hc]
    rfl
  · unfold updatedUpdate
    rw [hreq, hlvl, hd, hc]
    rfl
  · rw [hrep]
    show deliveries (_ ++ _) = _
    unfold deliveries
    rw [List.filter_append]
    have h1 := deliveries_checkForWaiting app
      ({ filled20 with _waitingForSkipped := false } : PtsWaiter Nat Nat) channel
    have h2 := deliveries_feedSkipped (replayState app filled20 channel) filled20._queue
    unfold deliveries at h1 h2
    rw [h1, h2]
    have h3 : filled20._queue = [(85899345935, PtsSkippedQueue.SkippedUpdate)] := by
      decide
    rw [h3]
    simp [feedSkipped, replayState, setWaitingForSkipped, QMap.value]
    decide
  · rw [hrep]
    have h4 : filled20._applySkippedLevel = 0 := by decide
    simp [h4]

/-- Witness of C7: the gap is filled by `updated(ch, pts=15, count=5)`. -/
theorem gap_filled_confirms_then_replays_witness :
    (10 : Int) < 15 ∧ (15 : Int) ≤ 20 ∧ appWithMain.main = true ∧
    updatedUpdate appWithMain gap20 7 15 5 333 =
      { ret := true, st := filled20, fx := [] } ∧
    deliveries (applySkippedUpdates appWithMain filled20 7).fx =
      [Effect.feedUpdate 111] :=
  ⟨by decide, by decide, rfl,
   (gap_filled_confirms_then_replays appWithMain 7 15 222 333 (by decide) (by decide)
      rfl).1.2.2,
   (gap_filled_confirms_then_replays appWithMain 7 15 222 333 (by decide) (by decide)
      rfl).2.2.1⟩

/-- Counterexample to C7 as stated: in the gap scenario `updated(ch, pts=15, count=5)`
returns `true` with `good` advanced to 20 and no payload re-delivered, while the payload
buffered for `pts = 20` is still in the maps and `_waitingForSkipped` is still set. -/
theorem gap_filled_confirmed_while_buffered :
    gap20._good = 10 ∧ gap20._last = 20 ∧ gap20._count = 15 ∧
    QMap.find 85899345935 gap20._updateQueue = some 111 ∧
    (updatedUpdate appWithMain gap20 7 15 5 333).ret = true ∧
    (updatedUpdate appWithMain gap20 7 15 5 333).st._good = 20 ∧
    (updatedUpdate appWithMain gap20 7 15 5 333).st._count = 20 ∧
    (updatedUpdate appWithMain gap20 7 15 5 333).fx = [] ∧
    QMap.find 85899345935 (updatedUpdate appWithMain gap20 7 15 5 333).st._queue =
      some PtsSkippedQueue.SkippedUpdate ∧
    QMap.find 85899345935 (updatedUpdate appWithMain gap20 7 15 5 333).st._updateQueue =
      some 111 ∧
    (updatedUpdate appWithMain gap20 7 15 5 333).st._waitingForSkipped = true := by
  decide

/-- C8 (as amended): when `applySkippedUpdates` replays a non-empty buffer (the waiter is
waiting for skipped updates, `App::main()` is there and `_queue` is not empty), it
re-delivers the bindings of `_queue` and afterwards the three maps are empty and
`_applySkippedLevel` is zero; `_count` (the running total), `_good` and `_last` keep
the values they had. -/
theorem applySkippedUpdates_clears_maps_keeps_count [Inhabited U] [Inhabited Us]
    (app : App) (w : PtsWaiter U Us) (channel : ChannelData)
    (hw : w._waitingForSkipped = true) (hm : app.main = true) (hq : w._queue ≠ []) :
    deliveries (applySkippedUpdates app w channel).fx =
      w._queue.map (feedSkipped (replayState app w channel)) ∧
    (applySkippedUpdates app w channel).st._queue = [] ∧
    (applySkippedUpdates app w channel).st._updateQueue = [] ∧
    (applySkippedUpdates app w channel).st._updatesQueue = [] ∧
    (applySkippedUpdates app w channel).st._applySkippedLevel = 0 ∧
    (applySkippedUpdates app w channel).st._count = w._count ∧
    (applySkippedUpdates app w channel).st._good = w._good ∧
    (applySkippedUpdates app w channel).st._last = w._last := by
  rw [applySkippedUpdates_of_replay app w channel hw hm hq]
  refine ⟨?_, rfl, rfl, rfl, rfl, rfl, rfl, rfl⟩
  show deliveries (_ ++ _) = _
  have h1 := deliveries_checkForWaiting app { w with _waitingForSkipped := false } channel
  have h2 := deliveries_feedSkipped (replayState app w channel) w._queue
  unfold deliveries at h1 h2 ⊢
  rw [List.filter_append, h1, h2]
  rfl

/-- Witness of C8: replay of the gap scenario's buffer; `count_total` stays at 15. -/
theorem applySkippedUpdates_clears_maps_keeps_count_witness :
    gap20._waitingForSkipped = true ∧ appWithMain.main = true ∧ gap20._queue ≠ [] ∧
    (applySkippedUpdates appWithMain gap20 7).st._queue = [] ∧
    (applySkippedUpdates appWithMain gap20 7).st._count = gap20._count :=
  ⟨by decide, rfl, by decide,
   (applySkippedUpdates_clears_maps_keeps_count appWithMain gap20 7 (by decide) rfl
      (by decide)).2.1,
   (applySkippedUpdates_clears_maps_keeps_count appWithMain gap20 7 (by decide) rfl
      (by decide)).2.2.2.2.2.1⟩

/-- Counterexample to C8 as stated: `applySkippedUpdates` replays the buffered payload of
the gap scenario and empties the maps, and `count_total` is 15 afterwards, not zero. -/
theorem applySkippedUpdates_count_not_reset :
    gap20._queue ≠ [] ∧
    (applySkippedUpdates appWithMain gap20 7).fx =
      [Effect.ptsWaiterStartTimerFor 7 (-1), Effect.feedUpdate 111] ∧
    (applySkippedUpdates appWithMain gap20 7).st._queue = [] ∧
    (applySkippedUpdates appWithMain gap20 7).st._updateQueue = [] ∧
    (applySkippedUpdates appWithMain gap20 7).st._updatesQueue = [] ∧
    (applySkippedUpdates appWithMain gap20 7).st._count = 15 ∧
    (applySkippedUpdates appWithMain gap20 7).st._count ≠ 0 := by
  decide

/-! ## First update and the invariant -/

/-- C9: on a waiter that is not initialised, `check(channel, pts, count)` calls
`init(pts)`, so `_last = pts` (with `_good` and `_count`), and returns `true` whatever
`count` is; it makes no call on `App::main()`, leaves both wait flags as they were and
adds no binding to any of the three maps.  (Afterwards `inited()` holds exactly when
`pts > 0`.) -/
theorem check_uninitialised_accepts (app : App) (w : PtsWaiter U Us)
    (channel : ChannelData) (pts count : Int) (h : inited w = false) :
    (check app w channel pts count).ret = true ∧
    (check app w channel pts count).st = init pts w ∧
    (check app w channel pts count).st._last = pts ∧
    (check app w channel pts count).st._good = pts ∧
    (check app w channel pts count).st._count = pts ∧
    (check app w channel pts count).fx = [] ∧
    (check app w channel pts count).st._waitingForSkipped = w._waitingForSkipped ∧
    (check app w channel pts count).st._waitingForShortPoll = w._waitingForShortPoll ∧
    (∀ k q, QMap.find k (check app w channel pts count).st._queue = some q →
      QMap.find k w._queue = some q) ∧
    (∀ k u, QMap.find k (check app w channel pts count).st._updateQueue = some u →
      QMap.find k w._updateQueue = some u) ∧
    (∀ k us, QMap.find k (check app w channel pts count).st._updatesQueue = some us →
      QMap.find k w._updatesQueue = some us) ∧
    (inited (check app w channel pts count).st = true ↔ 0 < pts) := by
  rw [check_of_not_inited app w channel pts count h]
  simp [init, clearSkippedUpdates, QMap.find, inited]

/-- Witness of C9: the spec's first call, `updated(ch, pts=5, count=5)` from `good = 0`. -/
theorem check_uninitialised_accepts_witness :
    inited (fresh : PtsWaiter Nat Nat) = false ∧
    (updated appWithMain (fresh : PtsWaiter Nat Nat) 7 5 5).ret = true ∧
    (updated appWithMain (fresh : PtsWaiter Nat Nat) 7 5 5).st._last = 5 ∧
    (check appWithMain (fresh : PtsWaiter Nat Nat) 7 5 5).ret = true ∧
    (check appWithMain (fresh : PtsWaiter Nat Nat) 7 5 5).st._last = 5 :=
  ⟨by decide, by decide, by decide,
   (check_uninitialised_accepts appWithMain (fresh : PtsWaiter Nat Nat) 7 5 5
      (by decide)).1,
   (check_uninitialised_accepts appWithMain (fresh : PtsWaiter Nat Nat) 7 5 5
      (by decide)).2.2.1⟩

/-- C10: `_good <= _last` holds in every state reached from a freshly constructed waiter
by any list of `init`, `updated` (the three overloads), `setWaitingForSkipped`,
`setWaitingForShortPoll`, `applySkippedUpdates` and `clearSkippedUpdates`, for every
argument and with `App::main()` there or not; the wrapped `int32` sum changes nothing
here, so no overflow condition is needed. -/
theorem good_le_last_reachable [Inhabited U] [Inhabited Us] (app : App)
    (ops : List (Op U Us)) :
    (run app (fresh : PtsWaiter U Us) ops)._good ≤
      (run app (fresh : PtsWaiter U Us) ops)._last :=
  run_good_le_last app ops fresh (le_refl _)

/-! ## Outcomes of `updated` while waiting -/

/-- C11 (as amended): while `_waitingForSkipped` is set and the waiter is neither
requesting nor replaying, a payload-carrying `updated` overload still goes through the
duplicate test and the gap check.  A duplicate (`pts <= good`, `count > 0`) is dropped:
`false`, state unchanged.  An update for which the waiter is not initialised, or
`max(last, pts)` equals the wrapped `count_total + count`, or `count == 0`, is reported
as applied: the call is `check`, returns `true`, stores no payload and leaves the flag
set.  Only the remaining updates (initialised, the two values differ, `count != 0`) are
buffered: `false`, the payload and its kind under the key of the new
`(last, count_total)`, the flag still set. -/
theorem updated_while_waiting (app : App) (w : PtsWaiter U Us) (channel : ChannelData)
    (pts count : Int) (updates : Us) (update : U)
    (hwait : w._waitingForSkipped = true)
    (hreq : w._requesting = false) (hlvl : w._applySkippedLevel = 0) :
    ((pts ≤ w._good ∧ 0 < count) →
      updatedUpdate app w channel pts count update = { ret := false, st := w, fx := [] } ∧
      updatedUpdates app w channel pts count updates =
        { ret := false, st := w, fx := [] }) ∧
    (¬ (pts ≤ w._good ∧ 0 < count) →
      (inited w = false ∨ max w._last pts = toInt32 (w._count + count) ∨ count = 0) →
      (updatedUpdate app w channel pts count update).ret = true ∧
      (updatedUpdates app w channel pts count updates).ret = true ∧
      updatedUpdate app w channel pts count update = check app w channel pts count ∧
      updatedUpdates app w channel pts count updates = check app w channel pts count ∧
      (check app w channel pts count).st._waitingForSkipped = true ∧
      (∀ k u, QMap.find k (check app w channel pts count).st._updateQueue = some u →
        QMap.find k w._updateQueue = some u) ∧
      (∀ k us, QMap.find k (check app w channel pts count).st._updatesQueue = some us →
        QMap.find k w._updatesQueue = some us)) ∧
    (¬ (pts ≤ w._good ∧ 0 < count) → inited w = true →
      max w._last pts ≠ toInt32 (w._count + count) → count ≠ 0 →
      ((updatedUpdate app w channel pts count update).ret = false ∧
       (updatedUpdate app w channel pts count update).st._waitingForSkipped = true ∧
       QMap.find (packKey (max w._last pts) (toInt32 (w._count + count)))
           (updatedUpdate app w channel pts count update).st._queue =
         some PtsSkippedQueue.SkippedUpdate ∧
       QMap.find (packKey (max w._last pts) (toInt32 (w._count + count)))
           (updatedUpdate app w channel pts count update).st._updateQueue =
         some update) ∧
      ((updatedUpdates app w channel pts count updates).ret = false ∧
       (updatedUpdates app w channel pts count updates).st._waitingForSkipped = true ∧
       QMap.find (packKey (max w._last pts) (toInt32 (w._count + count)))
           (updatedUpdates app w channel pts count updates).st._queue =
         some PtsSkippedQueue.SkippedUpdates ∧
       QMap.find (packKey (max w._last pts) (toInt32 (w._count + count)))
           (updatedUpdates app w channel pts count updates).st._updatesQueue =
         some updates)) := by
  refine ⟨?_, ?_, ?_⟩
  · rintro ⟨hp, hc⟩
    simp [updatedUpdate, updatedUpdates, hreq, hlvl, hp, hc]
  · intro hdup hcase
    have hd : (decide (pts ≤ w._good) && decide (0 < count)) = false := by
      simpa using hdup
    have hret : (check app w channel pts count).ret = true ∧
        (check app w channel pts count).st._waitingForSkipped = true := by
      cases hin : inited w
      · rw [check_of_not_inited app w channel pts count hin]
        exact ⟨rfl, by simpa [init, clearSkippedUpdates] using hwait⟩
      · by_cases heq : max w._last pts = toInt32 (w._count + count)
        · rw [check_of_eq app w channel pts count hin heq]
          exact ⟨rfl, hwait⟩
        · rw [check_of_ne app w channel pts count hin heq]
          rcases hcase with h | h | h
          · rw [hin] at h; cases h
          · exact absurd h heq
          · exact ⟨by simp [h], rfl⟩
    have hmaps := check_maps app w channel pts count
    refine ⟨?_, ?_, ?_, ?_, hret.2, ?_, ?_⟩
    · simp [updatedUpdate, hreq, hlvl, hd, hret.1]
    · simp [updatedUpdates, hreq, hlvl, hd, hret.1]
    · simp [updatedUpdate, hreq, hlvl, hd, hret.1]
    · simp [updatedUpdates, hreq, hlvl, hd, hret.1]
    · rcases hmaps with ⟨_, h2, _⟩ | ⟨_, h2, _⟩
      · rw [h2]; exact fun _ _ h => h
      · rw [h2]; simp [QMap.find]
    · rcases hmaps with ⟨_, _, h3⟩ | ⟨_, _, h3⟩
      · rw [h3]; exact fun _ _ h => h
      · rw [h3]; simp [QMap.find]
  · intro hdup hin hne hc0
    have hd : (decide (pts ≤ w._good) && decide (0 < count)) = false := by
      simpa using hdup
    have hchk := check_of_ne app w channel pts count hin hne
    refine ⟨⟨?_, ?_, ?_, ?_⟩, ⟨?_, ?_, ?_, ?_⟩⟩ <;>
      simp [updatedUpdate, updatedUpdates, hreq, hlvl, hd, ptsKey, hchk, hc0,
        QMap.find_insert_self]

/-- Witness of C11: in the gap scenario (waiting, `good = 10`, `last = 20`,
`count_total = 15`) the update `pts = 30`, `count = 5` is buffered under the key of
`(30, 20)`. -/
theorem updated_while_waiting_witness :
    gap20._waitingForSkipped = true ∧ gap20._requesting = false ∧
    gap20._applySkippedLevel = 0 ∧
    (updatedUpdate appWithMain gap20 7 30 5 333).ret = false ∧
    QMap.find (packKey (max gap20._last 30) (toInt32 (gap20._count + 5)))
        (updatedUpdate appWithMain gap20 7 30 5 333).st._updateQueue = some 333 :=
  ⟨by decide, by decide, by decide,
   ((updated_while_waiting appWithMain gap20 7 30 5 222 333 (by decide) (by decide)
      (by decide)).2.2 (by decide) (by decide) (by decide) (by decide)).1.1,
   ((updated_while_waiting appWithMain gap20 7 30 5 222 333 (by decide) (by decide)
      (by decide)).2.2 (by decide) (by decide) (by decide) (by decide)).1.2.2.2⟩

/-- Counterexample to C11 as stated: in the gap scenario the waiter is waiting for
skipped updates and is neither requesting nor replaying, yet the update `pts = 15`,
`count = 5` is reported as applied (`true`) and not stored, the probe `pts = 25`,
`count = 0` is reported as applied and not stored, and the duplicate `pts = 8`,
`count = 3` is dropped without being stored. -/
theorem waiting_update_applied_or_dropped :
    gap20._waitingForSkipped = true ∧ gap20._requesting = false ∧
    gap20._applySkippedLevel = 0 ∧
    (updatedUpdate appWithMain gap20 7 15 5 333).ret = true ∧
    (updatedUpdate appWithMain gap20 7 15 5 333).st._updateQueue = gap20._updateQueue ∧
    (updatedUpdates appWithMain gap20 7 25 0 222).ret = true ∧
    (updatedUpdates appWithMain gap20 7 25 0 222).st._updatesQueue = [] ∧
    updatedUpdate appWithMain gap20 7 8 3 333 = { ret := false, st := gap20, fx := [] } ∧
    gap20._updateQueue = [(85899345935, 111)] := by
  decide

/-- C12: a call of a payload-carrying `updated` overload (with `count` an `int32`) ends
in exactly one of three outcomes: it returns `true`; or it returns `false` with the
state unchanged, which happens only when `pts <= good` and `count > 0`; or it returns
`false` with the state changed, the payload and its kind stored under the key of the
new `(last, count_total)` and `_waitingForSkipped` set.  One of the three always holds
and no two hold together. -/
theorem updated_three_outcomes (app : App) (w : PtsWaiter U Us) (channel : ChannelData)
    (pts count : Int) (updates : Us) (update : U)
    (hlo : -2147483648 ≤ count) (hhi : count < 2147483648) :
    ((Accepted (updatedUpdate app w channel pts count update) ∨
      Dropped w (updatedUpdate app w channel pts count update) ∨
      StoredUpdate w update (updatedUpdate app w channel pts count update)) ∧
     (Dropped w (updatedUpdate app w channel pts count update) →
       pts ≤ w._good ∧ 0 < count) ∧
     ¬ (Accepted (updatedUpdate app w channel pts count update) ∧
        Dropped w (updatedUpdate app w channel pts count update)) ∧
     ¬ (Accepted (updatedUpdate app w channel pts count update) ∧
        StoredUpdate w update (updatedUpdate app w channel pts count update)) ∧
     ¬ (Dropped w (updatedUpdate app w channel pts count update) ∧
        StoredUpdate w update (updatedUpdate app w channel pts count update))) ∧
    ((Accepted (updatedUpdates app w channel pts count updates) ∨
      Dropped w (updatedUpdates app w channel pts count updates) ∨
      StoredUpdates w updates (updatedUpdates app w channel pts count updates)) ∧
     (Dropped w (updatedUpdates app w channel pts count updates) →
       pts ≤ w._good ∧ 0 < count) ∧
     ¬ (Accepted (updatedUpdates app w channel pts count updates) ∧
        Dropped w (updatedUpdates app w channel pts count updates)) ∧
     ¬ (Accepted (updatedUpdates app w channel pts count updates) ∧
        StoredUpdates w updates (updatedUpdates app w channel pts count updates)) ∧
     ¬ (Dropped w (updatedUpdates app w channel pts count updates) ∧
        StoredUpdates w updates (updatedUpdates app w channel pts count updates))) := by
  constructor
  · refine ⟨?_, ?_, ?_, ?_, ?_⟩
    · rcases updatedUpdate_paths app w channel pts count update with
        h | ⟨_, h⟩ | ⟨hr, h⟩ | ⟨_, hc0, h⟩
      · left; rw [h]; rfl
      · right; left; rw [h]; exact ⟨rfl, rfl⟩
      · left; rw [h]; exact hr
      · right; right
        rw [h]
        refine ⟨rfl, ?_, rfl, ?_, ?_⟩
        · intro he
          have hcnt := congrArg PtsWaiter._count he
          exact toInt32_add_ne w._count count hc0 hlo hhi hcnt
        · simp [QMap.find_insert_self]
        · simp [QMap.find_insert_self]
    · rintro ⟨hr, hs⟩
      rcases updatedUpdate_paths app w channel pts count update with
        h | ⟨hd, _⟩ | ⟨hc, h⟩ | ⟨_, hc0, h⟩
      · rw [h] at hr; cases hr
      · exact hd
      · rw [h, hc] at hr; cases hr
      · rw [h] at hs
        have hcnt := congrArg PtsWaiter._count hs
        exact absurd hcnt (toInt32_add_ne w._count count hc0 hlo hhi)
    · rintro ⟨ha, hb, _⟩
      rw [Accepted, hb] at ha; cases ha
    · rintro ⟨ha, hb, _⟩
      rw [Accepted, hb] at ha; cases ha
    · rintro ⟨⟨_, hs⟩, _, hn, _⟩
      exact hn hs
  · refine ⟨?_, ?_, ?_, ?_, ?_⟩
    · rcases updatedUpdates_paths app w channel pts count updates with
        h | ⟨_, h⟩ | ⟨hr, h⟩ | ⟨_, hc0, h⟩
      · left; rw [h]; rfl
      · right; left; rw [h]; exact ⟨rfl, rfl⟩
      · left; rw [h]; exact hr
      · right; right
        rw [h]
        refine ⟨rfl, ?_, rfl, ?_, ?_⟩
        · intro he
          have hcnt := congrArg PtsWaiter._count he
          exact toInt32_add_ne w._count count hc0 hlo hhi hcnt
        · simp [QMap.find_insert_self]
        · simp [QMap.find_insert_self]
    · rintro ⟨hr, hs⟩
      rcases updatedUpdates_paths app w channel pts count updates with
        h | ⟨hd, _⟩ | ⟨hc, h⟩ | ⟨_, hc0, h⟩
      · rw [h] at hr; cases hr
      · exact hd
      · rw [h, hc] at hr; cases hr
      · rw [h] at hs
        have hcnt := congrArg PtsWaiter._count hs
        exact absurd hcnt (toInt32_add_ne w._count count hc0 hlo hhi)
    · rintro ⟨ha, hb, _⟩
      rw [Accepted, hb] at ha; cases ha
    · rintro ⟨ha, hb, _⟩
      rw [Accepted, hb] at ha; cases ha
    · rintro ⟨⟨_, hs⟩, _, hn, _⟩
      exact hn hs

/-- Witness of C12: from `good = last = count_total = 10`, the single update `pts = 20`,
`count = 5` ends in the third outcome, and its `count` is an `int32`. -/
theorem updated_three_outcomes_witness :
    (-2147483648 : Int) ≤ 5 ∧ (5 : Int) < 2147483648 ∧
    (updatedUpdate appWithMain synced10 7 20 5 111).ret = false ∧
    (Accepted (updatedUpdate appWithMain synced10 7 20 5 111) ∨
      Dropped synced10 (updatedUpdate appWithMain synced10 7 20 5 111) ∨
      StoredUpdate synced10 111 (updatedUpdate appWithMain synced10 7 20 5 111)) :=
  ⟨by decide, by decide, by decide,
   (updated_three_outcomes appWithMain synced10 7 20 5 222 111 (by decide)
      (by decide)).1.1⟩

/-! ## The wait flags and the timer -/

/-- C13 (as amended): `setWaitingForSkipped(channel, ms)` with `ms >= 0` sets
`_waitingForSkipped` and, if `App::main()` is there, requests the timer for `ms`; with
`ms < 0` it clears `_waitingForSkipped` and requests the cancellation
`ptsWaiterStartTimerFor(channel, -1)` exactly when `_waitingForShortPoll` is clear as
well and `App::main()` is there.  With `App::main()` null no request is made.  Nothing
else in the state changes (`_good`, `_last`, `_count`, the other flag, the maps).
`setWaitingForShortPoll` does the same with the two flags exchanged. -/
theorem setWaiting_sets_flag_and_timer (app : App) (w : PtsWaiter U Us)
    (channel : ChannelData) (ms : Int) :
    (0 ≤ ms →
      setWaitingForSkipped app w channel ms =
        { ret := (), st := { w with _waitingForSkipped := true },
          fx := if app.main then [Effect.ptsWaiterStartTimerFor channel ms] else [] } ∧
      setWaitingForShortPoll app w channel ms =
        { ret := (), st := { w with _waitingForShortPoll := true },
          fx := if app.main then [Effect.ptsWaiterStartTimerFor channel ms] else [] }) ∧
    (ms < 0 →
      setWaitingForSkipped app w channel ms =
        { ret := (), st := { w with _waitingForSkipped := false },
          fx := if w._waitingForShortPoll = false ∧ app.main = true then
              [Effect.ptsWaiterStartTimerFor channel (-1)]
            else [] } ∧
      setWaitingForShortPoll app w channel ms =
        { ret := (), st := { w with _waitingForShortPoll := false },
          fx := if w._waitingForSkipped = false ∧ app.main = true then
              [Effect.ptsWaiterStartTimerFor channel (-1)]
            else [] }) := by
  constructor
  · intro h
    simp [setWaitingForSkipped, setWaitingForShortPoll, startTimerFor, h]
  · intro h
    have h2 : ¬ (0 ≤ ms) := by omega
    cases hs : w._waitingForSkipped <;> cases hp : w._waitingForShortPoll <;>
      cases hm : app.main <;>
      simp [setWaitingForSkipped, setWaitingForShortPoll, checkForWaiting, h2, hs, hp, hm]

/-- Witness of C13: in the gap scenario, with `App::main()` there, `ms = 500` requests
the timer for 500 and `ms = -1` clears the flag and cancels the timer. -/
theorem setWaiting_sets_flag_and_timer_witness :
    (0 : Int) ≤ 500 ∧ (-1 : Int) < 0 ∧
    setWaitingForSkipped appWithMain gap20 7 500 =
      { ret := (), st := { gap20 with _waitingForSkipped := true },
        fx := [Effect.ptsWaiterStartTimerFor 7 500] } ∧
    setWaitingForSkipped appWithMain gap20 7 (-1) =
      { ret := (), st := { gap20 with _waitingForSkipped := false },
        fx := [Effect.ptsWaiterStartTimerFor 7 (-1)] } :=
  ⟨by decide, by decide,
   ((setWaiting_sets_flag_and_timer appWithMain gap20 7 500).1 (by decide)).1,
   ((setWaiting_sets_flag_and_timer appWithMain gap20 7 (-1)).2 (by decide)).1⟩

/-- Counterexample to C13 as stated: with `App::main()` null, `ms = 500` sets the flag
and requests no timer, and `ms = -1` clears the flag with `_waitingForShortPoll` clear
as well, yet requests no cancellation. -/
theorem setWaiting_without_main_requests_nothing :
    (setWaitingForSkipped appWithoutMain gap20 7 500).st._waitingForSkipped = true ∧
    (setWaitingForSkipped appWithoutMain gap20 7 500).fx = [] ∧
    gap20._waitingForShortPoll = false ∧
    (setWaitingForSkipped appWithoutMain gap20 7 (-1)).st._waitingForSkipped = false ∧
    (setWaitingForSkipped appWithoutMain gap20 7 (-1)).fx = [] ∧
    (setWaitingForShortPoll appWithoutMain gap20 7 500).st._waitingForShortPoll = true ∧
    (setWaitingForShortPoll appWithoutMain gap20 7 500).fx = [] := by
  decide

/-! ## `applySkippedUpdates` without the wait flag -/

theorem run_applySkippedUpdates_idle [Inhabited U] [Inhabited Us] (app : App)
    (w : PtsWaiter U Us) (hw : w._waitingForSkipped = false) (ops : List (Op U Us))
    (hops : ∀ op ∈ ops, ∃ ch, op = Op.applySkippedUpdates ch) : run app w ops = w := by
  induction ops with
  | nil => rfl
  | cons op ops ih =>
    obtain ⟨ch, rfl⟩ := hops _ (List.mem_cons_self _ _)
    have h : step app w (Op.applySkippedUpdates ch) = w := by
      simp [step, applySkippedUpdates_of_not_waiting app w ch hw]
    simp only [run, h]
    exact ih (fun op hop => hops op (List.mem_cons_of_mem _ hop))

/-- Claim C27: with `_waitingForSkipped` false, `applySkippedUpdates` returns with the
state as it was and without a call on `App::main()`, whatever the maps hold.  So after
`setWaitingForSkipped(channel, -1)` the three maps are what they were, and any number
of `applySkippedUpdates` calls leaves them so and hands nothing back; once the flag has
been set again by `setWaitingForSkipped` with `ms >= 0`, `applySkippedUpdates` (with
`App::main()` there) hands back what was buffered before and empties the maps. -/
theorem applySkippedUpdates_needs_wait_flag [Inhabited U] [Inhabited Us] (app : App)
    (w : PtsWaiter U Us) (channel : ChannelData) :
    (w._waitingForSkipped = false →
      applySkippedUpdates app w channel = { ret := (), st := w, fx := [] }) ∧
    ((setWaitingForSkipped app w channel (-1)).st._queue = w._queue ∧
      (setWaitingForSkipped app w channel (-1)).st._updateQueue = w._updateQueue ∧
      (setWaitingForSkipped app w channel (-1)).st._updatesQueue = w._updatesQueue) ∧
    (∀ ch : ChannelData,
      applySkippedUpdates app (setWaitingForSkipped app w channel (-1)).st ch =
        { ret := (), st := (setWaitingForSkipped app w channel (-1)).st, fx := [] }) ∧
    (∀ ops : List (Op U Us), (∀ op ∈ ops, ∃ ch, op = Op.applySkippedUpdates ch) →
      run app (setWaitingForSkipped app w channel (-1)).st ops =
        (setWaitingForSkipped app w channel (-1)).st) ∧
    (∀ ms : Int, 0 ≤ ms → app.main = true → w._queue ≠ [] →
      deliveries (applySkippedUpdates app
        (setWaitingForSkipped app (setWaitingForSkipped app w channel (-1)).st
          channel ms).st channel).fx = w._queue.map (feedSkipped w) ∧
      (applySkippedUpdates app
        (setWaitingForSkipped app (setWaitingForSkipped app w channel (-1)).st
          channel ms).st channel).st._queue = []) := by
  have hs := setWaitingForSkipped_stop app w channel
  have hflag : (setWaitingForSkipped app w channel (-1)).st._waitingForSkipped = false := by
    rw [hs]
  refine ⟨fun hw => applySkippedUpdates_of_not_waiting app w channel hw, ?_, ?_, ?_, ?_⟩
  · rw [hs]; exact ⟨rfl, rfl, rfl⟩
  · intro ch
    exact applySkippedUpdates_of_not_waiting app _ ch hflag
  · intro ops hops
    exact run_applySkippedUpdates_idle app _ hflag ops hops
  · intro ms hms hmain hq
    have h2 : setWaitingForSkipped app (setWaitingForSkipped app w channel (-1)).st channel ms
        = { ret := (), st := { w with _waitingForSkipped := true },
            fx := startTimerFor app channel ms } := by
      rw [hs]; simp [setWaitingForSkipped, hms]
    rw [h2]
    rw [applySkippedUpdates_of_replay app { w with _waitingForSkipped := true } channel
      rfl hmain hq]
    refine ⟨?_, rfl⟩
    show deliveries (_ ++ _) = _
    have h1 := deliveries_checkForWaiting app
      { ({ w with _waitingForSkipped := true } : PtsWaiter U Us) with
        _waitingForSkipped := false } channel
    have h3 := deliveries_feedSkipped
      (replayState app ({ w with _waitingForSkipped := true } : PtsWaiter U Us) channel)
      w._queue
    unfold deliveries at h1 h3 ⊢
    rw [List.filter_append, h1, List.nil_append]
    show List.filter Effect.isFeed (w._queue.map _) = _
    rw [h3]
    apply List.map_congr_left
    intro i _
    apply feedSkipped_congr
    · simp [replayState, setWaitingForSkipped_stop]
    · simp [replayState, setWaitingForSkipped_stop]

/-- Witness of C27: the gap scenario with the payload `111` buffered; after
`setWaitingForSkipped(7, -1)` a call of `applySkippedUpdates` changes nothing, and after
`setWaitingForSkipped(7, 1000)` it hands `111` back. -/
theorem applySkippedUpdates_needs_wait_flag_witness :
    gap20._waitingForSkipped = true ∧ gap20._queue ≠ [] ∧
    applySkippedUpdates appWithMain (setWaitingForSkipped appWithMain gap20 7 (-1)).st 7 =
      { ret := (), st := (setWaitingForSkipped appWithMain gap20 7 (-1)).st, fx := [] } ∧
    (setWaitingForSkipped appWithMain gap20 7 (-1)).st._updateQueue = gap20._updateQueue ∧
    deliveries (applySkippedUpdates appWithMain
      (setWaitingForSkipped appWithMain (setWaitingForSkipped appWithMain gap20 7 (-1)).st
        7 1000).st 7).fx = [Effect.feedUpdate 111] :=
  ⟨by decide, by decide,
   (applySkippedUpdates_needs_wait_flag appWithMain gap20 7).2.2.1 7,
   (applySkippedUpdates_needs_wait_flag appWithMain gap20 7).2.1.2.1,
   ((applySkippedUpdates_needs_wait_flag appWithMain gap20 7).2.2.2.2 1000 (by decide)
      (by decide) (by decide)).1⟩

/-! ## The packed key -/

end PtsWaiter

namespace TaskQueue

/-! ## Lemmas on `removeFirst` -/

theorem removeFirst_eq_none_iff (id : TaskId) (l : List Task) :
    removeFirst id l = none ↔ ∀ t ∈ l, t.id ≠ id := by
  induction l with
  | nil => simp [removeFirst]
  | cons t rest ih =>
    by_cases h : t.id = id
    · simp [removeFirst, h]
    · simp [removeFirst, h, ih]

theorem removeFirst_eq_some (id : TaskId) (l l' : List Task)
    (h : removeFirst id l = some l') :
    ∃ a t b, l = a ++ t :: b ∧ t.id = id ∧ (∀ x ∈ a, x.id ≠ id) ∧ l' = a ++ b := by
  induction l generalizing l' with
  | nil => simp [removeFirst] at h
  | cons t rest ih =>
    by_cases ht : t.id = id
    · simp [removeFirst, ht] at h
      exact ⟨[], t, rest, rfl, ht, by simp, by simp [h]⟩
    · simp only [removeFirst, ht, if_false, Option.map_eq_some'] at h
      obtain ⟨r, hr, rfl⟩ := h
      obtain ⟨a, u, b, h1, h2, h3, h4⟩ := ih r hr
      refine ⟨t :: a, u, b, by simp [h1], h2, ?_, by simp [h4]⟩
      intro x hx
      rcases List.mem_cons.mp hx with hx | hx
      · rw [hx]; exact ht
      · exact h3 x hx

theorem removeFirst_of_split (id : TaskId) (a b : List Task) (t : Task)
    (ht : t.id = id) (ha : ∀ x ∈ a, x.id ≠ id) :
    removeFirst id (a ++ t :: b) = some (a ++ b) := by
  induction a with
  | nil => simp [removeFirst, ht]
  | cons x a ih =>
    have hx : x.id ≠ id := ha x (List.mem_cons_self _ _)
    have ha' : ∀ y ∈ a, y.id ≠ id := fun y hy => ha y (List.mem_cons_of_mem _ hy)
    simp [removeFirst, hx, ih ha']

theorem removeFirst_sublist (id : TaskId) (l l' : List Task)
    (h : removeFirst id l = some l') : List.Sublist l' l := by
  obtain ⟨a, t, b, h1, _, _, h4⟩ := removeFirst_eq_some id l l' h
  rw [h1, h4]
  exact List.Sublist.append (List.Sublist.refl a) (List.sublist_cons_self t b)

theorem removeFirst_head (id : TaskId) (l l' : List Task) (u : Task)
    (h : removeFirst id l = some l') (hn : l.Nodup) (hh : l.head? = some u)
    (hu : u ∈ l') : l'.head? = some u := by
  cases l with
  | nil => simp at hh
  | cons t rest =>
    simp only [List.head?_cons, Option.some.injEq] at hh
    subst hh
    by_cases ht : t.id = id
    · simp [removeFirst, ht] at h
      subst h
      exact absurd hu (List.nodup_cons.mp hn).1
    · simp only [removeFirst, ht, if_false, Option.map_eq_some'] at h
      obtain ⟨r, _, rfl⟩ := h
      rfl

/-! ## Lemmas on the invariant of runs -/

theorem inv_ctor (ms : Int) : Inv (ctor ms) := by
  constructor <;> simp [ctor]

theorem wakeThread_fields (q : TaskQueue) (h : q._thread = false → q.pc = WorkerPc.idle) :
    (wakeThread q)._tasksToProcess = q._tasksToProcess ∧
    (wakeThread q)._tasksToFinish = q._tasksToFinish ∧
    (wakeThread q).submitted = q.submitted ∧
    (wakeThread q).processed = q.processed ∧
    (wakeThread q).finished = q.finished ∧
    (wakeThread q).pc = q.pc ∧
    (wakeThread q)._thread = true := by
  cases ht : q._thread
  · have := h ht
    simp [wakeThread, ht, this]
  · simp [wakeThread, ht]

theorem inv_of_fields (q q' : TaskQueue) (h : Inv q)
    (e1 : q'._tasksToProcess = q._tasksToProcess)
    (e2 : q'._tasksToFinish = q._tasksToFinish) (e3 : q'.submitted = q.submitted)
    (e4 : q'.processed = q.processed) (e5 : q'.finished = q.finished)
    (e6 : q'.pc = q.pc) (e7 : q'._thread = false → q'.pc = WorkerPc.idle) : Inv q' := by
  constructor
  · rw [e3]; exact h.sub_nodup
  · rw [e1, e3]; exact h.pend_sub
  · rw [e4, e3]; exact h.proc_sub
  · rw [e1, e2, e5]; exact h.lists_nodup
  · rw [e4]; exact h.proc_nodup
  · rw [e1, e4, e6]; exact h.pend_proc
  · rw [e2, e5, e4]; exact h.done_proc
  · rw [e6, e4, e2, e5]; exact h.fly_proc
  · rw [e6, e1]; exact h.fly_front
  · exact e7

theorem inv_wakeThread (q : TaskQueue) (h : Inv q) : Inv (wakeThread q) := by
  obtain ⟨e1, e2, e3, e4, e5, e6, e7⟩ := wakeThread_fields q h.no_thread
  exact inv_of_fields q _ h e1 e2 e3 e4 e5 e6 (fun hc => by rw [e7] at hc; cases hc)

theorem inv_append (q : TaskQueue) (ts : List Task) (h : Inv q)
    (hn : (q.submitted ++ ts).Nodup) :
    Inv { q with _tasksToProcess := q._tasksToProcess ++ ts,
                 submitted := q.submitted ++ ts } := by
  have hdis : ∀ t ∈ ts, t ∉ q.submitted := by
    intro t ht hs
    exact (List.nodup_append.mp hn).2.2 hs ht
  have hts : ts.Nodup := (List.nodup_append.mp hn).2.1
  have hfresh : ∀ t ∈ ts, t ∉ q._tasksToProcess ∧ t ∉ q.processed ∧
      t ∉ q._tasksToFinish ∧ t ∉ q.finished := by
    intro t ht
    have h0 := hdis t ht
    refine ⟨fun hp => h0 (h.pend_sub t hp), fun hp => h0 (h.proc_sub t hp),
      fun hp => h0 (h.proc_sub t (h.done_proc t (Or.inl hp))),
      fun hp => h0 (h.proc_sub t (h.done_proc t (Or.inr hp)))⟩
  constructor
  · exact hn
  · intro t ht
    simp only [List.mem_append] at ht ⊢
    rcases ht with ht | ht
    · exact Or.inl (h.pend_sub t ht)
    · exact Or.inr ht
  · intro t ht
    exact List.mem_append_left _ (h.proc_sub t ht)
  · have h4 := h.lists_nodup
    simp only [List.append_assoc] at h4 ⊢
    rw [List.nodup_append] at h4 ⊢
    obtain ⟨a, b, c⟩ := h4
    refine ⟨a, ?_, ?_⟩
    · rw [List.nodup_append]
      refine ⟨hts, b, ?_⟩
      intro t ht htc
      rcases List.mem_append.mp htc with x | x
      · exact (hfresh t ht).2.2.1 x
      · exact (hfresh t ht).2.2.2 x
    · intro t htp htc
      rcases List.mem_append.mp htc with x | x
      · exact (hfresh t x).1 htp
      · exact c htp x
  · exact h.proc_nodup
  · intro t ht hp
    rcases List.mem_append.mp ht with x | x
    · exact h.pend_proc t x hp
    · exact absurd hp (hfresh t x).2.1
  · exact h.done_proc
  · exact h.fly_proc
  · intro t hpc ht
    have hproc := (h.fly_proc t hpc).1
    rcases List.mem_append.mp ht with x | x
    · have := h.fly_front t hpc x
      show (q._tasksToProcess ++ ts).head? = some t
      cases hq : q._tasksToProcess with
      | nil => rw [hq] at x; cases x
      | cons a r => rw [hq] at this; simpa using this
    · exact absurd hproc (hfresh t x).2.1
  · exact h.no_thread

theorem inv_cancelTask (q : TaskQueue) (id : TaskId) (h : Inv q) : Inv (cancelTask q id) := by
  unfold cancelTask
  have hpn : q._tasksToProcess.Nodup :=
    (List.nodup_append.mp (List.nodup_append.mp h.lists_nodup).1).1
  cases hp : removeFirst id q._tasksToProcess with
  | some l =>
    have hsub := removeFirst_sublist id _ l hp
    simp only
    constructor
    · exact h.sub_nodup
    · exact fun t ht => h.pend_sub t (hsub.subset ht)
    · exact h.proc_sub
    · exact h.lists_nodup.sublist
        (List.Sublist.append (List.Sublist.append hsub (List.Sublist.refl _))
          (List.Sublist.refl _))
    · exact h.proc_nodup
    · exact fun t ht => h.pend_proc t (hsub.subset ht)
    · exact h.done_proc
    · exact h.fly_proc
    · intro t hpc ht
      exact removeFirst_head id _ l t hp hpn (h.fly_front t hpc (hsub.subset ht)) ht
    · exact h.no_thread
  | none =>
    simp only
    cases hf : removeFirst id q._tasksToFinish with
    | some l =>
      have hsub := removeFirst_sublist id _ l hf
      simp only
      constructor
      · exact h.sub_nodup
      · exact h.pend_sub
      · exact h.proc_sub
      · exact h.lists_nodup.sublist
          (List.Sublist.append (List.Sublist.append (List.Sublist.refl _) hsub)
            (List.Sublist.refl _))
      · exact h.proc_nodup
      · exact h.pend_proc
      · intro t ht
        rcases ht with ht | ht
        · exact h.done_proc t (Or.inl (hsub.subset ht))
        · exact h.done_proc t (Or.inr ht)
      · intro t hpc
        obtain ⟨a, b, c⟩ := h.fly_proc t hpc
        exact ⟨a, fun x => b (hsub.subset x), c⟩
      · exact h.fly_front
      · exact h.no_thread
    | none => exact h

theorem inv_onTaskProcessedTurn (q : TaskQueue) (h : Inv q) :
    Inv (onTaskProcessedTurn q) := by
  unfold onTaskProcessedTurn
  split
  · split
    · exact inv_of_fields q _ h rfl rfl rfl rfl rfl rfl h.no_thread
    · exact h
  · rename_i task rest hf
    have h4 := h.lists_nodup
    rw [hf] at h4
    constructor
    · exact h.sub_nodup
    · exact h.pend_sub
    · exact h.proc_sub
    · show (q._tasksToProcess ++ rest ++ (q.finished ++ [task])).Nodup
      refine (List.Perm.nodup_iff ?_).mp h4
      simp only [List.append_assoc]
      refine List.Perm.append_left _ ?_
      rw [← List.append_assoc]
      exact (List.perm_append_singleton _ _).symm
    · exact h.proc_nodup
    · exact h.pend_proc
    · intro t ht
      rcases ht with ht | ht
      · exact h.done_proc t (Or.inl (by rw [hf]; exact List.mem_cons_of_mem _ ht))
      · rcases List.mem_append.mp ht with x | x
        · exact h.done_proc t (Or.inr x)
        · simp only [List.mem_singleton] at x
          exact h.done_proc t (Or.inl (by rw [hf, x]; exact List.mem_cons_self _ _))
    · intro t hpc
      obtain ⟨a, b, c⟩ := h.fly_proc t hpc
      rw [hf] at b
      refine ⟨a, fun x => b (List.mem_cons_of_mem _ x), ?_⟩
      intro x
      rcases List.mem_append.mp x with x | x
      · exact c x
      · simp only [List.mem_singleton] at x
        exact b (by rw [x]; exact List.mem_cons_self _ _)
    · exact h.fly_front
    · exact h.no_thread

theorem inv_cleared (q q' : TaskQueue) (h : Inv q) (e1 : q'._tasksToProcess = [])
    (e2 : q'._tasksToFinish = []) (e3 : q'.submitted = q.submitted)
    (e4 : q'.processed = q.processed) (e5 : q'.finished = q.finished)
    (e7 : q'.pc = WorkerPc.idle) : Inv q' := by
  constructor
  · rw [e3]; exact h.sub_nodup
  · rw [e1]; intro t ht; cases ht
  · rw [e4, e3]; exact h.proc_sub
  · rw [e1, e2, e5]
    exact h.lists_nodup.sublist (List.sublist_append_right _ _)
  · rw [e4]; exact h.proc_nodup
  · rw [e1]; intro t ht; cases ht
  · rw [e2, e5, e4]
    intro t ht
    rcases ht with ht | ht
    · cases ht
    · exact h.done_proc t (Or.inr ht)
  · intro t hpc; rw [e7] at hpc; cases hpc
  · intro t hpc; rw [e7] at hpc; cases hpc
  · exact fun _ => e7

theorem inv_stop (q : TaskQueue) (h : Inv q) : Inv (stop q) := by
  unfold stop
  cases ht : q._thread
  · exact inv_cleared q _ h rfl rfl rfl rfl rfl (h.no_thread ht)
  · exact inv_of_fields q _ h rfl rfl rfl rfl rfl rfl
      (fun hc => by simp [ht] at hc)

theorem inv_between (q q' : TaskQueue) (h : Inv q)
    (e1 : q'._tasksToProcess = q._tasksToProcess)
    (e2 : q'._tasksToFinish = q._tasksToFinish) (e3 : q'.submitted = q.submitted)
    (e4 : q'.processed = q.processed) (e5 : q'.finished = q.finished)
    (hq : ∀ t, q.pc ≠ WorkerPc.inProcess t) (hq' : ∀ t, q'.pc ≠ WorkerPc.inProcess t)
    (e7 : q'._thread = false → q'.pc = WorkerPc.idle) : Inv q' := by
  constructor
  · rw [e3]; exact h.sub_nodup
  · rw [e1, e3]; exact h.pend_sub
  · rw [e4, e3]; exact h.proc_sub
  · rw [e1, e2, e5]; exact h.lists_nodup
  · rw [e4]; exact h.proc_nodup
  · rw [e1, e4]
    intro t ht hp
    exact absurd (h.pend_proc t ht hp) (hq t)
  · rw [e2, e5, e4]; exact h.done_proc
  · intro t hpc; exact absurd hpc (hq' t)
  · intro t hpc; exact absurd hpc (hq' t)
  · exact e7

theorem thread_of_pc (q : TaskQueue) (h : Inv q) (hpc : q.pc ≠ WorkerPc.idle) :
    q._thread = true := by
  cases ht : q._thread
  · exact absurd (h.no_thread ht) hpc
  · rfl

theorem inv_workerLoopTest (q : TaskQueue) (h : Inv q) (hpc : q.pc = WorkerPc.inEvents) :
    Inv (workerLoopTest q) := by
  have hth := thread_of_pc q h (by rw [hpc]; simp)
  unfold workerLoopTest
  split
  · exact inv_between q _ h rfl rfl rfl rfl rfl (by rw [hpc]; simp) (by simp)
      (fun hc => by simp [hth] at hc)
  · exact inv_between q _ h rfl rfl rfl rfl rfl (by rw [hpc]; simp) (by simp)
      (fun _ => rfl)

theorem inv_onTaskAddedEnter (q : TaskQueue) (h : Inv q) (hth : q._thread = true)
    (hpc : ∀ t, q.pc ≠ WorkerPc.inProcess t) : Inv (onTaskAddedEnter q) := by
  unfold onTaskAddedEnter
  split
  · exact h
  · exact inv_between q _ h rfl rfl rfl rfl rfl hpc (by simp)
      (fun hc => by simp [hth] at hc)

theorem inv_workerTake (q : TaskQueue) (h : Inv q) (hpc : q.pc = WorkerPc.atLock) :
    Inv (workerTake q) := by
  have hth := thread_of_pc q h (by rw [hpc]; simp)
  have hno : ∀ t, q.pc ≠ WorkerPc.inProcess t := by rw [hpc]; simp
  unfold workerTake
  split
  · exact inv_between q _ h rfl rfl rfl rfl rfl hno (by simp)
      (fun hc => by simp [hth] at hc)
  · rename_i task rest hp
    have hmem : task ∈ q._tasksToProcess := by rw [hp]; exact List.mem_cons_self _ _
    have hfresh : task ∉ q.processed := fun x => hno task (h.pend_proc task hmem x)
    have h4 := h.lists_nodup
    rw [List.append_assoc, List.nodup_append] at h4
    constructor
    · exact h.sub_nodup
    · exact h.pend_sub
    · intro t ht
      rcases List.mem_append.mp ht with x | x
      · exact h.proc_sub t x
      · simp only [List.mem_singleton] at x
        rw [x]; exact h.pend_sub task hmem
    · exact h.lists_nodup
    · show (q.processed ++ [task]).Nodup
      rw [List.nodup_append]
      refine ⟨h.proc_nodup, by simp, ?_⟩
      intro t ht hs
      simp only [List.mem_singleton] at hs
      rw [hs] at ht
      exact hfresh ht
    · intro t ht hproc
      show WorkerPc.inProcess task = WorkerPc.inProcess t
      rcases List.mem_append.mp hproc with x | x
      · exact absurd (h.pend_proc t ht x) (hno t)
      · simp only [List.mem_singleton] at x
        rw [x]
    · intro t ht
      exact List.mem_append_left _ (h.done_proc t ht)
    · intro t hpc'
      have ht : task = t := by
        have : WorkerPc.inProcess task = WorkerPc.inProcess t := hpc'
        injection this
      subst ht
      refine ⟨List.mem_append_right _ (List.mem_singleton_self _), ?_, ?_⟩
      · intro x
        exact h4.2.2 hmem (List.mem_append_left _ x)
      · intro x
        exact h4.2.2 hmem (List.mem_append_right _ x)
    · intro t hpc' _
      have ht : task = t := by
        have : WorkerPc.inProcess task = WorkerPc.inProcess t := hpc'
        injection this
      subst ht
      show q._tasksToProcess.head? = some task
      rw [hp]; rfl
    · intro hc
      rw [hth] at hc; cases hc

theorem inv_workerCommit (q : TaskQueue) (task : Task) (h : Inv q)
    (hpc : q.pc = WorkerPc.inProcess task) : Inv (workerCommit q task) := by
  have hth := thread_of_pc q h (by rw [hpc]; simp)
  obtain ⟨hproc, hnc, hnf⟩ := h.fly_proc task hpc
  have hgone : ∀ q' : TaskQueue, q'._tasksToProcess = q._tasksToProcess →
      q'._tasksToFinish = q._tasksToFinish → q'.submitted = q.submitted →
      q'.processed = q.processed → q'.finished = q.finished →
      q'.pc = WorkerPc.inEvents → q'._thread = q._thread →
      task ∉ q._tasksToProcess → Inv q' := by
    intro q' e1 e2 e3 e4 e5 e6 e7 hnot
    constructor
    · rw [e3]; exact h.sub_nodup
    · rw [e1, e3]; exact h.pend_sub
    · rw [e4, e3]; exact h.proc_sub
    · rw [e1, e2, e5]; exact h.lists_nodup
    · rw [e4]; exact h.proc_nodup
    · rw [e1, e4]
      intro t ht hp
      have := h.pend_proc t ht hp
      rw [hpc] at this
      injection this with this
      rw [← this] at ht
      exact absurd ht hnot
    · rw [e2, e5, e4]; exact h.done_proc
    · intro t hc; rw [e6] at hc; cases hc
    · intro t hc; rw [e6] at hc; cases hc
    · intro hc; rw [e7, hth] at hc; cases hc
  unfold workerCommit
  split
  · rename_i hp
    exact hgone _ rfl rfl rfl rfl rfl rfl rfl (by rw [hp]; simp)
  · rename_i front rest hp
    split
    · rename_i hft
      subst hft
      have h4 := h.lists_nodup
      rw [hp] at h4
      have hnr : front ∉ rest := by
        have := (List.nodup_append.mp (List.nodup_append.mp h4).1).1
        exact (List.nodup_cons.mp this).1
      constructor
      · exact h.sub_nodup
      · intro t ht
        exact h.pend_sub t (by rw [hp]; exact List.mem_cons_of_mem _ ht)
      · exact h.proc_sub
      · show (rest ++ (q._tasksToFinish ++ [front]) ++ q.finished).Nodup
        refine (List.Perm.nodup_iff ?_).mp h4
        simp only [List.append_assoc, List.cons_append]
        have hmid : List.Perm (rest ++ front :: (q._tasksToFinish ++ q.finished))
            (front :: (rest ++ (q._tasksToFinish ++ q.finished))) := List.perm_middle
        refine List.Perm.trans hmid.symm ?_
        refine List.Perm.append_left _ ?_
        exact List.perm_middle.symm
      · exact h.proc_nodup
      · intro t ht hp'
        have hin : t ∈ q._tasksToProcess := by rw [hp]; exact List.mem_cons_of_mem _ ht
        have := h.pend_proc t hin hp'
        rw [hpc] at this
        injection this with this
        rw [← this] at ht
        exact absurd ht hnr
      · intro t ht
        rcases ht with ht | ht
        · rcases List.mem_append.mp ht with x | x
          · exact h.done_proc t (Or.inl x)
          · simp only [List.mem_singleton] at x
            rw [x]; exact hproc
        · exact h.done_proc t (Or.inr ht)
      · intro t hc; cases hc
      · intro t hc; cases hc
      · intro hc
        have : q._thread = false := hc
        rw [hth] at this; cases this
    · rename_i hft
      refine hgone _ rfl rfl rfl rfl rfl rfl rfl ?_
      intro hmem
      have := h.fly_front task hpc hmem
      rw [hp] at this
      simp only [List.head?_cons, Option.some.injEq] at this
      exact hft this

theorem inv_step (q : TaskQueue) (e : Event) (h : Inv q)
    (hn : (perform q e).submitted.Nodup) : Inv (perform q e) := by
  cases e with
  | addTask task =>
    cases hw : q.waiting
    · have hs : perform q (Event.addTask task) = (addTask q task).1 := by simp [perform, hw]
      rw [hs] at hn ⊢
      have e3 := (wakeThread_fields { q with
        _tasksToProcess := q._tasksToProcess ++ [task],
        submitted := q.submitted ++ [task] } h.no_thread).2.2.1
      have hn' : (q.submitted ++ [task]).Nodup := by
        have h1 : (wakeThread { q with
          _tasksToProcess := q._tasksToProcess ++ [task],
          submitted := q.submitted ++ [task] }).submitted.Nodup := hn
        rw [e3] at h1
        exact h1
      exact inv_wakeThread _ (inv_append q [task] h hn')
    · have hs : perform q (Event.addTask task) = q := by simp [perform, hw]
      rw [hs]; exact h
  | addTasks tasks =>
    cases hw : q.waiting
    · have hs : perform q (Event.addTasks tasks) = addTasks q tasks := by simp [perform, hw]
      rw [hs] at hn ⊢
      have e3 := (wakeThread_fields { q with
        _tasksToProcess := q._tasksToProcess ++ tasks,
        submitted := q.submitted ++ tasks } h.no_thread).2.2.1
      have hn' : (q.submitted ++ tasks).Nodup := by
        have h1 : (wakeThread { q with
          _tasksToProcess := q._tasksToProcess ++ tasks,
          submitted := q.submitted ++ tasks }).submitted.Nodup := hn
        rw [e3] at h1
        exact h1
      exact inv_wakeThread _ (inv_append q tasks h hn')
    · have hs : perform q (Event.addTasks tasks) = q := by simp [perform, hw]
      rw [hs]; exact h
  | cancelTask id =>
    simp only [perform]
    split
    · exact h
    · exact inv_cancelTask q id h
  | onTaskProcessedTurn =>
    simp only [perform]
    split
    · exact h
    · exact inv_onTaskProcessedTurn q h
  | stop =>
    simp only [perform]
    split
    · exact h
    · exact inv_stop q h
  | stopJoined =>
    simp only [perform]
    split
    · rename_i hg
      simp only [Bool.and_eq_true, decide_eq_true_eq] at hg
      exact inv_cleared q _ h rfl rfl rfl rfl rfl hg.2
    · exact h
  | stopTimerTimeout =>
    simp only [perform]
    split
    · exact inv_stop _ (inv_of_fields q _ h rfl rfl rfl rfl rfl rfl h.no_thread)
    · exact h
  | taskAddedDelivered =>
    simp only [perform]
    split
    · rename_i hg
      simp only [Bool.and_eq_true, Bool.or_eq_true, decide_eq_true_eq] at hg
      have hpc : ∀ t, q.pc ≠ WorkerPc.inProcess t := by
        intro t hc
        rcases hg.2 with x | x
        · rw [x.1] at hc; cases hc
        · rw [x] at hc; cases hc
      exact inv_onTaskAddedEnter _
        (inv_of_fields q _ h rfl rfl rfl rfl rfl rfl h.no_thread) hg.1.1 hpc
    · exact h
  | workerTake =>
    simp only [perform]
    split
    · rename_i hg
      exact inv_workerTake q h (by simpa using hg)
    · exact h
  | workerCommit =>
    simp only [perform]
    split
    · rename_i task hpc
      exact inv_workerCommit q task h hpc
    · exact h
  | workerLoopTest =>
    simp only [perform]
    split
    · rename_i hg
      exact inv_workerLoopTest q h (by simpa using hg)
    · exact h

/-! ## Where the elements of the lists come from -/

theorem wakeThread_lists (q : TaskQueue) :
    (wakeThread q)._tasksToProcess = q._tasksToProcess ∧
    (wakeThread q)._tasksToFinish = q._tasksToFinish ∧
    (wakeThread q).submitted = q.submitted ∧
    (wakeThread q).processed = q.processed ∧
    (wakeThread q).finished = q.finished ∧
    (∀ t, (wakeThread q).pc = WorkerPc.inProcess t → q.pc = WorkerPc.inProcess t) := by
  cases ht : q._thread <;> simp [wakeThread, ht]

theorem cancelTask_lists (q : TaskQueue) (id : TaskId) :
    List.Sublist (cancelTask q id)._tasksToProcess q._tasksToProcess ∧
    List.Sublist (cancelTask q id)._tasksToFinish q._tasksToFinish ∧
    (cancelTask q id).submitted = q.submitted ∧
    (cancelTask q id).processed = q.processed ∧
    (cancelTask q id).finished = q.finished ∧
    (cancelTask q id).pc = q.pc := by
  unfold cancelTask
  cases hp : removeFirst id q._tasksToProcess with
  | some l =>
    exact ⟨removeFirst_sublist id _ l hp, List.Sublist.refl _, rfl, rfl, rfl, rfl⟩
  | none =>
    cases hf : removeFirst id q._tasksToFinish with
    | some l =>
      exact ⟨List.Sublist.refl _, removeFirst_sublist id _ l hf, rfl, rfl, rfl, rfl⟩
    | none => exact ⟨List.Sublist.refl _, List.Sublist.refl _, rfl, rfl, rfl, rfl⟩

theorem step_submitted (q : TaskQueue) (e : Event) :
    ∃ ts, (perform q e).submitted = q.submitted ++ ts ∧ List.Sublist ts (handedOver [e]) ∧
      ∀ t ∈ (perform q e)._tasksToProcess, t ∈ q._tasksToProcess ∨ t ∈ ts := by
  have hsame : ∀ q' : TaskQueue, q'.submitted = q.submitted →
      List.Sublist q'._tasksToProcess q._tasksToProcess →
      ∃ ts, q'.submitted = q.submitted ++ ts ∧ List.Sublist ts (handedOver [e]) ∧
        ∀ t ∈ q'._tasksToProcess, t ∈ q._tasksToProcess ∨ t ∈ ts :=
    fun q' h1 h2 => ⟨[], by simp [h1], List.nil_sublist _, fun t ht => Or.inl (h2.subset ht)⟩
  cases e with
  | addTask task =>
    cases hw : q.waiting
    · refine ⟨[task], ?_, ?_, ?_⟩
      · simp [perform, hw, addTask, (wakeThread_lists _).2.2.1]
      · simp [handedOver]
      · intro t ht
        simp only [perform, hw, addTask, Bool.false_eq_true, if_false,
          (wakeThread_lists _).1, List.mem_append] at ht
        exact ht
    · have hs : perform q (Event.addTask task) = q := by simp [perform, hw]
      rw [hs]; exact hsame q rfl (List.Sublist.refl _)
  | addTasks tasks =>
    cases hw : q.waiting
    · refine ⟨tasks, ?_, ?_, ?_⟩
      · simp [perform, hw, addTasks, (wakeThread_lists _).2.2.1]
      · simp [handedOver]
      · intro t ht
        simp only [perform, hw, addTasks, Bool.false_eq_true, if_false,
          (wakeThread_lists _).1, List.mem_append] at ht
        exact ht
    · have hs : perform q (Event.addTasks tasks) = q := by simp [perform, hw]
      rw [hs]; exact hsame q rfl (List.Sublist.refl _)
  | cancelTask id =>
    simp only [perform]
    split
    · exact hsame q rfl (List.Sublist.refl _)
    · exact hsame _ (cancelTask_lists q id).2.2.1 (cancelTask_lists q id).1
  | onTaskProcessedTurn =>
    simp only [perform, onTaskProcessedTurn]
    split
    · exact hsame q rfl (List.Sublist.refl _)
    · split
      · split
        · exact hsame _ rfl (List.Sublist.refl _)
        · exact hsame q rfl (List.Sublist.refl _)
      · exact hsame _ rfl (List.Sublist.refl _)
  | stop =>
    simp only [perform, stop]
    split
    · exact hsame q rfl (List.Sublist.refl _)
    · split
      · exact hsame _ rfl (List.Sublist.refl _)
      · exact hsame _ rfl (List.nil_sublist _)
  | stopJoined =>
    simp only [perform, stopJoined]
    split
    · exact hsame _ rfl (List.nil_sublist _)
    · exact hsame q rfl (List.Sublist.refl _)
  | stopTimerTimeout =>
    simp only [perform, stop]
    split
    · split
      · exact hsame _ rfl (List.Sublist.refl _)
      · exact hsame _ rfl (List.nil_sublist _)
    · exact hsame q rfl (List.Sublist.refl _)
  | taskAddedDelivered =>
    simp only [perform, onTaskAddedEnter]
    split
    · split
      · exact hsame _ rfl (List.Sublist.refl _)
      · exact hsame _ rfl (List.Sublist.refl _)
    · exact hsame q rfl (List.Sublist.refl _)
  | workerTake =>
    simp only [perform, workerTake]
    split
    · split
      · exact hsame _ rfl (List.Sublist.refl _)
      · exact hsame _ rfl (List.Sublist.refl _)
    · exact hsame q rfl (List.Sublist.refl _)
  | workerCommit =>
    simp only [perform, workerCommit]
    split
    · split
      · exact hsame _ rfl (List.Sublist.refl _)
      · rename_i hp
        split
        · exact hsame _ rfl (by rw [hp]; exact List.sublist_cons_self _ _)
        · exact hsame _ rfl (List.Sublist.refl _)
    · exact hsame q rfl (List.Sublist.refl _)
  | workerLoopTest =>
    simp only [perform, workerLoopTest]
    split
    · split
      · exact hsame _ rfl (List.Sublist.refl _)
      · exact hsame _ rfl (List.Sublist.refl _)
    · exact hsame q rfl (List.Sublist.refl _)

theorem step_origin (q : TaskQueue) (e : Event) :
    (∀ t ∈ (perform q e).processed, t ∈ q.processed ∨ t ∈ q._tasksToProcess) ∧
    (∀ t, (perform q e).pc = WorkerPc.inProcess t →
      q.pc = WorkerPc.inProcess t ∨ t ∈ q._tasksToProcess) ∧
    (∀ t ∈ (perform q e)._tasksToFinish,
      t ∈ q._tasksToFinish ∨ q.pc = WorkerPc.inProcess t) ∧
    (∀ t ∈ (perform q e).finished, t ∈ q.finished ∨ t ∈ q._tasksToFinish) := by
  have hsame : ∀ q' : TaskQueue, q'.processed = q.processed →
      (∀ t, q'.pc = WorkerPc.inProcess t → q.pc = WorkerPc.inProcess t) →
      List.Sublist q'._tasksToFinish q._tasksToFinish → q'.finished = q.finished →
      (∀ t ∈ q'.processed, t ∈ q.processed ∨ t ∈ q._tasksToProcess) ∧
      (∀ t, q'.pc = WorkerPc.inProcess t →
        q.pc = WorkerPc.inProcess t ∨ t ∈ q._tasksToProcess) ∧
      (∀ t ∈ q'._tasksToFinish, t ∈ q._tasksToFinish ∨ q.pc = WorkerPc.inProcess t) ∧
      (∀ t ∈ q'.finished, t ∈ q.finished ∨ t ∈ q._tasksToFinish) := by
    intro q' h1 h2 h3 h4
    refine ⟨fun t ht => Or.inl (h1 ▸ ht), fun t ht => Or.inl (h2 t ht),
      fun t ht => Or.inl (h3.subset ht), fun t ht => Or.inl (h4 ▸ ht)⟩
  have hrefl := hsame q rfl (fun _ h => h) (List.Sublist.refl _) rfl
  cases e with
  | addTask task =>
    simp only [perform, addTask]
    split
    · exact hrefl
    · exact hsame _ (wakeThread_lists _).2.2.2.1 (wakeThread_lists _).2.2.2.2.2
        (by rw [(wakeThread_lists _).2.1]) (wakeThread_lists _).2.2.2.2.1
  | addTasks tasks =>
    simp only [perform, addTasks]
    split
    · exact hrefl
    · exact hsame _ (wakeThread_lists _).2.2.2.1 (wakeThread_lists _).2.2.2.2.2
        (by rw [(wakeThread_lists _).2.1]) (wakeThread_lists _).2.2.2.2.1
  | cancelTask id =>
    simp only [perform]
    split
    · exact hrefl
    · obtain ⟨_, c2, _, c4, c5, c6⟩ := cancelTask_lists q id
      exact hsame _ c4 (fun t h => by rw [c6] at h; exact h) c2 c5
  | onTaskProcessedTurn =>
    simp only [perform, onTaskProcessedTurn]
    split
    · exact hrefl
    · split
      · split
        · rename_i hf _
          exact hsame _ rfl (fun _ h => h) (by simp [hf]) rfl
        · exact hrefl
      · rename_i task rest hf
        refine ⟨fun t ht => Or.inl ht, fun t ht => Or.inl ht, ?_, ?_⟩
        · intro t ht
          exact Or.inl (by rw [hf]; exact List.mem_cons_of_mem _ ht)
        · intro t ht
          rcases List.mem_append.mp ht with x | x
          · exact Or.inl x
          · simp only [List.mem_singleton] at x
            exact Or.inr (by rw [hf, x]; exact List.mem_cons_self _ _)
  | stop =>
    simp only [perform, stop]
    split
    · exact hrefl
    · split
      · exact hsame _ rfl (fun _ h => h) (List.Sublist.refl _) rfl
      · exact hsame _ rfl (fun _ h => h) (List.nil_sublist _) rfl
  | stopJoined =>
    simp only [perform, stopJoined]
    split
    · exact hsame _ rfl (fun _ h => h) (List.nil_sublist _) rfl
    · exact hrefl
  | stopTimerTimeout =>
    simp only [perform, stop]
    split
    · split
      · exact hsame _ rfl (fun _ h => h) (List.Sublist.refl _) rfl
      · exact hsame _ rfl (fun _ h => h) (List.nil_sublist _) rfl
    · exact hrefl
  | taskAddedDelivered =>
    simp only [perform, onTaskAddedEnter]
    split
    · split
      · exact hsame _ rfl (fun _ h => h) (List.Sublist.refl _) rfl
      · exact hsame _ rfl (fun _ h => by cases h) (List.Sublist.refl _) rfl
    · exact hrefl
  | workerTake =>
    simp only [perform, workerTake]
    split
    · split
      · exact hsame _ rfl (fun _ h => by cases h) (List.Sublist.refl _) rfl
      · rename_i task rest hp
        have hmem : task ∈ q._tasksToProcess := by rw [hp]; exact List.mem_cons_self _ _
        refine ⟨?_, ?_, fun t ht => Or.inl ht, fun t ht => Or.inl ht⟩
        · intro t ht
          rcases List.mem_append.mp ht with x | x
          · exact Or.inl x
          · simp only [List.mem_singleton] at x
            rw [x]; exact Or.inr hmem
        · intro t ht
          have : WorkerPc.inProcess task = WorkerPc.inProcess t := ht
          injection this with this
          rw [← this]; exact Or.inr hmem
    · exact hrefl
  | workerCommit =>
    simp only [perform]
    split
    · rename_i task hpc
      simp only [workerCommit]
      split
      · exact hsame _ rfl (fun _ h => by cases h) (List.Sublist.refl _) rfl
      · split
        · refine ⟨fun t ht => Or.inl ht, ?_, ?_, fun t ht => Or.inl ht⟩
          · intro t ht
            cases ht
          intro t ht
          rcases List.mem_append.mp ht with x | x
          · exact Or.inl x
          · simp only [List.mem_singleton] at x
            rw [x]; exact Or.inr hpc
        · exact hsame _ rfl (fun _ h => by cases h) (List.Sublist.refl _) rfl
    · exact hrefl
  | workerLoopTest =>
    simp only [perform, workerLoopTest]
    split
    · split
      · exact hsame _ rfl (fun _ h => by cases h) (List.Sublist.refl _) rfl
      · exact hsame _ rfl (fun _ h => by cases h) (List.Sublist.refl _) rfl
    · exact hrefl

/-! ## Lemmas on runs -/

theorem run_append (q : TaskQueue) (a b : List Event) :
    performAll q (a ++ b) = performAll (performAll q a) b := by
  induction a generalizing q with
  | nil => rfl
  | cons e a ih => exact ih (perform q e)

theorem handedOver_cons (e : Event) (es : List Event) :
    handedOver (e :: es) = handedOver [e] ++ handedOver es := by
  cases e <;> simp [handedOver]

theorem handedOver_append (a b : List Event) :
    handedOver (a ++ b) = handedOver a ++ handedOver b := by
  induction a with
  | nil => rfl
  | cons e a ih =>
    rw [List.cons_append, handedOver_cons, ih, handedOver_cons e a, List.append_assoc]

theorem run_submitted (es : List Event) :
    ∀ q : TaskQueue, ∃ ts, (performAll q es).submitted = q.submitted ++ ts ∧
      List.Sublist ts (handedOver es) := by
  induction es with
  | nil => exact fun q => ⟨[], by simp [performAll], List.Sublist.refl _⟩
  | cons e es ih =>
    intro q
    obtain ⟨ts1, h1, h2, _⟩ := step_submitted q e
    obtain ⟨ts2, h3, h4⟩ := ih (perform q e)
    refine ⟨ts1 ++ ts2, ?_, ?_⟩
    · show (performAll (perform q e) es).submitted = _
      rw [h3, h1, List.append_assoc]
    · rw [handedOver_cons]
      exact List.Sublist.append h2 h4

theorem inv_run (es : List Event) :
    ∀ q : TaskQueue, Inv q → (performAll q es).submitted.Nodup → Inv (performAll q es) := by
  induction es with
  | nil => exact fun q h _ => h
  | cons e es ih =>
    intro q h hn
    obtain ⟨ts, h3, _⟩ := run_submitted es (perform q e)
    have hn' : (perform q e).submitted.Nodup := by
      have : (performAll (perform q e) es).submitted.Nodup := hn
      rw [h3] at this
      exact this.of_append_left
    exact ih (perform q e) (inv_step q e h hn') hn

theorem inv_reachable (ms : Int) (es : List Event) (hn : (handedOver es).Nodup) :
    Inv (performAll (ctor ms) es) := by
  obtain ⟨ts, h1, h2⟩ := run_submitted es (ctor ms)
  refine inv_run es (ctor ms) (inv_ctor ms) ?_
  rw [h1]
  simpa [ctor] using hn.sublist h2

theorem absent_step (q : TaskQueue) (e : Event) (t : Task)
    (h1 : t ∉ q._tasksToProcess) (h2 : t ∉ q._tasksToFinish)
    (h3 : q.pc ≠ WorkerPc.inProcess t) (hno : t ∉ handedOver [e]) :
    (t ∉ (perform q e)._tasksToProcess ∧ t ∉ (perform q e)._tasksToFinish ∧
      (perform q e).pc ≠ WorkerPc.inProcess t) ∧
    (t ∈ (perform q e).processed → t ∈ q.processed) ∧
    (t ∈ (perform q e).finished → t ∈ q.finished) := by
  obtain ⟨ts, _, s2, s3⟩ := step_submitted q e
  obtain ⟨o1, o2, o3, o4⟩ := step_origin q e
  refine ⟨⟨?_, ?_, ?_⟩, ?_, ?_⟩
  · intro x
    rcases s3 t x with y | y
    · exact h1 y
    · exact hno (s2.subset y)
  · intro x
    rcases o3 t x with y | y
    · exact h2 y
    · exact h3 y
  · intro x
    rcases o2 t x with y | y
    · exact h3 y
    · exact h1 y
  · intro x
    rcases o1 t x with y | y
    · exact y
    · exact absurd y h1
  · intro x
    rcases o4 t x with y | y
    · exact y
    · exact absurd y h2

theorem absent_run (es : List Event) (t : Task) :
    ∀ q : TaskQueue, t ∉ q._tasksToProcess → t ∉ q._tasksToFinish →
      q.pc ≠ WorkerPc.inProcess t → t ∉ handedOver es →
      (t ∉ (performAll q es)._tasksToProcess ∧ t ∉ (performAll q es)._tasksToFinish ∧
        (performAll q es).pc ≠ WorkerPc.inProcess t) ∧
      (t ∈ (performAll q es).processed → t ∈ q.processed) ∧
      (t ∈ (performAll q es).finished → t ∈ q.finished) := by
  induction es with
  | nil => exact fun q h1 h2 h3 _ => ⟨⟨h1, h2, h3⟩, fun h => h, fun h => h⟩
  | cons e es ih =>
    intro q h1 h2 h3 hno
    rw [handedOver_cons, List.mem_append, not_or] at hno
    obtain ⟨⟨a1, a2, a3⟩, a4, a5⟩ := absent_step q e t h1 h2 h3 hno.1
    obtain ⟨b1, b2, b3⟩ := ih (perform q e) a1 a2 a3 hno.2
    exact ⟨b1, fun x => a4 (b2 x), fun x => a5 (b3 x)⟩

/-! ## Lemmas on runs without `cancelTask` and `stop` -/

theorem inOrder_ctor (ms : Int) : InOrder (ctor ms) := by
  constructor <;> simp [ctor]

theorem wakeThread_waiting (q : TaskQueue) : (wakeThread q).waiting = q.waiting := by
  cases ht : q._thread <;> simp [wakeThread, ht]

theorem inOrder_append (q : TaskQueue) (ts : List Task) (h : InOrder q) :
    InOrder (wakeThread { q with _tasksToProcess := q._tasksToProcess ++ ts,
                                 submitted := q.submitted ++ ts }) := by
  obtain ⟨e1, e2, e3, e4, e5, e6⟩ := wakeThread_lists { q with
    _tasksToProcess := q._tasksToProcess ++ ts, submitted := q.submitted ++ ts }
  have e7 := wakeThread_waiting { q with
    _tasksToProcess := q._tasksToProcess ++ ts, submitted := q.submitted ++ ts }
  constructor
  · rw [e1, e2, e3, e5]
    show q.finished ++ q._tasksToFinish ++ (q._tasksToProcess ++ ts) = q.submitted ++ ts
    rw [← List.append_assoc, h.order]
  · intro t ht
    have := h.front t (e6 t ht)
    rw [e1]
    show (q._tasksToProcess ++ ts).head? = some t
    cases hq : q._tasksToProcess with
    | nil => rw [hq] at this; cases this
    | cons a r => rw [hq] at this; simpa using this
  · rw [e7]; exact h.awake

theorem inOrder_step (q : TaskQueue) (e : Event) (h : InOrder q)
    (he : e.cancelsOrStops = false) :
    InOrder (perform q e) ∧ (perform q e).submitted = q.submitted ++ handedOver [e] := by
  have hw := h.awake
  have hsame : ∀ q' : TaskQueue, q'.finished = q.finished →
      q'._tasksToFinish = q._tasksToFinish → q'._tasksToProcess = q._tasksToProcess →
      q'.submitted = q.submitted → q'.waiting = q.waiting →
      (∀ t, q'.pc = WorkerPc.inProcess t → q._tasksToProcess.head? = some t) →
      InOrder q' ∧ q'.submitted = q.submitted ++ [] := by
    intro q' e1 e2 e3 e4 e5 e6
    refine ⟨⟨?_, ?_, ?_⟩, by simp [e4]⟩
    · rw [e1, e2, e3, e4]; exact h.order
    · rw [e3]; exact e6
    · rw [e5]; exact hw
  have hrefl := hsame q rfl rfl rfl rfl rfl h.front
  cases e with
  | addTask task =>
    have hs : perform q (Event.addTask task) = wakeThread { q with
        _tasksToProcess := q._tasksToProcess ++ [task],
        submitted := q.submitted ++ [task] } := by simp [perform, hw, addTask]
    rw [hs]
    exact ⟨inOrder_append q [task] h, by simp [(wakeThread_lists _).2.2.1, handedOver]⟩
  | addTasks tasks =>
    have hs : perform q (Event.addTasks tasks) = wakeThread { q with
        _tasksToProcess := q._tasksToProcess ++ tasks,
        submitted := q.submitted ++ tasks } := by simp [perform, hw, addTasks]
    rw [hs]
    exact ⟨inOrder_append q tasks h, by simp [(wakeThread_lists _).2.2.1, handedOver]⟩
  | cancelTask id => simp [Event.cancelsOrStops] at he
  | stop => simp [Event.cancelsOrStops] at he
  | stopJoined => simp [Event.cancelsOrStops] at he
  | stopTimerTimeout => simp [Event.cancelsOrStops] at he
  | onTaskProcessedTurn =>
    simp only [perform, onTaskProcessedTurn, handedOver]
    split
    · exact hrefl
    · split
      · split
        · rename_i hf _
          exact hsame _ rfl (by simp [hf]) rfl rfl rfl h.front
        · exact hrefl
      · rename_i task rest hf
        refine ⟨⟨?_, h.front, hw⟩, by simp⟩
        show q.finished ++ [task] ++ rest ++ q._tasksToProcess = q.submitted
        rw [← h.order, hf]
        simp
  | taskAddedDelivered =>
    simp only [perform, onTaskAddedEnter, handedOver]
    split
    · split
      · exact hsame _ rfl rfl rfl rfl rfl h.front
      · exact hsame _ rfl rfl rfl rfl rfl (fun _ hc => by cases hc)
    · exact hrefl
  | workerTake =>
    simp only [perform, workerTake, handedOver]
    split
    · split
      · exact hsame _ rfl rfl rfl rfl rfl (fun _ hc => by cases hc)
      · rename_i task rest hp
        refine hsame _ rfl rfl rfl rfl rfl ?_
        intro t ht
        have : WorkerPc.inProcess task = WorkerPc.inProcess t := ht
        injection this with this
        rw [hp, ← this]; rfl
    · exact hrefl
  | workerCommit =>
    simp only [perform, handedOver]
    split
    · rename_i task hpc
      have hfront := h.front task hpc
      simp only [workerCommit]
      split
      · exact hsame _ rfl rfl rfl rfl rfl (fun _ hc => by cases hc)
      · rename_i front rest hp
        split
        · rename_i hft
          refine ⟨⟨?_, ?_, hw⟩, by simp⟩
          · show q.finished ++ (q._tasksToFinish ++ [task]) ++ rest = q.submitted
            rw [← h.order, hp, hft]
            simp
          · intro t hc
            cases hc
        · exact hsame _ rfl rfl rfl rfl rfl (fun _ hc => by cases hc)
    · exact hrefl
  | workerLoopTest =>
    simp only [perform, workerLoopTest, handedOver]
    split
    · split
      · exact hsame _ rfl rfl rfl rfl rfl (fun _ hc => by cases hc)
      · exact hsame _ rfl rfl rfl rfl rfl (fun _ hc => by cases hc)
    · exact hrefl

theorem inOrder_run (es : List Event) :
    ∀ q : TaskQueue, InOrder q → (∀ e ∈ es, e.cancelsOrStops = false) →
      InOrder (performAll q es) ∧ (performAll q es).submitted = q.submitted ++ handedOver es := by
  induction es with
  | nil => exact fun q h _ => ⟨h, by simp [performAll, handedOver]⟩
  | cons e es ih =>
    intro q h hes
    obtain ⟨h1, h2⟩ := inOrder_step q e h (hes e (List.mem_cons_self _ _))
    obtain ⟨h3, h4⟩ := ih (perform q e) h1 (fun x hx => hes x (List.mem_cons_of_mem _ hx))
    refine ⟨h3, ?_⟩
    show (performAll (perform q e) es).submitted = _
    rw [h4, h2, handedOver_cons e es, List.append_assoc]

theorem perform_cancelTask_lists (q : TaskQueue) (id : TaskId) :
    List.Sublist (perform q (Event.cancelTask id))._tasksToProcess q._tasksToProcess ∧
    List.Sublist (perform q (Event.cancelTask id))._tasksToFinish q._tasksToFinish ∧
    (perform q (Event.cancelTask id)).submitted = q.submitted ∧
    (perform q (Event.cancelTask id)).processed = q.processed ∧
    (perform q (Event.cancelTask id)).finished = q.finished ∧
    (perform q (Event.cancelTask id)).pc = q.pc := by
  simp only [perform]
  split
  · exact ⟨List.Sublist.refl _, List.Sublist.refl _, rfl, rfl, rfl, rfl⟩
  · exact cancelTask_lists q id

/-! ## Order of `finish()` -/

/-- C14: in every run from a new queue without `cancelTask` and `stop` (any
interleaving of `addTask`, `addTasks`, the worker's steps and the turns of the finish
loop), the tasks on which `finish()` was called, then the tasks in `_tasksToFinish`,
then the tasks in `_tasksToProcess` are the submitted tasks in the order of submission:
`finish()` is called in that order, and once the worker and the finish loop have run to
completion (both lists empty) it has been called on exactly the submitted tasks, in the
order in which they were submitted. -/
theorem finish_order_is_submission_order (stopTimeoutMs : Int) (es : List Event)
    (hes : ∀ e ∈ es, e.cancelsOrStops = false) :
    (performAll (ctor stopTimeoutMs) es).finished ++
        (performAll (ctor stopTimeoutMs) es)._tasksToFinish ++
        (performAll (ctor stopTimeoutMs) es)._tasksToProcess = handedOver es ∧
    ((performAll (ctor stopTimeoutMs) es)._tasksToProcess = [] →
      (performAll (ctor stopTimeoutMs) es)._tasksToFinish = [] →
      (performAll (ctor stopTimeoutMs) es).finished = handedOver es) := by
  obtain ⟨h1, h2⟩ := inOrder_run es (ctor stopTimeoutMs) (inOrder_ctor stopTimeoutMs) hes
  have h3 : (performAll (ctor stopTimeoutMs) es).submitted = handedOver es := by
    rw [h2]; simp [ctor]
  have h4 := h1.order
  rw [h3] at h4
  refine ⟨h4, ?_⟩
  intro hp hf
  rw [hp, hf] at h4
  simpa using h4

/-- Witness of C14: `taskA` and `taskB` are submitted in this order, the worker
processes both and the finish loop drains `_tasksToFinish`; `finish()` was called on
`taskA` and then on `taskB`. -/
theorem finish_order_is_submission_order_witness :
    (∀ e ∈ fifoRun, e.cancelsOrStops = false) ∧
    handedOver fifoRun = [taskA, taskB] ∧
    (performAll (ctor 1000) fifoRun)._tasksToProcess = [] ∧
    (performAll (ctor 1000) fifoRun)._tasksToFinish = [] ∧
    (performAll (ctor 1000) fifoRun).finished = handedOver fifoRun :=
  ⟨by decide, by decide, by decide, by decide,
   (finish_order_is_submission_order 1000 fifoRun (by decide)).2 (by decide) (by decide)⟩

/-! ## At most once -/

/-- C15: in every run from a new queue in which no task is handed over twice (any
interleaving of `addTask`, `addTasks`, `cancelTask`, the worker's steps, the turns of the
finish loop, and `stop` as well), `process()` is called at most once and `finish()` at
most once on each task; and a task that a `cancelTask` removes from `_tasksToProcess`
before `process()` was called on it has neither called, then or later. -/
theorem process_and_finish_at_most_once (stopTimeoutMs : Int) (es : List Event)
    (hn : (handedOver es).Nodup) :
    (performAll (ctor stopTimeoutMs) es).processed.Nodup ∧
    (performAll (ctor stopTimeoutMs) es).finished.Nodup ∧
    (∀ (pre post : List Event) (id : TaskId) (t : Task),
      es = pre ++ Event.cancelTask id :: post →
      t ∈ (performAll (ctor stopTimeoutMs) pre)._tasksToProcess →
      t ∉ (performAll (ctor stopTimeoutMs) pre).processed →
      t ∉ (perform (performAll (ctor stopTimeoutMs) pre)
        (Event.cancelTask id))._tasksToProcess →
      t ∉ (performAll (ctor stopTimeoutMs) es).processed ∧
      t ∉ (performAll (ctor stopTimeoutMs) es).finished) := by
  have hinv := inv_reachable stopTimeoutMs es hn
  refine ⟨hinv.proc_nodup, ?_, ?_⟩
  · exact hinv.lists_nodup.sublist (List.sublist_append_right _ _)
  · intro pre post id t hes hpend hproc hgone
    have hsplit : handedOver es = handedOver pre ++ handedOver post := by
      rw [hes, handedOver_append, handedOver_cons]
      simp [handedOver]
    have hnpre : (handedOver pre).Nodup := by
      rw [hsplit] at hn; exact hn.of_append_left
    have hi := inv_reachable stopTimeoutMs pre hnpre
    obtain ⟨ts, hs1, hs2⟩ := run_submitted pre (ctor stopTimeoutMs)
    have htsub : t ∈ handedOver pre := by
      have := hi.pend_sub t hpend
      rw [hs1] at this
      simp only [ctor, List.nil_append] at this
      exact hs2.subset this
    have hnot : t ∉ handedOver post := by
      rw [hsplit] at hn
      exact fun x => (List.nodup_append.mp hn).2.2 htsub x
    have hlists := hi.lists_nodup
    rw [List.append_assoc, List.nodup_append] at hlists
    have hnc : t ∉ (performAll (ctor stopTimeoutMs) pre)._tasksToFinish :=
      fun x => hlists.2.2 hpend (List.mem_append_left _ x)
    have hnf : t ∉ (performAll (ctor stopTimeoutMs) pre).finished :=
      fun x => hlists.2.2 hpend (List.mem_append_right _ x)
    have hpc : (performAll (ctor stopTimeoutMs) pre).pc ≠ WorkerPc.inProcess t :=
      fun x => hproc (hi.fly_proc t x).1
    obtain ⟨_, c2, _, c4, c5, c6⟩ :=
      perform_cancelTask_lists (performAll (ctor stopTimeoutMs) pre) id
    have hfinal : performAll (ctor stopTimeoutMs) es =
        performAll (perform (performAll (ctor stopTimeoutMs) pre) (Event.cancelTask id))
          post := by
      rw [hes, run_append]
      rfl
    obtain ⟨_, b2, b3⟩ := absent_run post t
      (perform (performAll (ctor stopTimeoutMs) pre) (Event.cancelTask id))
      hgone (fun x => hnc (c2.subset x)) (by rw [c6]; exact hpc) hnot
    rw [hfinal]
    exact ⟨fun x => hproc (c4 ▸ b2 x), fun x => hnf (c5 ▸ b3 x)⟩

/-- Witness of C15: in `cancelPendingRun` the tasks handed over are distinct, `taskB` is
cancelled while pending and not yet processed, and it is in neither history at the
end. -/
theorem process_and_finish_at_most_once_witness :
    (handedOver cancelPendingRun).Nodup ∧
    (performAll (ctor 1000) cancelPendingRun).processed = [taskA] ∧
    (performAll (ctor 1000) cancelPendingRun).finished = [taskA] ∧
    (performAll (ctor 1000) cancelPendingRun).processed.Nodup ∧
    taskB ∉ (performAll (ctor 1000) cancelPendingRun).processed ∧
    taskB ∉ (performAll (ctor 1000) cancelPendingRun).finished :=
  ⟨by decide, by decide, by decide,
   (process_and_finish_at_most_once 1000 cancelPendingRun (by decide)).1,
   ((process_and_finish_at_most_once 1000 cancelPendingRun (by decide)).2.2
      inFlightRun
      [Event.workerCommit, Event.workerLoopTest, Event.onTaskProcessedTurn,
        Event.onTaskProcessedTurn]
      102 taskB rfl (by decide) (by decide) (by decide)).1,
   ((process_and_finish_at_most_once 1000 cancelPendingRun (by decide)).2.2
      inFlightRun
      [Event.workerCommit, Event.workerLoopTest, Event.onTaskProcessedTurn,
        Event.onTaskProcessedTurn]
      102 taskB rfl (by decide) (by decide) (by decide)).2⟩

/-! ## `cancelTask`, `addTask`, `addTasks` -/

theorem exists_first_match (id : TaskId) (l : List Task) (h : ∃ x ∈ l, x.id = id) :
    ∃ a t b, l = a ++ t :: b ∧ t.id = id ∧ ∀ x ∈ a, x.id ≠ id := by
  cases hr : removeFirst id l with
  | none =>
    obtain ⟨x, hx, hid⟩ := h
    exact absurd hid ((removeFirst_eq_none_iff id l).mp hr x hx)
  | some l' =>
    obtain ⟨a, t, b, h1, h2, h3, _⟩ := removeFirst_eq_some id l l' hr
    exact ⟨a, t, b, h1, h2, h3⟩

theorem cancelTask_of_pending (q : TaskQueue) (id : TaskId) (a b : List Task) (t : Task)
    (h1 : q._tasksToProcess = a ++ t :: b) (h2 : t.id = id) (h3 : ∀ x ∈ a, x.id ≠ id) :
    cancelTask q id = { q with _tasksToProcess := a ++ b } := by
  have hr := removeFirst_of_split id a b t h2 h3
  rw [← h1] at hr
  simp [cancelTask, hr]

theorem cancelTask_of_completed (q : TaskQueue) (id : TaskId) (a b : List Task) (t : Task)
    (hp : ∀ x ∈ q._tasksToProcess, x.id ≠ id)
    (h1 : q._tasksToFinish = a ++ t :: b) (h2 : t.id = id) (h3 : ∀ x ∈ a, x.id ≠ id) :
    cancelTask q id = { q with _tasksToFinish := a ++ b } := by
  have hr := removeFirst_of_split id a b t h2 h3
  rw [← h1] at hr
  have hn := (removeFirst_eq_none_iff id _).mpr hp
  simp [cancelTask, hr, hn]

theorem cancelTask_of_unknown (q : TaskQueue) (id : TaskId)
    (hp : ∀ x ∈ q._tasksToProcess, x.id ≠ id) (hf : ∀ x ∈ q._tasksToFinish, x.id ≠ id) :
    cancelTask q id = q := by
  have h1 := (removeFirst_eq_none_iff id _).mpr hp
  have h2 := (removeFirst_eq_none_iff id _).mpr hf
  simp [cancelTask, h1, h2]

/-- C16: `cancelTask(id)` removes exactly one task when some task has that id: if
`_tasksToProcess` holds one, it is `a ++ t :: b` with `t` the first task whose id is `id`
and becomes `a ++ b`, `_tasksToFinish` and everything else staying as it was; if
`_tasksToProcess` holds none and `_tasksToFinish` holds one, the same happens to
`_tasksToFinish`; the remaining tasks keep their order.  If no task has that id, the
queue is left as it was. -/
theorem cancelTask_removes_first_match (q : TaskQueue) (id : TaskId) :
    ((∃ x ∈ q._tasksToProcess, x.id = id) →
      ∃ a t b, q._tasksToProcess = a ++ t :: b ∧ t.id = id ∧ (∀ x ∈ a, x.id ≠ id) ∧
        cancelTask q id = { q with _tasksToProcess := a ++ b }) ∧
    ((∀ x ∈ q._tasksToProcess, x.id ≠ id) → (∃ x ∈ q._tasksToFinish, x.id = id) →
      ∃ a t b, q._tasksToFinish = a ++ t :: b ∧ t.id = id ∧ (∀ x ∈ a, x.id ≠ id) ∧
        cancelTask q id = { q with _tasksToFinish := a ++ b }) ∧
    ((∀ x ∈ q._tasksToProcess, x.id ≠ id) → (∀ x ∈ q._tasksToFinish, x.id ≠ id) →
      cancelTask q id = q) := by
  refine ⟨?_, ?_, cancelTask_of_unknown q id⟩
  · intro h
    obtain ⟨a, t, b, h1, h2, h3⟩ := exists_first_match id _ h
    exact ⟨a, t, b, h1, h2, h3, cancelTask_of_pending q id a b t h1 h2 h3⟩
  · intro hp h
    obtain ⟨a, t, b, h1, h2, h3⟩ := exists_first_match id _ h
    exact ⟨a, t, b, h1, h2, h3, cancelTask_of_completed q id a b t hp h1 h2 h3⟩

/-- Witness of C16: in a queue with pending `taskA`, `taskB`, `taskC` (`taskA` and
`taskC` with id 101) `cancelTask(101)` removes `taskA`, the first of the two, and leaves
`taskB`, `taskC` in this order. -/
theorem cancelTask_removes_first_match_witness :
    (∃ x ∈ sameIdQueue._tasksToProcess, x.id = 101) ∧
    cancelTask sameIdQueue 101 = { sameIdQueue with _tasksToProcess := [taskB, taskC] } ∧
    ∃ a t b, sameIdQueue._tasksToProcess = a ++ t :: b ∧ t.id = 101 ∧
      (∀ x ∈ a, x.id ≠ 101) ∧
      cancelTask sameIdQueue 101 = { sameIdQueue with _tasksToProcess := a ++ b } :=
  ⟨⟨taskA, by decide, by decide⟩, by decide,
   (cancelTask_removes_first_match sameIdQueue 101).1 ⟨taskA, by decide, by decide⟩⟩

/-- C17 (as amended): let the worker be inside `process()` for the task `t`, read from
the front of `_tasksToProcess`, with `t` nowhere else in the queue.  `cancelTask(t.id)`
on the owner then removes `t` from `_tasksToProcess`; `process()` runs to its end, but
the worker's second locked section finds that `t` is no longer the front, so it moves
nothing to `_tasksToFinish` and emits nothing; and in no continuation in which `t` is
not handed over again does `t` enter `_tasksToFinish` or have `finish()` called on it. -/
theorem cancel_during_process_discards (q : TaskQueue) (t : Task) (rest : List Task)
    (es : List Event) (hw : q.waiting = false) (hpc : q.pc = WorkerPc.inProcess t)
    (hp : q._tasksToProcess = t :: rest) (hr : t ∉ rest)
    (hc : t ∉ q._tasksToFinish) (hf : t ∉ q.finished) (hes : t ∉ handedOver es) :
    perform q (Event.cancelTask t.id) = { q with _tasksToProcess := rest } ∧
    perform (perform q (Event.cancelTask t.id)) Event.workerCommit =
      { q with _tasksToProcess := rest, pc := WorkerPc.inEvents } ∧
    t ∉ (performAll (perform (perform q (Event.cancelTask t.id)) Event.workerCommit)
      es)._tasksToFinish ∧
    t ∉ (performAll (perform (perform q (Event.cancelTask t.id)) Event.workerCommit)
      es).finished := by
  have h1 : perform q (Event.cancelTask t.id) = { q with _tasksToProcess := rest } := by
    simp [perform, hw, cancelTask, hp, removeFirst]
  have h2 : perform { q with _tasksToProcess := rest } Event.workerCommit =
      { q with _tasksToProcess := rest, pc := WorkerPc.inEvents } := by
    cases rest with
    | nil => simp [perform, hpc, workerCommit]
    | cons front rest' =>
      have hne : front ≠ t := by
        intro x
        exact hr (by rw [x]; exact List.mem_cons_self _ _)
      simp [perform, hpc, workerCommit, hne]
  rw [h1, h2]
  refine ⟨rfl, rfl, ?_⟩
  obtain ⟨⟨_, a2, _⟩, _, a5⟩ := absent_run es t
    { q with _tasksToProcess := rest, pc := WorkerPc.inEvents } hr hc (by simp) hes
  exact ⟨a2, fun x => hf (a5 x)⟩

/-- Witness of C17: after `inFlightRun` the worker is inside `process()` for `taskA`;
`cancelTask(101)` and the worker's second locked section leave `taskB` pending, nothing
completed, and `taskA` is never finished in the five events that follow. -/
theorem cancel_during_process_discards_witness :
    (performAll (ctor 1000) inFlightRun).pc = WorkerPc.inProcess taskA ∧
    (performAll (ctor 1000) inFlightRun)._tasksToProcess = [taskA, taskB] ∧
    perform (perform (performAll (ctor 1000) inFlightRun) (Event.cancelTask taskA.id))
        Event.workerCommit =
      { performAll (ctor 1000) inFlightRun with
        _tasksToProcess := [taskB], pc := WorkerPc.inEvents } ∧
    taskA ∉ (performAll
      (perform (perform (performAll (ctor 1000) inFlightRun) (Event.cancelTask taskA.id))
        Event.workerCommit)
      [Event.workerLoopTest, Event.taskAddedDelivered, Event.workerTake,
        Event.workerCommit, Event.onTaskProcessedTurn]).finished :=
  ⟨by decide, by decide,
   (cancel_during_process_discards (performAll (ctor 1000) inFlightRun) taskA [taskB]
      [Event.workerLoopTest, Event.taskAddedDelivered, Event.workerTake,
        Event.workerCommit, Event.onTaskProcessedTurn]
      (by decide) (by decide) (by decide) (by decide) (by decide) (by decide)
      (by decide)).2.1,
   (cancel_during_process_discards (performAll (ctor 1000) inFlightRun) taskA [taskB]
      [Event.workerLoopTest, Event.taskAddedDelivered, Event.workerTake,
        Event.workerCommit, Event.onTaskProcessedTurn]
      (by decide) (by decide) (by decide) (by decide) (by decide) (by decide)
      (by decide)).2.2.2⟩

/-- Counterexample to C17 as stated: `cancelTask(101)` is called while the worker is
inside `process()` for `taskA` (id 101); the cancellation takes effect: `taskA` is
gone from `_tasksToProcess`, the worker's second locked section does not move it to
`_tasksToFinish`, and when the run has ended with both lists empty `finish()` has been
called on `taskB` only. -/
theorem cancel_during_process_takes_effect :
    (performAll (ctor 1000) inFlightRun).pc = WorkerPc.inProcess taskA ∧
    taskA.id = 101 ∧
    (performAll (ctor 1000) (inFlightRun ++ [Event.cancelTask 101]))._tasksToProcess =
      [taskB] ∧
    (performAll (ctor 1000)
      (inFlightRun ++ [Event.cancelTask 101, Event.workerCommit]))._tasksToFinish = [] ∧
    (performAll (ctor 1000) cancelInFlightRun)._tasksToProcess = [] ∧
    (performAll (ctor 1000) cancelInFlightRun)._tasksToFinish = [] ∧
    (performAll (ctor 1000) cancelInFlightRun).processed = [taskA, taskB] ∧
    (performAll (ctor 1000) cancelInFlightRun).finished = [taskB] := by
  decide

theorem countP_id_eq_zero (id : TaskId) (l : List Task) :
    l.countP (fun t => decide (t.id = id)) = 0 ↔ ∀ x ∈ l, x.id ≠ id := by
  simp [List.countP_eq_zero]

theorem countP_id_le_one (id : TaskId) (l : List Task) (h : (l.map Task.id).Nodup) :
    l.countP (fun t => decide (t.id = id)) ≤ 1 := by
  induction l with
  | nil => simp
  | cons t rest ih =>
    rw [List.map_cons, List.nodup_cons] at h
    obtain ⟨hnot, hnd⟩ := h
    by_cases ht : t.id = id
    · have hz : rest.countP (fun t => decide (t.id = id)) = 0 := by
        rw [countP_id_eq_zero]
        intro x hx hid
        exact hnot (List.mem_map.mpr ⟨x, hx, by rw [hid, ht]⟩)
      simp [List.countP_cons, ht, hz]
    · have := ih hnd
      simp [List.countP_cons, ht, this]

theorem cancel_again_of_count (q : TaskQueue) (id : TaskId)
    (h : (q._tasksToProcess ++ q._tasksToFinish).countP (fun t => decide (t.id = id)) ≤ 1) :
    cancelTask (cancelTask q id) id = cancelTask q id := by
  rw [List.countP_append] at h
  by_cases hp : ∃ x ∈ q._tasksToProcess, x.id = id
  · obtain ⟨a, t, b, h1, h2, h3⟩ := exists_first_match id _ hp
    have h4 := cancelTask_of_pending q id a b t h1 h2 h3
    rw [h1] at h
    simp only [List.countP_append, List.countP_cons, h2, decide_True, if_true] at h
    have ha : a.countP (fun t => decide (t.id = id)) = 0 := by omega
    have hb : b.countP (fun t => decide (t.id = id)) = 0 := by omega
    have hf : q._tasksToFinish.countP (fun t => decide (t.id = id)) = 0 := by omega
    rw [countP_id_eq_zero] at ha hb hf
    refine cancelTask_of_unknown _ id ?_ ?_
    · rw [h4]
      intro x hx
      rcases List.mem_append.mp hx with y | y
      · exact ha x y
      · exact hb x y
    · rw [h4]; exact hf
  · have hp' : ∀ x ∈ q._tasksToProcess, x.id ≠ id := fun x hx hid => hp ⟨x, hx, hid⟩
    by_cases hc : ∃ x ∈ q._tasksToFinish, x.id = id
    · obtain ⟨a, t, b, h1, h2, h3⟩ := exists_first_match id _ hc
      have h4 := cancelTask_of_completed q id a b t hp' h1 h2 h3
      rw [h1] at h
      simp only [List.countP_append, List.countP_cons, h2, decide_True, if_true] at h
      have ha : a.countP (fun t => decide (t.id = id)) = 0 := by omega
      have hb : b.countP (fun t => decide (t.id = id)) = 0 := by omega
      rw [countP_id_eq_zero] at ha hb
      refine cancelTask_of_unknown _ id ?_ ?_
      · rw [h4]; exact hp'
      · rw [h4]
        intro x hx
        rcases List.mem_append.mp hx with y | y
        · exact ha x y
        · exact hb x y
    · have hc' : ∀ x ∈ q._tasksToFinish, x.id ≠ id := fun x hx hid => hc ⟨x, hx, hid⟩
      have := cancelTask_of_unknown q id hp' hc'
      rw [this]; exact this

theorem ids_nodup_reachable (stopTimeoutMs : Int) (es : List Event)
    (hn : ((handedOver es).map Task.id).Nodup) :
    (((performAll (ctor stopTimeoutMs) es)._tasksToProcess ++
      (performAll (ctor stopTimeoutMs) es)._tasksToFinish).map Task.id).Nodup := by
  have hnd : (handedOver es).Nodup := List.Nodup.of_map _ hn
  have hinv := inv_reachable stopTimeoutMs es hnd
  obtain ⟨ts, h1, h2⟩ := run_submitted es (ctor stopTimeoutMs)
  have hsub : ∀ z ∈ (performAll (ctor stopTimeoutMs) es).submitted, z ∈ handedOver es := by
    intro z hz
    rw [h1] at hz
    rcases List.mem_append.mp hz with h | h
    · simp [ctor] at h
    · exact h2.subset h
  have hl := hinv.lists_nodup
  rw [List.nodup_append] at hl
  refine List.Nodup.map_on ?_ hl.1
  intro x hx y hy hxy
  have hmem : ∀ z ∈ (performAll (ctor stopTimeoutMs) es)._tasksToProcess ++
      (performAll (ctor stopTimeoutMs) es)._tasksToFinish, z ∈ handedOver es := by
    intro z hz
    rcases List.mem_append.mp hz with h | h
    · exact hsub z (hinv.pend_sub z h)
    · exact hsub z (hinv.proc_sub z (hinv.done_proc z (Or.inl h)))
  exact List.inj_on_of_nodup_map hn (hmem x hx) (hmem y hy) hxy

/-- C18: in every queue state in which the tasks of `_tasksToProcess` and
`_tasksToFinish` have distinct ids (a task has a unique identifier), and for every id,
calling `cancelTask(id)` twice in a row leaves exactly the state that a single
`cancelTask(id)` leaves: the second call has no additional effect. -/
theorem cancelTask_twice (q : TaskQueue) (id : TaskId)
    (h : ((q._tasksToProcess ++ q._tasksToFinish).map Task.id).Nodup) :
    cancelTask (cancelTask q id) id = cancelTask q id :=
  cancel_again_of_count q id (countP_id_le_one id _ h)

/-- Witness of C18: with `taskA` (id 101) and `taskB` (id 102) pending, a second
`cancelTask(101)` changes nothing. -/
theorem cancelTask_twice_witness :
    (((performAll (ctor 1000) inFlightRun)._tasksToProcess ++
      (performAll (ctor 1000) inFlightRun)._tasksToFinish).map Task.id).Nodup ∧
    (cancelTask (performAll (ctor 1000) inFlightRun) 101)._tasksToProcess = [taskB] ∧
    cancelTask (cancelTask (performAll (ctor 1000) inFlightRun) 101) 101 =
      cancelTask (performAll (ctor 1000) inFlightRun) 101 :=
  ⟨by decide, by decide, cancelTask_twice (performAll (ctor 1000) inFlightRun) 101 (by decide)⟩

/-! ## One place at a time -/

/-- C19: in every state reached from a new queue by any list of events (`addTask`,
`addTasks`, `cancelTask`, the worker's steps, the turns of the finish loop, `stop`) in
which no task is handed over twice, no task occurs twice in `_tasksToProcess`, none
occurs twice in `_tasksToFinish`, and none is in both; a task on which `finish()` was
called is in neither. -/
theorem task_in_one_place (stopTimeoutMs : Int) (es : List Event)
    (hn : (handedOver es).Nodup) :
    (performAll (ctor stopTimeoutMs) es)._tasksToProcess.Nodup ∧
    (performAll (ctor stopTimeoutMs) es)._tasksToFinish.Nodup ∧
    (∀ t ∈ (performAll (ctor stopTimeoutMs) es)._tasksToProcess,
      t ∉ (performAll (ctor stopTimeoutMs) es)._tasksToFinish) ∧
    (∀ t ∈ (performAll (ctor stopTimeoutMs) es).finished,
      t ∉ (performAll (ctor stopTimeoutMs) es)._tasksToProcess ∧
      t ∉ (performAll (ctor stopTimeoutMs) es)._tasksToFinish) := by
  have h := (inv_reachable stopTimeoutMs es hn).lists_nodup
  rw [List.nodup_append] at h
  obtain ⟨h1, _, h3⟩ := h
  rw [List.nodup_append] at h1
  refine ⟨h1.1, h1.2.1, fun t ht hc => h1.2.2 ht hc, ?_⟩
  intro t ht
  exact ⟨fun x => h3 (List.mem_append_left _ x) ht,
    fun x => h3 (List.mem_append_right _ x) ht⟩

/-- Witness of C19: the run `cancelInFlightRun` up to the worker's commit of `taskB`
hands `taskA` and `taskB` over once each; `taskB` is then in `_tasksToFinish` only. -/
theorem task_in_one_place_witness :
    (handedOver (inFlightRun ++ [Event.cancelTask 101, Event.workerCommit,
      Event.workerLoopTest, Event.taskAddedDelivered, Event.workerTake,
      Event.workerCommit])).Nodup ∧
    (performAll (ctor 1000) (inFlightRun ++ [Event.cancelTask 101, Event.workerCommit,
      Event.workerLoopTest, Event.taskAddedDelivered, Event.workerTake,
      Event.workerCommit]))._tasksToFinish = [taskB] ∧
    (∀ t ∈ (performAll (ctor 1000) (inFlightRun ++ [Event.cancelTask 101,
        Event.workerCommit, Event.workerLoopTest, Event.taskAddedDelivered,
        Event.workerTake, Event.workerCommit]))._tasksToProcess,
      t ∉ (performAll (ctor 1000) (inFlightRun ++ [Event.cancelTask 101,
        Event.workerCommit, Event.workerLoopTest, Event.taskAddedDelivered,
        Event.workerTake, Event.workerCommit]))._tasksToFinish) :=
  ⟨by decide, by decide,
   (task_in_one_place 1000 (inFlightRun ++ [Event.cancelTask 101, Event.workerCommit,
      Event.workerLoopTest, Event.taskAddedDelivered, Event.workerTake,
      Event.workerCommit]) (by decide)).2.2.1⟩

theorem foldl_addTask_lists (tasks : List Task) :
    ∀ q : TaskQueue,
      (tasks.foldl (fun s t => (addTask s t).1) q)._tasksToProcess =
        q._tasksToProcess ++ tasks ∧
      (tasks.foldl (fun s t => (addTask s t).1) q)._tasksToFinish = q._tasksToFinish := by
  induction tasks with
  | nil => exact fun q => ⟨by simp, rfl⟩
  | cons t tasks ih =>
    intro q
    obtain ⟨h1, h2⟩ := ih (addTask q t).1
    simp only [List.foldl_cons]
    rw [h1, h2]
    simp [addTask, (wakeThread_lists _).1, (wakeThread_lists _).2.1]

/-- C20: `addTask(task)` appends the task at the end of `_tasksToProcess`, leaves the
tasks before it and the whole of `_tasksToFinish` as they were, and returns
`task->id()`; `addTasks(tasks)` leaves the same `_tasksToProcess` and `_tasksToFinish`
as calling `addTask` on each element of `tasks` in order, namely `_tasksToProcess`
followed by `tasks`. -/
theorem addTask_appends (q : TaskQueue) (task : Task) (tasks : List Task) :
    (addTask q task).1._tasksToProcess = q._tasksToProcess ++ [task] ∧
    (addTask q task).1._tasksToFinish = q._tasksToFinish ∧
    (addTask q task).2 = task.id ∧
    (addTasks q tasks)._tasksToProcess = q._tasksToProcess ++ tasks ∧
    (addTasks q tasks)._tasksToProcess =
      (tasks.foldl (fun s t => (addTask s t).1) q)._tasksToProcess ∧
    (addTasks q tasks)._tasksToFinish =
      (tasks.foldl (fun s t => (addTask s t).1) q)._tasksToFinish := by
  obtain ⟨h1, h2⟩ := foldl_addTask_lists tasks q
  rw [h1, h2]
  simp [addTask, addTasks, (wakeThread_lists _).1, (wakeThread_lists _).2.1]

/-! ## The second locked section of the worker -/

/-- Claim C23: after `process()` has returned for `task`, the worker pops `task` from
`_tasksToProcess` and appends it to the end of `_tasksToFinish` if and only if `task` is
still the front of `_tasksToProcess`; otherwise neither list changes.  It emits
`taskProcessed()` if and only if it appended the task and `_tasksToFinish` was empty
just before, and it emits it at most once. -/
theorem workerCommit_moves_front_only (q : TaskQueue) (task : Task) :
    (q._tasksToProcess.head? = some task →
      (workerCommit q task)._tasksToProcess = q._tasksToProcess.tail ∧
      (workerCommit q task)._tasksToFinish = q._tasksToFinish ++ [task]) ∧
    (q._tasksToProcess.head? ≠ some task →
      (workerCommit q task)._tasksToProcess = q._tasksToProcess ∧
      (workerCommit q task)._tasksToFinish = q._tasksToFinish) ∧
    ((workerCommit q task)._tasksToFinish = q._tasksToFinish ++ [task] ↔
      q._tasksToProcess.head? = some task) ∧
    ((workerCommit q task).taskProcessed = q.taskProcessed + 1 ↔
      (q._tasksToProcess.head? = some task ∧ q._tasksToFinish = [])) ∧
    ((workerCommit q task).taskProcessed ≠ q.taskProcessed + 1 →
      (workerCommit q task).taskProcessed = q.taskProcessed) ∧
    (workerCommit q task).finished = q.finished ∧
    (workerCommit q task).pc = WorkerPc.inEvents := by
  unfold workerCommit
  cases hp : q._tasksToProcess with
  | nil => simp
  | cons front rest =>
    by_cases hf : front = task
    · subst hf
      cases hc : q._tasksToFinish with
      | nil => simp
      | cons c cs => simp
    · simp [hf]

/-- Witness of C23: with `taskA` in `process()` and `taskB` behind it, the second locked
section moves `taskA` and emits `taskProcessed()`; for `taskB`, which is not the front,
it changes nothing. -/
theorem workerCommit_moves_front_only_witness :
    ((workerCommit (performAll (ctor 0) inFlightRun) taskA)._tasksToProcess = [taskB] ∧
      (workerCommit (performAll (ctor 0) inFlightRun) taskA)._tasksToFinish = [taskA]) ∧
    ((workerCommit (performAll (ctor 0) inFlightRun) taskB)._tasksToProcess
        = [taskA, taskB] ∧
      (workerCommit (performAll (ctor 0) inFlightRun) taskB)._tasksToFinish = []) :=
  ⟨(workerCommit_moves_front_only (performAll (ctor 0) inFlightRun) taskA).1 (by decide),
   (workerCommit_moves_front_only (performAll (ctor 0) inFlightRun) taskB).2.1
     (by decide)⟩

/-! ## Lemmas on `stop` -/

theorem perform_while_waiting (q : TaskQueue) (e : Event) (hw : q.waiting = true)
    (he : e ≠ Event.stopJoined) :
    (perform q e).waiting = true ∧ (perform q e).finished = q.finished := by
  cases e with
  | addTask task => simp [perform, hw]
  | addTasks tasks => simp [perform, hw]
  | cancelTask id => simp [perform, hw]
  | onTaskProcessedTurn => simp [perform, hw]
  | stop => simp [perform, hw]
  | stopJoined => exact absurd rfl he
  | stopTimerTimeout => simp [perform, hw]
  | taskAddedDelivered =>
    simp only [perform, onTaskAddedEnter]
    split
    · split <;> simp [hw]
    · simp [hw]
  | workerTake =>
    simp only [perform, workerTake]
    split
    · split <;> simp [hw]
    · simp [hw]
  | workerCommit =>
    simp only [perform, workerCommit]
    split
    · split
      · simp [hw]
      · split <;> simp [hw]
    · simp [hw]
  | workerLoopTest =>
    simp only [perform, workerLoopTest]
    split
    · split <;> simp [hw]
    · simp [hw]

theorem performAll_while_waiting (es : List Event) :
    ∀ q : TaskQueue, q.waiting = true → Event.stopJoined ∉ es →
      (performAll q es).waiting = true ∧ (performAll q es).finished = q.finished := by
  induction es with
  | nil => intro q hw _; exact ⟨hw, rfl⟩
  | cons e es ih =>
    intro q hw hes
    have he : e ≠ Event.stopJoined := fun h => hes (by simp [h])
    have hes2 : Event.stopJoined ∉ es := fun h => hes (by simp [h])
    have h1 := perform_while_waiting q e hw he
    have h2 := ih (perform q e) h1.1 hes2
    exact ⟨h2.1, h2.2.trans h1.2⟩

theorem joinSteps_reach_idle (q : TaskQueue) (hi : q.interruptionRequested = true) :
    (performAll q (joinSteps q.pc)).pc = WorkerPc.idle := by
  cases hpc : q.pc with
  | idle => simp [joinSteps, performAll, hpc]
  | atLock =>
    cases hp : q._tasksToProcess with
    | nil => simp [joinSteps, performAll, perform, hpc, workerTake, hp, workerLoopTest, hi]
    | cons t rest =>
      by_cases hf : t = t
      · simp [joinSteps, performAll, perform, hpc, workerTake, hp, workerCommit,
          workerLoopTest, hi]
      · exact absurd rfl hf
  | inProcess task =>
    cases hp : q._tasksToProcess with
    | nil => simp [joinSteps, performAll, perform, hpc, hp, workerCommit, workerLoopTest, hi]
    | cons t rest =>
      by_cases hf : t = task
      · simp [joinSteps, performAll, perform, hpc, hp, workerCommit, workerLoopTest, hi, hf]
      · simp [joinSteps, performAll, perform, hpc, hp, workerCommit, workerLoopTest, hi, hf]
  | inEvents => simp [joinSteps, performAll, perform, hpc, workerLoopTest, hi]

theorem stopJoined_after_wait (q : TaskQueue) (es : List Event) (hw : q.waiting = true)
    (hes : Event.stopJoined ∉ es) (hidle : (performAll q es).pc = WorkerPc.idle) :
    (performAll q (es ++ [Event.stopJoined]))._tasksToProcess = [] ∧
    (performAll q (es ++ [Event.stopJoined]))._tasksToFinish = [] ∧
    (performAll q (es ++ [Event.stopJoined])).finished = q.finished ∧
    (performAll q (es ++ [Event.stopJoined]))._thread = false ∧
    (performAll q (es ++ [Event.stopJoined])).waiting = false ∧
    (performAll q (es ++ [Event.stopJoined, Event.onTaskProcessedTurn])).finished
      = q.finished := by
  have h := performAll_while_waiting es q hw hes
  have hj : perform (performAll q es) Event.stopJoined = stopJoined (performAll q es) := by
    simp [perform, h.1, hidle]
  have e1 : performAll q (es ++ [Event.stopJoined]) = stopJoined (performAll q es) := by
    rw [run_append]; simp [performAll, hj]
  have e2 : performAll q (es ++ [Event.stopJoined, Event.onTaskProcessedTurn])
      = perform (stopJoined (performAll q es)) Event.onTaskProcessedTurn := by
    rw [run_append]; simp [performAll, hj]
  rw [e1, e2]
  simp [stopJoined, perform, onTaskProcessedTurn, h.2]

/-! ## `stop()` -/

/-- Claim C21: `stop()` leaves `_tasksToProcess` and `_tasksToFinish` empty, whatever
they held, and calls `finish()` on no task.  Without a thread it clears the lists at
once.  With a thread it blocks in `wait()`; the worker then leaves `onTaskAdded` after
at most the rest of its loop body, and whatever the two threads do until `wait()`
returns, the owner stays blocked and no `finish()` is called; when `wait()` returns the
thread is gone and both lists are cleared, and a `taskProcessed()` still in flight
finds nothing to finish. -/
theorem stop_clears_and_finishes_nothing (q : TaskQueue) (hw : q.waiting = false) :
    (q._thread = false →
      (perform q Event.stop)._tasksToProcess = [] ∧
      (perform q Event.stop)._tasksToFinish = [] ∧
      (perform q Event.stop).finished = q.finished ∧
      (perform (perform q Event.stop) Event.onTaskProcessedTurn).finished = q.finished) ∧
    (q._thread = true →
      (perform q Event.stop).waiting = true ∧
      (performAll (perform q Event.stop) (joinSteps q.pc)).pc = WorkerPc.idle ∧
      ∀ es : List Event, Event.stopJoined ∉ es →
        (performAll (perform q Event.stop) es).waiting = true ∧
        (performAll (perform q Event.stop) es).finished = q.finished ∧
        ((performAll (perform q Event.stop) es).pc = WorkerPc.idle →
          (performAll (perform q Event.stop) (es ++ [Event.stopJoined]))._tasksToProcess = [] ∧
          (performAll (perform q Event.stop) (es ++ [Event.stopJoined]))._tasksToFinish = [] ∧
          (performAll (perform q Event.stop) (es ++ [Event.stopJoined])).finished
            = q.finished ∧
          (performAll (perform q Event.stop) (es ++ [Event.stopJoined]))._thread = false ∧
          (performAll (perform q Event.stop) (es ++ [Event.stopJoined])).waiting = false ∧
          (performAll (perform q Event.stop)
            (es ++ [Event.stopJoined, Event.onTaskProcessedTurn])).finished = q.finished)) := by
  constructor
  · intro ht
    simp [perform, hw, stop, ht, onTaskProcessedTurn]
  · intro ht
    have hs : perform q Event.stop = { q with interruptionRequested := true, waiting := true } := by
      simp [perform, hw, stop, ht]
    refine ⟨by rw [hs], ?_, ?_⟩
    · have h := joinSteps_reach_idle (perform q Event.stop) (by rw [hs])
      have hpc : (perform q Event.stop).pc = q.pc := by rw [hs]
      rw [hpc] at h
      exact h
    · intro es hes
      have h := performAll_while_waiting es (perform q Event.stop) (by rw [hs]) hes
      have hfin : (perform q Event.stop).finished = q.finished := by rw [hs]
      refine ⟨h.1, h.2.trans hfin, ?_⟩
      intro hidle
      have h3 := stopJoined_after_wait (perform q Event.stop) es (by rw [hs]) hes hidle
      rw [hfin] at h3
      exact h3

/-- Witness of C21: `stop()` called while the worker is inside `process()` for `taskA`
with `taskB` behind it; after the worker's last steps and the return of `wait()` nothing
is pending and nothing was finished. -/
theorem stop_clears_and_finishes_nothing_witness :
    (performAll (ctor 0) inFlightRun)._tasksToProcess = [taskA, taskB] ∧
    (performAll (perform (performAll (ctor 0) inFlightRun) Event.stop)
      ([Event.workerCommit, Event.workerLoopTest] ++ [Event.stopJoined]))._tasksToProcess = [] ∧
    (performAll (perform (performAll (ctor 0) inFlightRun) Event.stop)
      ([Event.workerCommit, Event.workerLoopTest] ++ [Event.stopJoined])).finished = [] :=
  ⟨by decide,
   (((stop_clears_and_finishes_nothing (performAll (ctor 0) inFlightRun) (by decide)).2
      (by decide)).2.2 [Event.workerCommit, Event.workerLoopTest] (by decide)).2.2
      (by decide) |>.1,
   (((stop_clears_and_finishes_nothing (performAll (ctor 0) inFlightRun) (by decide)).2
      (by decide)).2.2 [Event.workerCommit, Event.workerLoopTest] (by decide)).2.2
      (by decide) |>.2.2.1⟩

/-! ## Lemmas on the stop timer -/

theorem wakeThread_stopTimer (q : TaskQueue) :
    (wakeThread q)._stopTimer = q._stopTimer.map (fun _ => false) := by
  unfold wakeThread
  split <;> rfl

theorem perform_stopTimer_isSome (q : TaskQueue) (e : Event) :
    (perform q e)._stopTimer.isSome = q._stopTimer.isSome := by
  cases e with
  | addTask task =>
    simp only [perform, addTask]
    split
    · rfl
    · rw [wakeThread_stopTimer]; simp
  | addTasks tasks =>
    simp only [perform, addTasks]
    split
    · rfl
    · rw [wakeThread_stopTimer]; simp
  | cancelTask id =>
    simp only [perform, cancelTask]
    split
    · rfl
    · split
      · rfl
      · split <;> rfl
  | onTaskProcessedTurn =>
    simp only [perform, onTaskProcessedTurn]
    split
    · rfl
    · split
      · split
        · simp
        · rfl
      · rfl
  | stop =>
    simp only [perform, stop]
    split
    · rfl
    · split <;> rfl
  | stopJoined =>
    simp only [perform, stopJoined]
    split <;> rfl
  | stopTimerTimeout =>
    simp only [perform, stop]
    split
    · rename_i h
      have h2 : q._stopTimer = some true := by
        simp only [Bool.and_eq_true, decide_eq_true_eq] at h
        exact h.2
      split <;> simp [h2]
    · rfl
  | taskAddedDelivered =>
    simp only [perform, onTaskAddedEnter]
    split
    · split <;> rfl
    · rfl
  | workerTake =>
    simp only [perform, workerTake]
    split
    · split <;> rfl
    · rfl
  | workerCommit =>
    simp only [perform, workerCommit]
    split
    · split
      · rfl
      · split <;> rfl
    · rfl
  | workerLoopTest =>
    simp only [perform, workerLoopTest]
    split
    · split <;> rfl
    · rfl

theorem performAll_stopTimer_isSome (es : List Event) :
    ∀ q : TaskQueue, (performAll q es)._stopTimer.isSome = q._stopTimer.isSome := by
  induction es with
  | nil => intro q; rfl
  | cons e es ih =>
    intro q
    exact (ih (perform q e)).trans (perform_stopTimer_isSome q e)

theorem perform_no_timer (q : TaskQueue) (e : Event) (hne : e ≠ Event.stop)
    (ht : q._stopTimer = none) (hw : q.waiting = false)
    (hi : q.interruptionRequested = false) :
    (perform q e).waiting = false ∧ (perform q e).interruptionRequested = false ∧
    (q._thread = true → (perform q e)._thread = true) := by
  cases e with
  | addTask task =>
    have h : perform q (Event.addTask task) = (addTask q task).1 := by simp [perform, hw]
    rw [h]
    unfold addTask wakeThread
    by_cases h : q._thread = true <;> simp [h, hw, hi]
  | addTasks tasks =>
    have h : perform q (Event.addTasks tasks) = addTasks q tasks := by simp [perform, hw]
    rw [h]
    unfold addTasks wakeThread
    by_cases h : q._thread = true <;> simp [h, hw, hi]
  | cancelTask tid =>
    have h : perform q (Event.cancelTask tid) = cancelTask q tid := by simp [perform, hw]
    rw [h]
    unfold cancelTask
    split
    · exact ⟨hw, hi, id⟩
    · split
      · exact ⟨hw, hi, id⟩
      · exact ⟨hw, hi, id⟩
  | onTaskProcessedTurn =>
    have h : perform q Event.onTaskProcessedTurn = onTaskProcessedTurn q := by
      simp [perform, hw]
    rw [h]
    unfold onTaskProcessedTurn
    split
    · split
      · exact ⟨hw, hi, id⟩
      · exact ⟨hw, hi, id⟩
    · exact ⟨hw, hi, id⟩
  | stop => exact absurd rfl hne
  | stopJoined =>
    have h : perform q Event.stopJoined = q := by simp [perform, hw]
    rw [h]
    exact ⟨hw, hi, id⟩
  | stopTimerTimeout =>
    have h : perform q Event.stopTimerTimeout = q := by simp [perform, ht]
    rw [h]
    exact ⟨hw, hi, id⟩
  | taskAddedDelivered =>
    simp only [perform, onTaskAddedEnter]
    split
    · split
      · exact ⟨hw, hi, id⟩
      · exact ⟨hw, hi, id⟩
    · exact ⟨hw, hi, id⟩
  | workerTake =>
    simp only [perform, workerTake]
    split
    · split
      · exact ⟨hw, hi, id⟩
      · exact ⟨hw, hi, id⟩
    · exact ⟨hw, hi, id⟩
  | workerCommit =>
    simp only [perform, workerCommit]
    split
    · split
      · exact ⟨hw, hi, id⟩
      · split
        · exact ⟨hw, hi, id⟩
        · exact ⟨hw, hi, id⟩
    · exact ⟨hw, hi, id⟩
  | workerLoopTest =>
    simp only [perform, workerLoopTest]
    split
    · split
      · exact ⟨hw, hi, id⟩
      · exact ⟨hw, hi, id⟩
    · exact ⟨hw, hi, id⟩

theorem performAll_no_timer (es : List Event) :
    ∀ q : TaskQueue, (∀ e ∈ es, e ≠ Event.stop) → q._stopTimer = none →
      q.waiting = false → q.interruptionRequested = false →
      (performAll q es).waiting = false ∧ (performAll q es).interruptionRequested = false ∧
      (q._thread = true → (performAll q es)._thread = true) := by
  induction es with
  | nil => intro q _ _ hw hi; exact ⟨hw, hi, id⟩
  | cons e es ih =>
    intro q hes ht hw hi
    have h1 := perform_no_timer q e (hes e (by simp)) ht hw hi
    have ht1 : (perform q e)._stopTimer = none := by
      have h := perform_stopTimer_isSome q e
      rw [ht] at h
      cases hq : (perform q e)._stopTimer with
      | none => rfl
      | some b => rw [hq] at h; simp at h
    have h2 := ih (perform q e) (fun e2 he2 => hes e2 (by simp [he2])) ht1 h1.1 h1.2.1
    exact ⟨h2.1, h2.2.1, fun h => h2.2.2 (h1.2.2 h)⟩

/-! ## The idle timer -/

/-- What the code does with `_stopTimer`: for a queue built with a positive timeout the
timer exists in every reachable state, and for a zero or negative timeout it never exists.
Where it exists, the finish loop of `onTaskProcessed` starts it when it is left with
`_tasksToProcess` empty, every `addTask` and `addTasks` stops it, and when it fires with
the thread there, `stop()` runs: interruption is requested, the worker leaves
`onTaskAdded` and the thread is deleted.  Without a timer the timeout slot never runs,
and in a run without a call of `stop()` the owner never waits for the worker, no
interruption is requested and a thread once created stays. -/
theorem stopTimer_armed_and_disarmed (ms : Int) (es : List Event) :
    (0 < ms → (performAll (ctor ms) es)._stopTimer.isSome = true) ∧
    (ms ≤ 0 → (performAll (ctor ms) es)._stopTimer = none) ∧
    (∀ q : TaskQueue, q.waiting = false → q._stopTimer.isSome = true →
      (q._tasksToFinish = [] → q._tasksToProcess = [] →
        (perform q Event.onTaskProcessedTurn)._stopTimer = some true) ∧
      (∀ task, (perform q (Event.addTask task))._stopTimer = some false) ∧
      (∀ tasks, (perform q (Event.addTasks tasks))._stopTimer = some false) ∧
      (q._stopTimer = some true → q._thread = true →
        (perform q Event.stopTimerTimeout).waiting = true ∧
        (perform q Event.stopTimerTimeout).interruptionRequested = true ∧
        (perform q Event.stopTimerTimeout)._stopTimer = some false ∧
        (performAll (perform q Event.stopTimerTimeout) (joinSteps q.pc)).pc
          = WorkerPc.idle ∧
        (performAll (perform q Event.stopTimerTimeout)
          (joinSteps q.pc ++ [Event.stopJoined]))._thread = false)) ∧
    (ms ≤ 0 →
      perform (performAll (ctor ms) es) Event.stopTimerTimeout = performAll (ctor ms) es ∧
      ((∀ e ∈ es, e ≠ Event.stop) →
        (performAll (ctor ms) es).waiting = false ∧
        (performAll (ctor ms) es).interruptionRequested = false ∧
        ∀ more : List Event, (∀ e ∈ more, e ≠ Event.stop) →
          (performAll (ctor ms) es)._thread = true →
          (performAll (ctor ms) (es ++ more))._thread = true)) := by
  have hnone : ms ≤ 0 → (performAll (ctor ms) es)._stopTimer = none := by
    intro h
    have h1 := performAll_stopTimer_isSome es (ctor ms)
    have h2 : (ctor ms)._stopTimer = none := by simp [ctor]; omega
    rw [h2] at h1
    cases hq : (performAll (ctor ms) es)._stopTimer with
    | none => rfl
    | some b => rw [hq] at h1; simp at h1
  refine ⟨?_, hnone, ?_, ?_⟩
  · intro h
    rw [performAll_stopTimer_isSome]
    simp [ctor, h]
  · intro q hw hs
    obtain ⟨b, hb⟩ := Option.isSome_iff_exists.mp hs
    refine ⟨?_, ?_, ?_, ?_⟩
    · intro hf hp
      simp [perform, hw, onTaskProcessedTurn, hf, hp, hb]
    · intro task
      simp [perform, hw, addTask, wakeThread_stopTimer, hb]
    · intro tasks
      simp [perform, hw, addTasks, wakeThread_stopTimer, hb]
    · intro ht hth
      have hst : perform q Event.stopTimerTimeout
          = { q with _stopTimer := some false, interruptionRequested := true,
                     waiting := true } := by
        simp [perform, hw, ht, stop, hth]
      have hj := joinSteps_reach_idle (perform q Event.stopTimerTimeout) (by rw [hst])
      have hpc : (perform q Event.stopTimerTimeout).pc = q.pc := by rw [hst]
      rw [hpc] at hj
      refine ⟨by rw [hst], by rw [hst], by rw [hst], hj, ?_⟩
      have hne : Event.stopJoined ∉ joinSteps q.pc := by
        cases q.pc <;> simp [joinSteps]
      exact (stopJoined_after_wait (perform q Event.stopTimerTimeout) (joinSteps q.pc)
        (by rw [hst]) hne hj).2.2.2.1
  · intro h
    refine ⟨?_, ?_⟩
    · simp [perform, hnone h]
    · intro hes
      have h0 := performAll_no_timer es (ctor ms) hes (by simp [ctor]; omega) rfl rfl
      refine ⟨h0.1, h0.2.1, ?_⟩
      intro more hmore hth
      rw [run_append]
      exact (performAll_no_timer more (performAll (ctor ms) es) hmore (hnone h)
        h0.1 h0.2.1).2.2 hth

/-- The timer on a concrete run: after `taskA` is processed and finished the timer of a
queue built with 1000 ms is active with both lists empty, `addTask` stops it, its
timeout deletes the thread, and a queue built with 0 ms has no timer. -/
theorem stopTimer_armed_and_disarmed_witness :
    (performAll (ctor 1000) idleRun)._stopTimer = some true ∧
    (performAll (ctor 1000) idleRun)._tasksToProcess = [] ∧
    (performAll (ctor 1000) idleRun)._tasksToFinish = [] ∧
    (perform (performAll (ctor 1000) idleRun) (Event.addTask taskB))._stopTimer
      = some false ∧
    (performAll (perform (performAll (ctor 1000) idleRun) Event.stopTimerTimeout)
      (joinSteps (performAll (ctor 1000) idleRun).pc ++ [Event.stopJoined]))._thread
      = false ∧
    (performAll (ctor 0) idleRun)._stopTimer = none :=
  ⟨by decide, by decide, by decide,
   (((stopTimer_armed_and_disarmed 1000 idleRun).2.2.1 (performAll (ctor 1000) idleRun)
      (by decide) (by decide)).2.1 taskB),
   (((stopTimer_armed_and_disarmed 1000 idleRun).2.2.1 (performAll (ctor 1000) idleRun)
      (by decide) (by decide)).2.2.2 (by decide) (by decide)).2.2.2.2,
   (stopTimer_armed_and_disarmed 0 idleRun).2.1 (by decide)⟩

/-- Claim C22, where the code departs from it: on a queue built with a timeout of
1000 ms the timer is started at the end of `onTaskProcessed` only.  After `taskA` is
processed and finished the thread exists, both lists are empty and the timer is active.
But after `taskA` is submitted and cancelled before the worker takes it, and likewise
after `addTasks` with an empty list, the worker finds nothing to process and returns:
the thread exists, both lists are empty, no signal is in flight, `taskProcessed()` was
never emitted, and the timer is not active, so its timeout slot does nothing and the
thread is not deleted. -/
theorem idle_thread_with_timer_stopped :
    ((performAll (ctor 1000) idleRun)._thread = true ∧
      (performAll (ctor 1000) idleRun)._tasksToProcess = [] ∧
      (performAll (ctor 1000) idleRun)._tasksToFinish = [] ∧
      (performAll (ctor 1000) idleRun)._stopTimer = some true) ∧
    ((performAll (ctor 1000) cancelBeforeTakeRun)._thread = true ∧
      (performAll (ctor 1000) cancelBeforeTakeRun)._tasksToProcess = [] ∧
      (performAll (ctor 1000) cancelBeforeTakeRun)._tasksToFinish = [] ∧
      (performAll (ctor 1000) cancelBeforeTakeRun)._stopTimer = some false ∧
      (performAll (ctor 1000) cancelBeforeTakeRun).pc = WorkerPc.idle ∧
      (performAll (ctor 1000) cancelBeforeTakeRun).taskAdded = 0 ∧
      (performAll (ctor 1000) cancelBeforeTakeRun).taskProcessed = 0 ∧
      perform (performAll (ctor 1000) cancelBeforeTakeRun) Event.stopTimerTimeout
        = performAll (ctor 1000) cancelBeforeTakeRun) ∧
    ((performAll (ctor 1000) emptyAddRun)._thread = true ∧
      (performAll (ctor 1000) emptyAddRun)._tasksToProcess = [] ∧
      (performAll (ctor 1000) emptyAddRun)._tasksToFinish = [] ∧
      (performAll (ctor 1000) emptyAddRun)._stopTimer = some false ∧
      (performAll (ctor 1000) emptyAddRun).pc = WorkerPc.idle ∧
      (performAll (ctor 1000) emptyAddRun).taskAdded = 0 ∧
      (performAll (ctor 1000) emptyAddRun).taskProcessed = 0 ∧
      perform (performAll (ctor 1000) emptyAddRun) Event.stopTimerTimeout
        = performAll (ctor 1000) emptyAddRun) := by
  decide

/-! ## The loop test of `onTaskAdded` -/

theorem emptyTurns_spin (n : Nat) (q : TaskQueue) (hpc : q.pc = WorkerPc.atLock)
    (hp : q._tasksToProcess = []) (hs : q.someTasksLeft = true)
    (hi : q.interruptionRequested = false) :
    performAll q (emptyTurns n) = q := by
  induction n with
  | zero => rfl
  | succ n ih =>
    have h1 : perform (perform q Event.workerTake) Event.workerLoopTest = q := by
      simp only [perform, hpc, decide_True, if_true, workerTake, hp, workerLoopTest, hs, hi]
      simp
      cases q
      simp_all
    simp only [emptyTurns, performAll]
    rw [h1]
    exact ih

/-- Claim C24, where the code departs from it: the loop of `onTaskAdded` tests the local
`someTasksLeft`, written only when a task is moved to `_tasksToFinish`, not the list.
When `taskB` is added after `taskA` was moved and before `processEvents()`, or when
`taskA` is cancelled during its `process()` with `taskB` behind it, `onTaskAdded`
returns without an interruption request while `_tasksToProcess` holds `taskB`, and no
`taskAdded()` is left to start it again.  When the last task is cancelled during its
`process()` after an earlier task was moved with it behind, the loop goes on turn after
turn with `_tasksToProcess` empty. -/
theorem onTaskAdded_loop_test_is_stale :
    ((performAll (ctor 0) lateAddRun).pc = WorkerPc.idle ∧
      (performAll (ctor 0) lateAddRun)._inTaskAdded = false ∧
      (performAll (ctor 0) lateAddRun).interruptionRequested = false ∧
      (performAll (ctor 0) lateAddRun)._tasksToProcess = [taskB] ∧
      (performAll (ctor 0) lateAddRun).taskAdded = 0) ∧
    ((performAll (ctor 0) cancelStrandsRun).pc = WorkerPc.idle ∧
      (performAll (ctor 0) cancelStrandsRun)._inTaskAdded = false ∧
      (performAll (ctor 0) cancelStrandsRun).interruptionRequested = false ∧
      (performAll (ctor 0) cancelStrandsRun)._tasksToProcess = [taskB] ∧
      (performAll (ctor 0) cancelStrandsRun).taskAdded = 0) ∧
    (∀ n : Nat,
      (performAll (ctor 0) (cancelLastRun ++ emptyTurns n)).pc = WorkerPc.atLock ∧
      (performAll (ctor 0) (cancelLastRun ++ emptyTurns n))._inTaskAdded = true ∧
      (performAll (ctor 0) (cancelLastRun ++ emptyTurns n))._tasksToProcess = [] ∧
      (performAll (ctor 0) (cancelLastRun ++ emptyTurns n)).interruptionRequested
        = false) := by
  refine ⟨by decide, by decide, ?_⟩
  intro n
  rw [run_append, emptyTurns_spin n _ (by decide) (by decide) (by decide) (by decide)]
  decide

end TaskQueue

namespace FileLoadTask

/-! ## Lemmas on the stored file size -/

theorem storedFilesize_of_nonneg (s : Int) (hs : 0 ≤ s) :
    storedFilesize s = min s 2147483647 := by
  unfold storedFilesize toInt32
  omega

theorem processTail_of_nonneg (t : FileLoadTask) (kFileSizeLimit : Int)
    (type : SendMediaType) (filesize : Int) (fullimage : QImage) (animated : Bool)
    (hs : 0 ≤ filesize) :
    processTail t kFileSizeLimit type filesize fullimage animated =
      { filesize := storedFilesize filesize } := by
  have hneg : ¬ filesize < 0 := by omega
  unfold processTail
  simp only [hneg, if_false]
  repeat' split
  all_goals rfl

theorem processTail_ne_folder (t : FileLoadTask) (kFileSizeLimit : Int)
    (type : SendMediaType) (filesize : Nat) (fullimage : QImage) (animated : Bool) :
    (processTail t kFileSizeLimit type filesize fullimage animated).filesize ≠ -1 := by
  rw [processTail_of_nonneg t kFileSizeLimit type filesize fullimage animated (by omega)]
  show storedFilesize filesize ≠ -1
  rw [storedFilesize_of_nonneg _ (by omega)]
  omega

/-! ## Failure encoded in `filesize` -/

/-- Claim C25: `process()` leaves `-1` in `_result->filesize` exactly when the task has a
path and the path is a directory.  This takes `App::kFileSizeLimit` not negative, and
for an image pasted as a photo, where `filesize` is `-1` until the JPEG data are there
("Fill later"), that `Images::prepareOpaque` hands the image on with its size, that the
generated name `image.jpg` passes for neither audio nor video, and that the size of the
JPEG data fits an `int32`.  On the result, `finish()` shows the empty-file box when there
is no result or `filesize` is 0, the folder box when it is -1, the too-large box when
it exceeds `kFileSizeLimit`, and calls `onSendFileConfirm` only when none of these
holds (and `App::main()` is there). -/
theorem filesize_encodes_failure (app : App) (t : FileLoadTask) (kFileSizeLimit : Int)
    (hlimit : 0 ≤ kFileSizeLimit) (hjpg : t.jpgSize < 2147483648)
    (hpaste : fillsLater t = true →
      t.preparedImage = t._image ∧ t.audioLike = false ∧ t.videoLike = false) :
    ((process t kFileSizeLimit).filesize = -1 ↔
      (t.filepathIsEmpty = false ∧ t.infoIsDir = true)) ∧
    finish app none kFileSizeLimit = FinishAction.showImageEmpty ∧
    (∀ r : FileLoadResult,
      (finish app (some r) kFileSizeLimit = FinishAction.showImageEmpty ↔ r.filesize = 0) ∧
      (finish app (some r) kFileSizeLimit = FinishAction.showFolder ↔ r.filesize = -1) ∧
      (finish app (some r) kFileSizeLimit = FinishAction.showImageTooLarge ↔
        r.filesize > kFileSizeLimit) ∧
      (finish app (some r) kFileSizeLimit = FinishAction.onSendFileConfirm ↔
        (r.filesize ≠ 0 ∧ r.filesize ≠ -1 ∧ ¬ r.filesize > kFileSizeLimit ∧
          app.main = true))) ∧
    (finish app (some (process t kFileSizeLimit)) kFileSizeLimit = FinishAction.showFolder ↔
      (t.filepathIsEmpty = false ∧ t.infoIsDir = true)) := by
  have hfin : ∀ r : FileLoadResult,
      (finish app (some r) kFileSizeLimit = FinishAction.showImageEmpty ↔ r.filesize = 0) ∧
      (finish app (some r) kFileSizeLimit = FinishAction.showFolder ↔ r.filesize = -1) ∧
      (finish app (some r) kFileSizeLimit = FinishAction.showImageTooLarge ↔
        r.filesize > kFileSizeLimit) ∧
      (finish app (some r) kFileSizeLimit = FinishAction.onSendFileConfirm ↔
        (r.filesize ≠ 0 ∧ r.filesize ≠ -1 ∧ ¬ r.filesize > kFileSizeLimit ∧
          app.main = true)) := by
    intro r
    unfold finish
    by_cases h0 : r.filesize = 0
    · simp [h0]; omega
    · by_cases h1 : r.filesize = -1
      · simp [h1]; omega
      · by_cases h2 : r.filesize > kFileSizeLimit
        · simp [h0, h1, h2]
        · cases hm : app.main <;> simp [h0, h1, h2, hm]
  have hproc : (process t kFileSizeLimit).filesize = -1 ↔
      (t.filepathIsEmpty = false ∧ t.infoIsDir = true) := by
    unfold process
    cases hp : t.filepathIsEmpty
    · cases hd : t.infoIsDir
      · simpa using processTail_ne_folder t kFileSizeLimit t._type t.infoSize
          t.readImage t.readAnimated
      · simp
    · refine ⟨fun h => absurd h ?_, fun h => by cases h.1⟩
      simp only [Bool.not_true, Bool.false_eq_true, if_false]
      split
      · split
        · exact processTail_ne_folder t kFileSizeLimit _ t.contentSize _ _
        · split
          · exact processTail_ne_folder t kFileSizeLimit _ t.contentSize _ _
          · exact processTail_ne_folder t kFileSizeLimit _ t.contentSize _ _
      · rename_i hc
        have hc0 : t.contentSize = 0 := by simpa using hc
        split
        · rename_i hpix
          split
          · rename_i hphoto
            split
            · exact processTail_ne_folder t kFileSizeLimit _ t.pngSize _ _
            · rename_i hasp
              have hasp2 : normalAspect t._image.width t._image.height = true := by
                simpa using hasp
              have hfill : fillsLater t = true := by
                simp [fillsLater, hp, hc0, hpix, hphoto, hasp2]
              obtain ⟨e1, e2, e3⟩ := hpaste hfill
              have hv : ¬ t._type = SendMediaType.Audio := by rw [hphoto]; decide
              have hearly : returnsEarly (-1) kFileSizeLimit = false := by
                simp [returnsEarly]; omega
              simp only [processTail, hearly, e1, e2, e3, hpix, hasp2, hv]
              simp
              unfold toInt32
              omega
          · split
            · exact processTail_ne_folder t kFileSizeLimit _ t.pngSize _ _
            · exact processTail_ne_folder t kFileSizeLimit _ 0 _ _
        · exact processTail_ne_folder t kFileSizeLimit _ 0 _ _
  refine ⟨hproc, rfl, hfin, ?_⟩
  rw [(hfin (process t kFileSizeLimit)).2.1]
  exact hproc

/-- Witness of C25: the path of a directory ends with `filesize = -1` and the folder box;
a pasted photo takes the statement "Fill later" and does not end with `-1`. -/
theorem filesize_encodes_failure_witness :
    (process folderTask 1572864000).filesize = -1 ∧
    finish PtsWaiter.appWithMain (some (process folderTask 1572864000)) 1572864000
      = FinishAction.showFolder ∧
    fillsLater pastedPhotoTask = true ∧
    (process pastedPhotoTask 1572864000).filesize ≠ -1 :=
  ⟨(filesize_encodes_failure PtsWaiter.appWithMain folderTask 1572864000 (by decide) (by decide)
      (by decide)).1.mpr (by decide),
   (filesize_encodes_failure PtsWaiter.appWithMain folderTask 1572864000 (by decide) (by decide)
      (by decide)).2.2.2.mpr (by decide),
   by decide,
   fun h => absurd ((filesize_encodes_failure PtsWaiter.appWithMain pastedPhotoTask 1572864000
      (by decide) (by decide) (by decide)).1.mp h).1 (by decide)⟩

/-! ## The `int32` clamp -/

/-- Claim C29: for every 64-bit file size `s >= 0` and `0 <= kFileSizeLimit < INT_MAX`,
the stored `(int32)qMin(s, INT_MAX)` is 0 iff `s` is 0 and exceeds the limit iff `s`
does, and it is never negative; so `process()` returns early exactly when `finish()`
shows the empty-file or the too-large box for the stored value, a size above
`2^31 - 1` is stored as `INT_MAX` and shown as too large, and a task made from the path
of a file of `s` bytes (no image) ends with this stored value. -/
theorem stored_filesize_agrees (app : App) (s kFileSizeLimit : Int) (hs : 0 ≤ s)
    (h64 : s < 9223372036854775808) (hlimit : 0 ≤ kFileSizeLimit)
    (hmax : kFileSizeLimit < 2147483647) :
    (storedFilesize s = 0 ↔ s = 0) ∧
    (storedFilesize s > kFileSizeLimit ↔ s > kFileSizeLimit) ∧
    0 ≤ storedFilesize s ∧
    (returnsEarly s kFileSizeLimit = true ↔
      (finish app (some { filesize := storedFilesize s }) kFileSizeLimit
          = FinishAction.showImageEmpty ∨
        finish app (some { filesize := storedFilesize s }) kFileSizeLimit
          = FinishAction.showImageTooLarge)) ∧
    (finish app (some { filesize := storedFilesize s }) kFileSizeLimit
        = FinishAction.showImageEmpty ↔ s = 0) ∧
    (finish app (some { filesize := storedFilesize s }) kFileSizeLimit
        = FinishAction.showImageTooLarge ↔ s > kFileSizeLimit) ∧
    (2147483647 < s →
      storedFilesize s = 2147483647 ∧
      finish app (some { filesize := storedFilesize s }) kFileSizeLimit
        = FinishAction.showImageTooLarge) ∧
    process (plainFileTask s.toNat) kFileSizeLimit = { filesize := storedFilesize s } := by
  have hst := storedFilesize_of_nonneg s hs
  have h0 : storedFilesize s = 0 ↔ s = 0 := by rw [hst]; omega
  have h1 : storedFilesize s > kFileSizeLimit ↔ s > kFileSizeLimit := by rw [hst]; omega
  have h2 : 0 ≤ storedFilesize s := by rw [hst]; omega
  have hne : storedFilesize s ≠ -1 := by omega
  have he : finish app (some { filesize := storedFilesize s }) kFileSizeLimit
      = FinishAction.showImageEmpty ↔ s = 0 := by
    unfold finish
    by_cases hz : s = 0
    · have e := h0.mpr hz
      simp only [e]
      simp [hz]
    · have hz2 : ¬ storedFilesize s = 0 := fun h => hz (h0.mp h)
      simp only [hz2, hne, if_false, hz, iff_false]
      split
      · simp
      · split <;> simp
  have hl : finish app (some { filesize := storedFilesize s }) kFileSizeLimit
      = FinishAction.showImageTooLarge ↔ s > kFileSizeLimit := by
    unfold finish
    by_cases hz : s = 0
    · have : ¬ s > kFileSizeLimit := by omega
      have e := h0.mpr hz
      simp only [e]
      simp [this]
    · have hz2 : ¬ storedFilesize s = 0 := fun h => hz (h0.mp h)
      simp only [hz2, hne, if_false]
      by_cases hb : s > kFileSizeLimit
      · simp [h1.mpr hb, hb]
      · have hb2 : ¬ storedFilesize s > kFileSizeLimit := fun h => hb (h1.mp h)
        simp only [hb2, if_false, hb, iff_false]
        split <;> simp
  refine ⟨h0, h1, h2, ?_, he, hl, ?_, ?_⟩
  · rw [he, hl]
    simp [returnsEarly]
  · intro hbig
    exact ⟨by rw [hst]; omega, hl.mpr (by omega)⟩
  · have hcast : ((s.toNat : Nat) : Int) = s := Int.toNat_of_nonneg hs
    have : process (plainFileTask s.toNat) kFileSizeLimit
        = processTail (plainFileTask s.toNat) kFileSizeLimit SendMediaType.File
            (s.toNat : Nat) { isNull := true, width := 0, height := 0 } false := by
      simp [process, plainFileTask, folderTask]
    rw [this, processTail_of_nonneg _ _ _ _ _ _ (by omega), hcast]

/-- Witness of C29: a size of 3000000000 bytes is stored as `INT_MAX` and shown as too
large, with a limit of 1500 MB. -/
theorem stored_filesize_agrees_witness :
    storedFilesize 3000000000 = 2147483647 ∧
    finish PtsWaiter.appWithMain (some { filesize := storedFilesize 3000000000 }) 1572864000
      = FinishAction.showImageTooLarge ∧
    returnsEarly 3000000000 1572864000 = true :=
  ⟨((stored_filesize_agrees PtsWaiter.appWithMain 3000000000 1572864000 (by decide) (by decide)
      (by decide) (by decide)).2.2.2.2.2.2.1 (by decide)).1,
   ((stored_filesize_agrees PtsWaiter.appWithMain 3000000000 1572864000 (by decide) (by decide)
      (by decide) (by decide)).2.2.2.2.2.2.1 (by decide)).2,
   by decide⟩

end FileLoadTask

namespace EmptyUserpic

/-! ## Lemmas on the loop of `fillString` -/

theorem fillTurn_rest (ops : CharOps) (s : FillState) (c : QChar) (rest : List QChar) :
    ∀ x ∈ (fillTurn ops s c rest).2, x ∈ c :: rest := by
  intro x hx
  unfold fillTurn at hx
  split at hx
  · exact List.mem_of_mem_drop hx
  · split at hx
    · split at hx
      · cases hx
      · split at hx
        · exact List.mem_cons_of_mem _ (List.mem_cons_of_mem _ hx)
        · exact List.mem_cons_of_mem _ hx
    · split at hx
      · split at hx
        · cases hx
        · split at hx
          · exact List.mem_cons_of_mem _ (List.mem_cons_of_mem _ hx)
          · exact List.mem_cons_of_mem _ hx
      · split at hx
        · exact List.mem_cons_of_mem _ hx
        · split at hx
          · exact List.mem_cons_of_mem _ hx
          · exact List.mem_cons_of_mem _ hx

theorem fillTurn_one_letter (ops : CharOps) (s : FillState) (c : QChar)
    (rest : List QChar) (hc : c ≠ 32)
    (h : s.letters.length ≤ 1 ∧ (s.letterFound = false → s.letters = [])) :
    (fillTurn ops s c rest).1.letters.length ≤ 1 ∧
    ((fillTurn ops s c rest).1.letterFound = false → (fillTurn ops s c rest).1.letters = []) := by
  unfold fillTurn
  split
  · exact h
  · split
    · split
      · exact h
      · split <;> exact h
    · split
      · rename_i hl
        have hf : s.letterFound = false := by
          cases hq : s.letterFound
          · rfl
          · rw [hq] at hl; simp at hl
        have he := h.2 hf
        split
        · simp [he]
        · split <;> simp [he]
      · split
        · refine ⟨h.1, ?_⟩
          intro hcontra
          cases hcontra
        · exact h

theorem fillLoop_one_letter (ops : CharOps) (fuel : Nat) :
    ∀ (s : FillState) (text : List QChar) (r : FillState), 32 ∉ text →
      (s.letters.length ≤ 1 ∧ (s.letterFound = false → s.letters = [])) →
      fillLoop ops fuel s text = some r → r.letters.length ≤ 1 := by
  induction fuel with
  | zero =>
    intro s text r _ h hr
    cases text with
    | nil => simp only [fillLoop, Option.some.injEq] at hr; rw [← hr]; exact h.1
    | cons c rest => simp [fillLoop] at hr
  | succ fuel ih =>
    intro s text r ht h hr
    cases text with
    | nil => simp only [fillLoop, Option.some.injEq] at hr; rw [← hr]; exact h.1
    | cons c rest =>
      simp only [fillLoop] at hr
      have hc : c ≠ 32 := fun e => ht (by simp [e])
      refine ih _ _ r ?_ (fillTurn_one_letter ops s c rest hc h) hr
      intro hmem
      exact ht (fillTurn_rest ops s c rest 32 hmem)

theorem fillTurn_levels (ops : CharOps) (s : FillState) (c : QChar) (rest : List QChar)
    (h : (s.letterFound = false → s.level = 0) ∧ ∀ l ∈ s.levels, l = 0) :
    ((fillTurn ops s c rest).1.letterFound = false → (fillTurn ops s c rest).1.level = 0) ∧
    ∀ l ∈ (fillTurn ops s c rest).1.levels, l = 0 := by
  unfold fillTurn
  split
  · exact h
  · split
    · split
      · exact h
      · split <;> exact h
    · split
      · rename_i hl
        have hf : s.letterFound = false := by
          cases hq : s.letterFound
          · rfl
          · rw [hq] at hl; simp at hl
        have h0 := h.1 hf
        have key : ∀ l ∈ s.levels ++ [s.level], l = 0 := by
          intro l hl'
          rcases List.mem_append.mp hl' with h1 | h1
          · exact h.2 l h1
          · rw [List.mem_singleton.mp h1]; exact h0
        split
        · exact ⟨fun hc => (by cases hc), key⟩
        · split
          · exact ⟨fun hc => (by cases hc), key⟩
          · exact ⟨fun hc => (by cases hc), key⟩
      · split
        · exact ⟨fun _ => rfl, h.2⟩
        · split
          · exact ⟨fun hc => (by cases hc), h.2⟩
          · exact h

theorem fillLoop_levels (ops : CharOps) (fuel : Nat) :
    ∀ (s : FillState) (text : List QChar) (r : FillState),
      ((s.letterFound = false → s.level = 0) ∧ ∀ l ∈ s.levels, l = 0) →
      fillLoop ops fuel s text = some r → ∀ l ∈ r.levels, l = 0 := by
  induction fuel with
  | zero =>
    intro s text r h hr
    cases text with
    | nil => simp only [fillLoop, Option.some.injEq] at hr; rw [← hr]; exact h.2
    | cons c rest => simp [fillLoop] at hr
  | succ fuel ih =>
    intro s text r h hr
    cases text with
    | nil => simp only [fillLoop, Option.some.injEq] at hr; rw [← hr]; exact h.2
    | cons c rest =>
      simp only [fillLoop] at hr
      exact ih _ _ r (fillTurn_levels ops s c rest h) hr

/-! ## The letter after a hyphen -/

/-- Claim C26, where the code departs from its comment ("it can also be after '-'"): at
a `'-'` that follows a letter `fillString` sets `level = 1` and sets `letterFound` to
`true`, which it already is, so no letter is recorded before the next space.  Whatever
the character functions answer, a name without a space has at most one letter
recorded, and every recorded letter has level 0; for `"Ab-Cd"` the result is `"A"`, not
`"AC"`, while for `"Ab Cd"` it is `"AC"`. -/
theorem fillString_drops_letter_after_hyphen :
    (∀ (ops : CharOps) (name : List QChar) (fuel : Nat) (r : FillState), 32 ∉ name →
      fillLoop ops fuel FillState.start name = some r → r.letters.length ≤ 1) ∧
    (∀ (ops : CharOps) (name : List QChar) (fuel : Nat) (r : FillState),
      fillLoop ops fuel FillState.start name = some r → ∀ l ∈ r.levels, l = 0) ∧
    fillString asciiOps (qstr "Ab-Cd") = some (qstr "A") ∧
    fillString asciiOps (qstr "Ab Cd") = some (qstr "AC") := by
  refine ⟨?_, ?_, by decide, by decide⟩
  · intro ops name fuel r hn hr
    exact fillLoop_one_letter ops fuel FillState.start name r hn
      ⟨by decide, fun _ => rfl⟩ hr
  · intro ops name fuel r hr
    exact fillLoop_levels ops fuel FillState.start name r
      ⟨fun _ => rfl, fun l hl => by cases hl⟩ hr

end EmptyUserpic

/-! ## Lemmas on the waveform sizes -/

theorem encodedSize_eq (n : Nat) (h : n * 5 + 7 < 2147483648) :
    encodedSize n = (n * 5 + 7) / 8 := by
  unfold encodedSize toInt32
  have e1 : ((n : Int) * 5 + 2147483648) % 4294967296 - 2147483648 = (n : Int) * 5 := by
    omega
  rw [e1]
  have e2 : ((n : Int) * 5 + 7 + 2147483648) % 4294967296 - 2147483648 = (n : Int) * 5 + 7 := by
    omega
  rw [e2, Int.tdiv_eq_ediv (by omega) (by omega)]
  omega

theorem decodedSize_eq (n : Nat) (h : n * 8 < 2147483648) :
    decodedSize n = (n * 8) / 5 := by
  unfold decodedSize toInt32
  have e1 : ((n : Int) * 8 + 2147483648) % 4294967296 - 2147483648 = (n : Int) * 8 := by
    omega
  rw [e1, Int.tdiv_eq_ediv (by omega) (by omega)]
  omega

theorem byteOf_eq (i : Nat) (h : i * 5 < 2147483648) : byteOf i = (i * 5) / 8 := by
  unfold byteOf toInt32
  have e1 : ((i : Int) * 5 + 2147483648) % 4294967296 - 2147483648 = (i : Int) * 5 := by
    omega
  rw [e1, Int.tdiv_eq_ediv (by omega) (by omega)]
  omega

theorem shiftOf_eq (i : Nat) (h : i * 5 < 2147483648) : shiftOf i = (i * 5) % 8 := by
  unfold shiftOf toInt32
  have e1 : ((i : Int) * 5 + 2147483648) % 4294967296 - 2147483648 = (i : Int) * 5 := by
    omega
  rw [e1, Int.tmod_eq_emod (by omega) (by omega)]
  omega

/-! ## Lemmas on memory as a number -/

theorem readUInt16_cons_succ (b : Nat) (tl : List Nat) (k : Nat) :
    readUInt16 (b :: tl) (k + 1) = readUInt16 tl k := by
  simp [readUInt16, List.getD_cons_succ]

theorem orUInt16_cons_succ (b : Nat) (tl : List Nat) (k v : Nat) :
    orUInt16 (b :: tl) (k + 1) v = b :: orUInt16 tl k v := by
  simp [orUInt16, readUInt16_cons_succ, List.set_cons_succ]

theorem readUInt16_eq (k : Nat) :
    ∀ mem : List Nat, (∀ b ∈ mem, b < 256) →
      readUInt16 mem k = Nat.ofDigits 256 mem / 256 ^ k % 65536 := by
  induction k with
  | zero =>
    intro mem hb
    cases mem with
    | nil => simp [readUInt16]
    | cons b0 tl =>
      have h0 : b0 < 256 := hb b0 (List.mem_cons_self _ _)
      cases tl with
      | nil => simp [readUInt16, Nat.ofDigits_cons]; omega
      | cons b1 tl2 =>
        have h1 : b1 < 256 := hb b1 (List.mem_cons_of_mem _ (List.mem_cons_self _ _))
        simp only [readUInt16, List.getD_cons_zero, List.getD_cons_succ, Nat.ofDigits_cons,
          pow_zero, Nat.div_one]
        omega
  | succ k ih =>
    intro mem hb
    cases mem with
    | nil => simp [readUInt16]
    | cons b tl =>
      have h0 : b < 256 := hb b (List.mem_cons_self _ _)
      rw [readUInt16_cons_succ, ih tl (fun x hx => hb x (List.mem_cons_of_mem _ hx)),
        Nat.ofDigits_cons, pow_succ, Nat.mul_comm (256 ^ k) 256, ← Nat.div_div_eq_div_mul]
      congr 2
      omega

theorem orUInt16_length (mem : List Nat) (k v : Nat) :
    (orUInt16 mem k v).length = mem.length := by
  simp [orUInt16]

theorem orUInt16_bytes (mem : List Nat) (k v : Nat) (hb : ∀ b ∈ mem, b < 256) :
    ∀ b ∈ orUInt16 mem k v, b < 256 := by
  intro b hmem
  unfold orUInt16 at hmem
  rcases List.mem_or_eq_of_mem_set hmem with h | h
  · rcases List.mem_or_eq_of_mem_set h with h2 | h2
    · exact hb b h2
    · rw [h2]; exact Nat.mod_lt _ (by norm_num)
  · rw [h]; exact Nat.mod_lt _ (by norm_num)

theorem ofDigits_orUInt16 (k : Nat) :
    ∀ (mem : List Nat) (v : Nat), k + 1 < mem.length →
      readUInt16 mem k ||| v < 65536 →
      Nat.ofDigits 256 (orUInt16 mem k v) + readUInt16 mem k * 256 ^ k =
        Nat.ofDigits 256 mem + (readUInt16 mem k ||| v) * 256 ^ k := by
  induction k with
  | zero =>
    intro mem v hlen hx
    cases mem with
    | nil => simp at hlen
    | cons b0 tl =>
      cases tl with
      | nil => simp at hlen
      | cons b1 tl2 =>
        have hr : readUInt16 (b0 :: b1 :: tl2) 0 = b0 + 256 * b1 := by
          simp [readUInt16]
        rw [hr] at hx ⊢
        simp only [orUInt16, hr, List.set_cons_zero, List.set_cons_succ, Nat.ofDigits_cons,
          pow_zero, Nat.mul_one]
        omega
  | succ k ih =>
    intro mem v hlen hx
    cases mem with
    | nil => simp at hlen
    | cons b tl =>
      rw [readUInt16_cons_succ] at hx ⊢
      rw [orUInt16_cons_succ]
      have h := ih tl v (by simpa using hlen) hx
      simp only [Nat.ofDigits_cons, pow_succ]
      linear_combination 256 * h

theorem shift_mask (X s : Nat) (hs : s < 8) :
    (X % 65536) >>> s &&& 0x1F = X / 2 ^ s % 32 := by
  have h := Nat.and_pow_two_sub_one_eq_mod ((X % 65536) >>> s) 5
  have e : (2 : Nat) ^ 5 - 1 = 0x1F := by norm_num
  rw [e] at h
  rw [h, Nat.shiftRight_eq_div_pow]
  interval_cases s <;> omega

theorem pow_byte_shift (i : Nat) : 256 ^ (i * 5 / 8) * 2 ^ (i * 5 % 8) = 32 ^ i := by
  have e1 : (256 : Nat) = 2 ^ 8 := by norm_num
  have e2 : (32 : Nat) = 2 ^ 5 := by norm_num
  rw [e1, e2, ← pow_mul, ← pow_mul, ← pow_add]
  congr 1
  omega

theorem ofDigits32_digit (l : List Nat) (hl : ∀ x ∈ l, x < 32) (i : Nat) :
    Nat.ofDigits 32 l / 32 ^ i % 32 = l.getD i 0 := by
  rw [Nat.ofDigits_div_pow_eq_ofDigits_drop i (by norm_num) l hl,
    List.getD_eq_getElem?_getD]
  have h : l[i]? = (l.drop i)[0]? := by simp
  rw [h]
  cases hd : l.drop i with
  | nil => simp
  | cons x rest =>
    have hx32 : x < 32 := by
      apply hl
      apply List.mem_of_mem_drop
      rw [hd]
      exact List.mem_cons_self _ _
    simp only [Nat.ofDigits_cons, List.getElem?_cons_zero, Option.getD_some]
    omega

/-! ## Lemmas on the encoder -/

theorem ofDigits_replicate_zero (b n : Nat) : Nat.ofDigits b (List.replicate n 0) = 0 := by
  induction n with
  | zero => simp
  | succ n ih => simp [List.replicate_succ, Nat.ofDigits_cons, ih]

theorem fiveBits_lt (w : List Int) : ∀ x ∈ fiveBits w, x < 32 := by
  intro x hx
  obtain ⟨y, _, rfl⟩ := List.mem_map.mp hx
  omega

theorem fiveBits_getD (w : List Int) (i : Nat) :
    (fiveBits w).getD i 0 = (w.getD i 0 % 32).toNat := by
  have h := List.getD_map w (0 : Int) (n := i) (fun x => (x % 32).toNat)
  simpa [fiveBits] using h

theorem encodeTurns_inv (w : List Int) (hn : w.length * 5 + 7 < 2147483648) (i : Nat)
    (hi : i ≤ w.length) :
    (encodeTurns w i (List.replicate (encodedSize w.length + 1) 0)).length
      = encodedSize w.length + 1 ∧
    (∀ b ∈ encodeTurns w i (List.replicate (encodedSize w.length + 1) 0), b < 256) ∧
    Nat.ofDigits 256 (encodeTurns w i (List.replicate (encodedSize w.length + 1) 0))
      = Nat.ofDigits 32 ((fiveBits w).take i) := by
  induction i with
  | zero =>
    refine ⟨by simp [encodeTurns], ?_, ?_⟩
    · intro b hb
      simp only [encodeTurns] at hb
      rw [List.eq_of_mem_replicate hb]
      norm_num
    · simp [encodeTurns, ofDigits_replicate_zero]
  | succ i ih =>
    obtain ⟨hlen, hbytes, hval⟩ := ih (by omega)
    have hB := encodedSize_eq w.length hn
    have hk := byteOf_eq i (by omega)
    have hs := shiftOf_eq i (by omega)
    have hfl : (fiveBits w).length = w.length := by simp [fiveBits]
    have ha : (fiveBits w).getD i 0 < 32 := by
      rw [fiveBits_getD]; omega
    -- the value of the memory so far is below `32 ^ i`
    have hS : Nat.ofDigits 32 ((fiveBits w).take i) < 32 ^ i := by
      have h := Nat.ofDigits_lt_base_pow_length (b := 32) (l := (fiveBits w).take i)
        (by norm_num) (fun x hx => fiveBits_lt w x (List.mem_of_mem_take hx))
      have hl : ((fiveBits w).take i).length = i := by
        rw [List.length_take, hfl]; omega
      rwa [hl] at h
    have hpow := pow_byte_shift i
    have hs8 : i * 5 % 8 < 8 := Nat.mod_lt _ (by norm_num)
    have h2s : 2 ^ (i * 5 % 8) ≤ 128 := by
      have : 2 ^ (i * 5 % 8) ≤ 2 ^ 7 := Nat.pow_le_pow_right (by norm_num) (by omega)
      simpa using this
    have hR : readUInt16 (encodeTurns w i (List.replicate (encodedSize w.length + 1) 0))
        (i * 5 / 8) < 2 ^ (i * 5 % 8) := by
      rw [readUInt16_eq _ _ hbytes, hval]
      refine lt_of_le_of_lt (Nat.mod_le _ _) ?_
      rw [Nat.div_lt_iff_lt_mul (by positivity), Nat.mul_comm, hpow]
      exact hS
    have hor : readUInt16 (encodeTurns w i (List.replicate (encodedSize w.length + 1) 0))
        (i * 5 / 8) ||| shiftedSample w i =
        2 ^ (i * 5 % 8) * (fiveBits w).getD i 0 +
          readUInt16 (encodeTurns w i (List.replicate (encodedSize w.length + 1) 0))
            (i * 5 / 8) := by
      have hv : shiftedSample w i = 2 ^ (i * 5 % 8) * (fiveBits w).getD i 0 := by
        unfold shiftedSample
        rw [hs, Nat.shiftLeft_eq, fiveBits_getD, Nat.mul_comm]
      rw [hv, Nat.lor_comm]
      exact (Nat.mul_add_lt_is_or hR _).symm
    have hx : readUInt16 (encodeTurns w i (List.replicate (encodedSize w.length + 1) 0))
        (i * 5 / 8) ||| shiftedSample w i < 65536 := by
      rw [hor]
      have : 2 ^ (i * 5 % 8) * (fiveBits w).getD i 0 ≤ 2 ^ (i * 5 % 8) * 31 :=
        Nat.mul_le_mul_left _ (by omega)
      omega
    have hstep := ofDigits_orUInt16 (i * 5 / 8)
      (encodeTurns w i (List.replicate (encodedSize w.length + 1) 0))
      (shiftedSample w i) (by rw [hlen, hB]; omega) hx
    refine ⟨?_, ?_, ?_⟩
    · simp only [encodeTurns]
      rw [orUInt16_length, hlen]
    · simp only [encodeTurns]
      exact orUInt16_bytes _ _ _ hbytes
    · simp only [encodeTurns]
      rw [hk]
      have htake : (fiveBits w).take (i + 1)
          = (fiveBits w).take i ++ [(fiveBits w).getD i 0] := by
        have hlt : i < (fiveBits w).length := by rw [hfl]; omega
        rw [List.take_succ, List.getD_eq_getElem _ _ hlt, List.getElem?_eq_getElem hlt]
        rfl
      have hl : ((fiveBits w).take i).length = i := by
        rw [List.length_take, hfl]; omega
      rw [htake, Nat.ofDigits_append, Nat.ofDigits_singleton, hl, ← hval]
      rw [hor, hval] at hstep
      rw [hval]
      have e : (2 ^ (i * 5 % 8) * (fiveBits w).getD i 0 +
          readUInt16 (encodeTurns w i (List.replicate (encodedSize w.length + 1) 0))
            (i * 5 / 8)) * 256 ^ (i * 5 / 8)
          = 32 ^ i * (fiveBits w).getD i 0 +
            readUInt16 (encodeTurns w i (List.replicate (encodedSize w.length + 1) 0))
              (i * 5 / 8) * 256 ^ (i * 5 / 8) := by
        rw [← hpow]; ring
      rw [e] at hstep
      omega

theorem encodedMemory_facts (w : List Int) (hn : w.length * 5 + 7 < 2147483648) :
    (documentWaveformEncode5bit w).length = (w.length * 5 + 7) / 8 ∧
    (∀ b ∈ documentWaveformEncode5bit w, b < 256) ∧
    Nat.ofDigits 256 (documentWaveformEncode5bit w) = Nat.ofDigits 32 (fiveBits w) ∧
    encodedMemory w = documentWaveformEncode5bit w ++ [0] := by
  obtain ⟨hlen, hbytes, hval⟩ := encodeTurns_inv w hn w.length (le_refl _)
  have hB := encodedSize_eq w.length hn
  have hfl : (fiveBits w).length = w.length := by simp [fiveBits]
  rw [List.take_of_length_le (by rw [hfl])] at hval
  have hsplit := List.take_append_drop (encodedSize w.length) (encodedMemory w)
  have hlen2 : (encodedMemory w).length = encodedSize w.length + 1 := hlen
  have hdl : ((encodedMemory w).drop (encodedSize w.length)).length = 1 := by
    rw [List.length_drop, hlen2]; omega
  obtain ⟨t, ht⟩ := List.length_eq_one.mp hdl
  have htl : ((encodedMemory w).take (encodedSize w.length)).length = encodedSize w.length := by
    rw [List.length_take, hlen2]; omega
  have hS : Nat.ofDigits 32 (fiveBits w) < 32 ^ w.length := by
    have h := Nat.ofDigits_lt_base_pow_length (b := 32) (l := fiveBits w)
      (by norm_num) (fiveBits_lt w)
    rwa [hfl] at h
  have hpow : (32 : Nat) ^ w.length ≤ 256 ^ encodedSize w.length := by
    have e1 : (256 : Nat) = 2 ^ 8 := by norm_num
    have e2 : (32 : Nat) = 2 ^ 5 := by norm_num
    rw [e1, e2, ← pow_mul, ← pow_mul]
    exact Nat.pow_le_pow_right (by norm_num) (by rw [hB]; omega)
  have hv : Nat.ofDigits 256 (encodedMemory w)
      = Nat.ofDigits 256 ((encodedMemory w).take (encodedSize w.length))
        + 256 ^ encodedSize w.length * t := by
    conv_lhs => rw [← hsplit]
    rw [Nat.ofDigits_append, ht, Nat.ofDigits_singleton, htl]
  have hval2 : Nat.ofDigits 256 (encodedMemory w) = Nat.ofDigits 32 (fiveBits w) := hval
  have ht0 : t = 0 := by
    by_contra hne
    have h1 : 256 ^ encodedSize w.length ≤ 256 ^ encodedSize w.length * t :=
      Nat.le_mul_of_pos_right _ (Nat.pos_of_ne_zero hne)
    have h2 : Nat.ofDigits 256 (encodedMemory w) < 256 ^ encodedSize w.length := by
      rw [hval2]; exact lt_of_lt_of_le hS hpow
    rw [hv] at h2
    exact absurd (lt_of_le_of_lt (le_trans h1 (Nat.le_add_left _ _)) h2) (lt_irrefl _)
  subst ht0
  refine ⟨?_, ?_, ?_, ?_⟩
  · show ((encodedMemory w).take (encodedSize w.length)).length = _
    rw [htl, hB]
  · intro b hb
    exact hbytes b (List.mem_of_mem_take hb)
  · show Nat.ofDigits 256 ((encodedMemory w).take (encodedSize w.length)) = _
    rw [← hval2, hv]
    simp
  · show encodedMemory w = (encodedMemory w).take (encodedSize w.length) ++ [0]
    rw [← ht, hsplit]

/-! ## Lemmas on the decoder -/

theorem decode_sample (enc : List Nat) (after : Nat) (hb : ∀ b ∈ enc, b < 256)
    (ha : after < 256) (i : Nat) (hi : i * 5 + 5 ≤ enc.length * 8)
    (h32 : i * 5 < 2147483648) :
    (readUInt16 (enc ++ [after]) (byteOf i) >>> shiftOf i) &&& 0x1F
      = Nat.ofDigits 256 enc / 32 ^ i % 32 := by
  have hmem : ∀ b ∈ enc ++ [after], b < 256 := by
    intro b hb'
    rcases List.mem_append.mp hb' with h | h
    · exact hb b h
    · rw [List.mem_singleton.mp h]; exact ha
  rw [byteOf_eq i h32, shiftOf_eq i h32, readUInt16_eq _ _ hmem,
    shift_mask _ _ (Nat.mod_lt _ (by norm_num)), Nat.div_div_eq_div_mul, pow_byte_shift,
    Nat.ofDigits_append, Nat.ofDigits_singleton]
  have hsplit : 256 ^ enc.length = 32 ^ i * (32 * 2 ^ (enc.length * 8 - (i * 5 + 5))) := by
    have e1 : (256 : Nat) = 2 ^ 8 := by norm_num
    have e2 : (32 : Nat) = 2 ^ 5 := by norm_num
    rw [e1, e2, ← pow_mul, ← pow_mul, ← pow_add, ← pow_add]
    congr 1
    omega
  rw [hsplit, Nat.mul_assoc, Nat.add_mul_div_left _ _ (by positivity), Nat.mul_assoc,
    Nat.add_mul_mod_self_left]

theorem decode_eq (enc : List Nat) (after : Nat) (hb : ∀ b ∈ enc, b < 256)
    (ha : after < 256) (hn : enc.length * 8 < 2147483648) :
    documentWaveformDecode enc after =
      (List.range (enc.length * 8 / 5)).map
        (fun i => ((Nat.ofDigits 256 enc / 32 ^ i % 32 : Nat) : Int)) := by
  unfold documentWaveformDecode
  rw [decodedSize_eq _ hn]
  apply List.map_congr_left
  intro i hi
  have hi2 : i < enc.length * 8 / 5 := List.mem_range.mp hi
  rw [decode_sample enc after hb ha i (by omega) (by omega)]

/-! ## The 5-bit round trip -/

/-- Claim C28: for every voice waveform `w` whose samples all lie in `0..31` (and whose
size keeps the `int32` size arithmetic `size * 5 + 7` in range), the encoding has
`ceil(5 * |w| / 8)` bytes, and decoding it gives `w` followed by zeros, at most one of
them, whatever the byte after the encoded array is.  Every `uint16` access of the two
loops stays within the array and the one byte after it, the encoder leaves that byte
0, and for any array of bytes the decoder's result does not depend on it. -/
theorem waveform_round_trip (w : List Int) (after : Nat)
    (hw : ∀ x ∈ w, 0 ≤ x ∧ x ≤ 31) (hn : w.length * 5 + 7 < 2147483648)
    (ha : after < 256) :
    (documentWaveformEncode5bit w).length = (w.length * 5 + 7) / 8 ∧
    (∀ b ∈ documentWaveformEncode5bit w, b < 256) ∧
    documentWaveformDecode (documentWaveformEncode5bit w) after =
      w ++ List.replicate
        ((documentWaveformDecode (documentWaveformEncode5bit w) after).length - w.length) 0 ∧
    (documentWaveformDecode (documentWaveformEncode5bit w) after).take w.length = w ∧
    (∀ x ∈ (documentWaveformDecode (documentWaveformEncode5bit w) after).drop w.length,
      x = 0) ∧
    w.length ≤ (documentWaveformDecode (documentWaveformEncode5bit w) after).length ∧
    (documentWaveformDecode (documentWaveformEncode5bit w) after).length ≤ w.length + 1 ∧
    (∀ i < w.length, byteOf i + 1 ≤ (documentWaveformEncode5bit w).length) ∧
    (∀ i < (documentWaveformDecode (documentWaveformEncode5bit w) after).length,
      byteOf i + 1 ≤ (documentWaveformEncode5bit w).length) ∧
    encodedMemory w = documentWaveformEncode5bit w ++ [0] ∧
    (∀ (enc : List Nat) (a1 a2 : Nat), (∀ b ∈ enc, b < 256) → a1 < 256 → a2 < 256 →
      enc.length * 8 < 2147483648 →
      documentWaveformDecode enc a1 = documentWaveformDecode enc a2) := by
  obtain ⟨hlen, hbytes, hval, hmem⟩ := encodedMemory_facts w hn
  have hd := decode_eq (documentWaveformEncode5bit w) after hbytes ha (by rw [hlen]; omega)
  have hdl : (documentWaveformDecode (documentWaveformEncode5bit w) after).length
      = (w.length * 5 + 7) / 8 * 8 / 5 := by
    rw [hd, List.length_map, List.length_range, hlen]
  have hlo : w.length ≤ (w.length * 5 + 7) / 8 * 8 / 5 := by omega
  have hhi : (w.length * 5 + 7) / 8 * 8 / 5 ≤ w.length + 1 := by omega
  have hfl : (fiveBits w).length = w.length := by simp [fiveBits]
  have hmain : documentWaveformDecode (documentWaveformEncode5bit w) after =
      w ++ List.replicate
        ((documentWaveformDecode (documentWaveformEncode5bit w) after).length - w.length)
        0 := by
    rw [hdl, hd, hlen, hval]
    apply List.ext_getElem?
    intro i
    rw [List.getElem?_map]
    by_cases hin : i < w.length
    · rw [List.getElem?_range (by omega), List.getElem?_append_left hin,
        List.getElem?_eq_getElem hin]
      simp only [Option.map_some']
      rw [ofDigits32_digit _ (fiveBits_lt w), fiveBits_getD, List.getD_eq_getElem _ _ hin]
      have := hw w[i] (List.getElem_mem _)
      rw [Option.some.injEq]
      omega
    · rw [List.getElem?_append_right (by omega), List.getElem?_replicate]
      by_cases him : i < (w.length * 5 + 7) / 8 * 8 / 5
      · rw [List.getElem?_range him, if_pos (by omega)]
        simp only [Option.map_some']
        rw [ofDigits32_digit _ (fiveBits_lt w), fiveBits_getD,
          List.getD_eq_default _ _ (by omega)]
        rfl
      · rw [List.getElem?_eq_none (by rw [List.length_range]; omega), if_neg (by omega)]
        rfl
  refine ⟨hlen, hbytes, hmain, ?_, ?_, by rw [hdl]; exact hlo, by rw [hdl]; exact hhi,
    ?_, ?_, hmem, ?_⟩
  · rw [hmain]
    exact List.take_left' rfl
  · intro x hx
    rw [hmain, List.drop_left' rfl] at hx
    exact List.eq_of_mem_replicate hx
  · intro i hi
    rw [byteOf_eq i (by omega), hlen]
    omega
  · intro i hi
    rw [hdl] at hi
    rw [byteOf_eq i (by omega), hlen]
    omega
  · intro enc a1 a2 hb h1 h2 hsz
    rw [decode_eq enc a1 hb h1 hsz, decode_eq enc a2 hb h2 hsz]

/-- Witness of C28: five samples are encoded in four bytes; decoding reads the byte after
the array (here 255) for the sixth sample and masks it out. -/
theorem waveform_round_trip_witness :
    documentWaveformEncode5bit [1, 31, 0, 17, 5] = [225, 131, 88, 0] ∧
    documentWaveformDecode [225, 131, 88, 0] 255 = [1, 31, 0, 17, 5, 0] ∧
    documentWaveformDecode (documentWaveformEncode5bit [1, 31, 0, 17, 5]) 255 =
      [1, 31, 0, 17, 5] ++ List.replicate
        ((documentWaveformDecode (documentWaveformEncode5bit [1, 31, 0, 17, 5]) 255).length
          - [1, 31, 0, 17, 5].length) 0 :=
  ⟨by decide, by decide,
   (waveform_round_trip [1, 31, 0, 17, 5] 255 (by decide) (by decide) (by decide)).2.2.1⟩

end Telegram
